import Mathlib

/-! # Software rasteriser of the DS GX engine (`src/ds/gx/software.c`)

A shallow embedding of the scan-conversion code: edge construction
(`DSGXSoftwareRendererSetRAM`), the per-scanline edge sweep and span assembly,
the per-pixel span sweep with depth resolution
(`DSGXSoftwareRendererDrawScanline`), the interpolation helpers
(`_edgeToSpan`, `_lerpEndpoint`), the colour codec and the cyclic scanline
cache (`DSGXSoftwareRendererGetScanline`).

Machine integers are mathematical integers with an explicit wrap at every
place where the C code stores into, or computes in, a fixed-width type.
`>> 12` on a signed value is the arithmetic shift (floor division by 4096),
`/` of C is truncating division (`Int.tdiv`), `%` of C is `Int.tmod`.
Division by zero, which C leaves undefined, takes Lean's value 0.
-/

namespace DSGX

/-! ## Fixed-width integers -/

/-- Two's complement wrap of an integer into the signed range of `bits` bits. -/
def wrapS (bits : Nat) (x : Int) : Int :=
  (x + 2 ^ (bits - 1)) % 2 ^ bits - 2 ^ (bits - 1)

/-- Conversion to `int32_t`. -/
def wrap32 (x : Int) : Int := wrapS 32 x

/-- Conversion to `int64_t`. -/
def wrap64 (x : Int) : Int := wrapS 64 x

/-- Conversion to `int16_t`. -/
def wrap16 (x : Int) : Int := wrapS 16 x

/-- Conversion to `uint64_t`. -/
def toU64 (x : Int) : Nat := (x % 2 ^ 64).toNat

/-- Conversion to `uint8_t`. -/
def toU8 (x : Int) : Nat := (x % 256).toNat

/-- Arithmetic right shift by 12 (`v >> 12`). -/
def shr12 (x : Int) : Int := x / 4096

/-! ## Constants -/

/-- Modelled from the spec: the height of the screen in pixels,
`DS_VIDEO_VERTICAL_PIXELS`, a constant of a header that is not among the
sources. -/
def DS_VIDEO_VERTICAL_PIXELS : Int := 192

/-- Modelled from the spec: the width of a scanline in pixels,
`DS_VIDEO_HORIZONTAL_PIXELS`, a constant of a header that is not among the
sources. -/
def DS_VIDEO_HORIZONTAL_PIXELS : Nat := 256

/-- `#define SCREEN_SIZE (DS_VIDEO_VERTICAL_PIXELS << 12)` (line 11). -/
def SCREEN_SIZE : Int := DS_VIDEO_VERTICAL_PIXELS * 4096

/-- Modelled from the spec: the "unwritten" sentinel `FLAG_UNWRITTEN`, a
constant of `gba/renderers/software-private.h`, which is not among the
sources; it has bits above the 24 colour bits set, so that it differs from
every finished colour. -/
def FLAG_UNWRITTEN : Nat := 0xFC000000

/-- `INT32_MIN`. -/
def INT32_MIN : Int := -2147483648

/-! ## Data model

The record layouts come from `mgba/internal/ds/gx/software.h` and
`mgba/internal/ds/gx.h`; the field widths are the ones the code of
`software.c` relies on (32-bit positions and depth terms, 8-bit colour
channels, 16-bit texture coordinates, a 16-bit packed colour). -/

/-- Modelled from the spec: the fields of `struct DSGXVertex` (declared in
`mgba/internal/ds/gx.h`, not among the sources) that the rasteriser reads: the
packed 15-bit colour, the texture coordinates and the screen-space position
and depth term, fixed point with 12 fractional bits. -/
structure DSGXVertex where
  color : Nat
  s : Int
  t : Int
  vx : Int
  vy : Int
  vw : Int
deriving DecidableEq, Repr, Inhabited

/-- Modelled from the spec: the fields of `struct DSGXPolygon` (declared in
`mgba/internal/ds/gx.h`, not among the sources) that the rasteriser reads: the
vertex count `verts` (an `int`) and the table of vertex indices. -/
structure DSGXPolygon where
  verts : Int
  vertIds : List Nat
deriving DecidableEq, Repr, Inhabited

/-- Modelled from the spec: the record `struct DSGXSoftwareEdge` (declared in
`mgba/internal/ds/gx/software.h`, not among the sources), with the fields that
lines 184-255 assign. -/
structure DSGXSoftwareEdge where
  polyId : Nat
  y0 : Int
  x0 : Int
  w0 : Int
  cr0 : Nat
  cg0 : Nat
  cb0 : Nat
  s0 : Int
  t0 : Int
  y1 : Int
  x1 : Int
  w1 : Int
  cr1 : Nat
  cg1 : Nat
  cb1 : Nat
  s1 : Int
  t1 : Int
deriving DecidableEq, Repr, Inhabited

/-- Modelled from the spec: the record `struct DSGXSoftwareEndpoint` (declared
in `mgba/internal/ds/gx/software.h`, not among the sources), with the fields
that lines 73-86 and 126-138 assign. -/
structure DSGXSoftwareEndpoint where
  x : Int
  w : Int
  cr : Nat
  cg : Nat
  cb : Nat
  s : Int
  t : Int
deriving DecidableEq, Repr, Inhabited

/-- The all-zero endpoint that `memset(span, 0, sizeof(*span))` leaves. -/
def zeroEndpoint : DSGXSoftwareEndpoint := ⟨0, 0, 0, 0, 0, 0, 0⟩

/-- Modelled from the spec: the record `struct DSGXSoftwareSpan` (declared in
`mgba/internal/ds/gx/software.h`, not among the sources): `ep[0]` and `ep[1]`. -/
structure DSGXSoftwareSpan where
  ep0 : DSGXSoftwareEndpoint
  ep1 : DSGXSoftwareEndpoint
deriving DecidableEq, Repr, Inhabited

/-- The span after `memset(span, 0, sizeof(*span))`. -/
def zeroSpan : DSGXSoftwareSpan := ⟨zeroEndpoint, zeroEndpoint⟩

/-- Read `span->ep[index]`. -/
def DSGXSoftwareSpan.ep (sp : DSGXSoftwareSpan) (index : Nat) : DSGXSoftwareEndpoint :=
  if index = 0 then sp.ep0 else sp.ep1

/-- Assign `span->ep[index]`. -/
def DSGXSoftwareSpan.setEp (sp : DSGXSoftwareSpan) (index : Nat)
    (e : DSGXSoftwareEndpoint) : DSGXSoftwareSpan :=
  if index = 0 then { sp with ep0 := e } else { sp with ep1 := e }

/-! ## Colour codec (lines 24-39) -/

/-- The function `_expandColor`: the three 6-bit channels of a packed colour. -/
def _expandColor (c15 : Nat) : Nat × Nat × Nat :=
  ((((c15 <<< 1) &&& 0x3E) ||| 1),
   (((c15 >>> 4) &&& 0x3E) ||| 1),
   (((c15 >>> 9) &&& 0x3E) ||| 1))

/-- The function `_finishColor`: the 24-bit output colour of three channels. -/
def _finishColor (r g b : Nat) : Nat :=
  (((r <<< 2) &&& 0xF8) ||| ((g <<< 10) &&& 0xF800)) ||| ((b <<< 18) &&& 0xF80000)

/-! ## Comparators (lines 41-59 and 91-109) -/

/-- The comparator `_edgeSort`. -/
def _edgeSort (ea eb : DSGXSoftwareEdge) : Int :=
  if ea.y0 < eb.y0 then 1
  else if ea.y0 > eb.y0 then -1
  else if ea.y1 < eb.y1 then 1
  else if ea.y1 > eb.y1 then -1
  else 0

/-- The comparator `_spanSort`. -/
def _spanSort (sa sb : DSGXSoftwareSpan) : Int :=
  if sa.ep0.x < sb.ep0.x then 1
  else if sa.ep0.x > sb.ep0.x then -1
  else if sa.ep0.w < sb.ep0.w then 1
  else if sa.ep0.w > sb.ep0.w then -1
  else 0

/-- The order `qsort` establishes with `_edgeSort`: `a` may stand before `b`. -/
def edgeLE (a b : DSGXSoftwareEdge) : Prop := _edgeSort a b ≤ 0

/-- The order `qsort` establishes with `_spanSort`. -/
def spanLE (a b : DSGXSoftwareSpan) : Prop := _spanSort a b ≤ 0

instance : DecidableRel edgeLE := fun a b => by unfold edgeLE; infer_instance

instance : DecidableRel spanLE := fun a b => by unfold spanLE; infer_instance

instance : IsTotal DSGXSoftwareEdge edgeLE :=
  ⟨fun a b => by unfold edgeLE _edgeSort; split_ifs <;> omega⟩

instance : IsTrans DSGXSoftwareEdge edgeLE :=
  ⟨fun a b c => by unfold edgeLE _edgeSort; split_ifs <;> omega⟩

instance : IsTotal DSGXSoftwareSpan spanLE :=
  ⟨fun a b => by unfold spanLE _spanSort; split_ifs <;> omega⟩

instance : IsTrans DSGXSoftwareSpan spanLE :=
  ⟨fun a b c => by unfold spanLE _spanSort; split_ifs <;> omega⟩

/-- The call `qsort(edges, n, sizeof(edge), _edgeSort)`. C leaves the order of
elements that compare equal open; the model takes the stable order. -/
def qsortEdges (l : List DSGXSoftwareEdge) : List DSGXSoftwareEdge :=
  l.insertionSort edgeLE

/-- The call `qsort(spans, n, sizeof(span), _spanSort)`, stable as above. -/
def qsortSpans (l : List DSGXSoftwareSpan) : List DSGXSoftwareSpan :=
  l.insertionSort spanLE

/-! ## Sampling an edge at a scanline (lines 61-89) -/

/-- The clamp of lines 68-72 and 118-122: `if (v < 0) v = 0; else if (v > hi) v = hi;`. -/
def clampTo (v hi : Int) : Int :=
  if v < 0 then 0 else if v > hi then hi else v

/-- One perspective-corrected attribute of `_edgeToSpan` (lines 82-86), before
the store into the endpoint field: `a0`, `a1` are the attribute at the two
ends of the edge. -/
def edgeAttr (a0 a1 w0 w1 yw height w : Int) : Int :=
  ((wrap32 (a1 * w1 - a0 * w0) * yw).tdiv height + wrap32 (a0 * w0)).tdiv w

/-- The function `_edgeToSpan`: sample `edge` at scanline `y` into
`span->ep[index]`; the result is the returned flag and the span afterwards. -/
def _edgeToSpan (span : DSGXSoftwareSpan) (edge : DSGXSoftwareEdge) (index : Nat) (y : Int) :
    Bool × DSGXSoftwareSpan :=
  let height := wrap32 (edge.y1 - edge.y0)
  let yw0 := wrap32 (wrap32 (y * 4096) - edge.y0)
  if height = 0 then (false, span)
  else
    let yw := clampTo yw0 height
    let x := wrap32 ((wrap32 (edge.x1 - edge.x0) * yw).tdiv height + edge.x0)
    let span1 := span.setEp index { span.ep index with x := x }
    let swap : Bool := decide (index ≠ 0 ∧ span1.ep0.x > (span1.ep index).x)
    let span2 : DSGXSoftwareSpan :=
      if swap then
        let temp := (span1.ep index).x
        let sp := span1.setEp index span1.ep0
        { sp with ep0 := { sp.ep0 with x := temp } }
      else span1
    let index2 : Nat := if swap then 0 else index
    let w := wrap32 ((wrap32 (edge.w1 - edge.w0) * yw).tdiv height + edge.w0)
    let e := span2.ep index2
    let e1 :=
      { e with
        w := w
        cr := toU8 (edgeAttr edge.cr0 edge.cr1 edge.w0 edge.w1 yw height w)
        cg := toU8 (edgeAttr edge.cg0 edge.cg1 edge.w0 edge.w1 yw height w)
        cb := toU8 (edgeAttr edge.cb0 edge.cb1 edge.w0 edge.w1 yw height w)
        s := wrap16 (edgeAttr edge.s0 edge.s1 edge.w0 edge.w1 yw height w)
        t := wrap16 (edgeAttr edge.t0 edge.t1 edge.w0 edge.w1 yw height w) }
    (true, span2.setEp index2 e1)

/-! ## Sampling a span at a column (lines 111-139) -/

/-- The 64-bit numerator of one attribute of `_lerpEndpoint` (lines 128-130,
135-136), computed in `int64_t`. -/
def lerpNum (a0 a1 w0 w1 xw width : Int) : Int :=
  wrap64 ((wrap64 ((a1 * w1 - a0 * w0) * xw)).tdiv width + a0 * w0)

/-- A colour channel of `_lerpEndpoint`: the numerator is held in a `uint64_t`,
divided by `w` converted to `uint64_t`, and stored in a `uint8_t`. -/
def lerpColor (a0 a1 : Nat) (w0 w1 xw width w : Int) : Nat :=
  (toU64 (lerpNum a0 a1 w0 w1 xw width) / toU64 w) % 256

/-- A texture coordinate of `_lerpEndpoint`: the numerator is held in an
`int32_t`, divided by `w`, and stored in an `int16_t`. -/
def lerpTex (a0 a1 w0 w1 xw width w : Int) : Int :=
  wrap16 ((wrap32 (lerpNum a0 a1 w0 w1 xw width)).tdiv w)

/-- The function `_lerpEndpoint`: sample `span` at column `x` into `*ep`; the
result is `*ep` afterwards (unchanged for a span of width zero). -/
def _lerpEndpoint (span : DSGXSoftwareSpan) (ep : DSGXSoftwareEndpoint) (x : Nat) :
    DSGXSoftwareEndpoint :=
  let width := wrap32 (span.ep1.x - span.ep0.x)
  let xw0 := wrap64 ((x : Int) * 4096 - span.ep0.x)
  if width = 0 then ep
  else
    let xw := clampTo xw0 width
    let w0 := span.ep0.w
    let w1 := span.ep1.w
    let w := wrap32 ((wrap32 (w1 - w0) * xw).tdiv width + w0)
    { ep with
      w := w
      cr := lerpColor span.ep0.cr span.ep1.cr w0 w1 xw width w
      cg := lerpColor span.ep0.cg span.ep1.cg w0 w1 xw width w
      cb := lerpColor span.ep0.cb span.ep1.cb w0 w1 xw width w
      s := lerpTex span.ep0.s span.ep1.s w0 w1 xw width w
      t := lerpTex span.ep0.t span.ep1.t w0 w1 xw width w }

/-! ## Renderer state -/

/-- Modelled from the spec: the fields of `struct DSGXSoftwareRenderer`
(declared in `mgba/internal/ds/gx/software.h`, not among the sources) that
outlive a call and are read again: the edge table, the span table and the
scanline cache (indexed by the offset of a pixel from the start of the cache).
The bucket is cleared at the start of every `drawScanline` and is local to its
model; `verts` and `activePolys` are written by `SetRAM` and never read. -/
structure DSGXSoftwareRenderer where
  activeEdges : List DSGXSoftwareEdge
  activeSpans : List DSGXSoftwareSpan
  scanlineCache : Int → Nat

/-! ## Edge construction (lines 173-259) -/

/-- The body of lines 192-220 (and again 228-256): the edge between `v0` and
`v1`, starting at the vertex with the larger `vy`. -/
def mkEdge (i : Nat) (v0 v1 : DSGXVertex) : DSGXSoftwareEdge :=
  if v0.vy ≥ v1.vy then
    { polyId := i
      y0 := wrap32 (SCREEN_SIZE - v0.vy), x0 := v0.vx, w0 := v0.vw
      cr0 := (_expandColor v0.color).1, cg0 := (_expandColor v0.color).2.1
      cb0 := (_expandColor v0.color).2.2, s0 := v0.s, t0 := v0.t
      y1 := wrap32 (SCREEN_SIZE - v1.vy), x1 := v1.vx, w1 := v1.vw
      cr1 := (_expandColor v1.color).1, cg1 := (_expandColor v1.color).2.1
      cb1 := (_expandColor v1.color).2.2, s1 := v1.s, t1 := v1.t }
  else
    { polyId := i
      y0 := wrap32 (SCREEN_SIZE - v1.vy), x0 := v1.vx, w0 := v1.vw
      cr0 := (_expandColor v1.color).1, cg0 := (_expandColor v1.color).2.1
      cb0 := (_expandColor v1.color).2.2, s0 := v1.s, t0 := v1.t
      y1 := wrap32 (SCREEN_SIZE - v0.vy), x1 := v0.vx, w1 := v0.vw
      cr1 := (_expandColor v0.color).1, cg1 := (_expandColor v0.color).2.1
      cb1 := (_expandColor v0.color).2.2, s1 := v0.s, t1 := v0.t }

/-- The vertex `verts[poly->vertIds[k]]`. -/
def polyVertex (verts : List DSGXVertex) (p : DSGXPolygon) (k : Nat) : DSGXVertex :=
  verts.getD (p.vertIds.getD k 0) default

/-- The loop of lines 190-225 followed by the closing edge of lines 227-256:
`m` iterations remain, `v` is the loop counter and `v0` the previous vertex. -/
def polySides (vtx : Nat → DSGXVertex) (i : Nat) : Nat → Nat → DSGXVertex → List DSGXSoftwareEdge
  | 0, _, v0 => [mkEdge i v0 (vtx 0)]
  | m + 1, v, v0 => mkEdge i v0 (vtx v) :: polySides vtx i m (v + 1) (vtx v)

/-- The edges that one iteration of the outer loop (lines 180-257) appends for
polygon number `i`: the inner loop runs for `v = 1 .. verts - 1`. -/
def polyEdges (verts : List DSGXVertex) (i : Nat) (p : DSGXPolygon) : List DSGXSoftwareEdge :=
  polySides (polyVertex verts p) i (p.verts.toNat - 1) 1 (polyVertex verts p 0)

/-- The outer loop of lines 180-257 from polygon number `i` on. -/
def buildEdges (verts : List DSGXVertex) : Nat → List DSGXPolygon → List DSGXSoftwareEdge
  | _, [] => []
  | i, p :: ps => polyEdges verts i p ++ buildEdges verts (i + 1) ps

/-- The function `DSGXSoftwareRendererSetRAM`: the edge table is rebuilt from
the polygons and sorted; the span table and the cache are untouched. -/
def DSGXSoftwareRendererSetRAM (r : DSGXSoftwareRenderer) (verts : List DSGXVertex)
    (polys : List DSGXPolygon) : DSGXSoftwareRenderer :=
  { r with activeEdges := qsortEdges (buildEdges verts 0 polys) }

/-! ## Span assembly (lines 263-292) -/

/-- The scratch state of the edge sweep: the edges kept so far (those behind
the cursor), the span table and the bucket, which maps a polygon number to
the position of its open span in the span table (`none` for `NULL`). -/
structure SweepState where
  edges : List DSGXSoftwareEdge
  spans : List DSGXSoftwareSpan
  bucket : Nat → Option Nat

/-- Assign `bucket[poly]`. -/
def setBucket (b : Nat → Option Nat) (poly : Nat) (v : Option Nat) : Nat → Option Nat :=
  fun k => if k = poly then v else b k

/-- Lines 276-290: an active edge opens or closes the span of its polygon. -/
def addEdgeToSpans (y : Int) (edge : DSGXSoftwareEdge) (spans : List DSGXSoftwareSpan)
    (bucket : Nat → Option Nat) : List DSGXSoftwareSpan × (Nat → Option Nat) :=
  let poly := edge.polyId
  match bucket poly with
  | some k =>
    let span := spans.getD k zeroSpan
    if span.ep1.w = 0 then
      (spans.set k (_edgeToSpan span edge 1 y).2, setBucket bucket poly none)
    else (spans, bucket)
  | none =>
    let res := _edgeToSpan zeroSpan edge 0 y
    if res.1 = false then (spans, bucket)
    else (spans ++ [res.2], setBucket bucket poly (some spans.length))

/-- The body of the loop of lines 266-291 for the edge at the cursor: `st`
is the state after the edges behind it have been handled. -/
def sweepEdge (y : Int) (edge : DSGXSoftwareEdge) (st : SweepState) : SweepState :=
  if shr12 edge.y1 < y then st
  else if shr12 edge.y0 > y then { st with edges := edge :: st.edges }
  else
    let res := addEdgeToSpans y edge st.spans st.bucket
    { edges := edge :: st.edges, spans := res.1, bucket := res.2 }

/-- The loop of lines 266-291: the edge table is walked from its last element
to its first. -/
def sweepEdges (y : Int) : List DSGXSoftwareEdge → SweepState
  | [] => { edges := [], spans := [], bucket := fun _ => none }
  | e :: rest => sweepEdge y e (sweepEdges y rest)

/-! ## Pixel sweep (lines 294-346)

The span table is only ever touched from its end, so the sweep works on the
reversed table: the head of the list is the last element of the vector. -/

/-- The loop of lines 309-319 on the reversed span table, from the tail span
on: the result is the table afterwards and `nextSpanX`. The loop is entered
only with a non-empty table (`nextSpanX` is 256 once the table is empty), so
the first case is never reached. -/
def retireSpans (i : Int) (nextSpanX : Int) : List DSGXSoftwareSpan → List DSGXSoftwareSpan × Int
  | [] => ([], nextSpanX)
  | span :: rest =>
    if i > shr12 span.ep1.x ∨ span.ep1.x = 0 then
      match rest with
      | [] => ([], (DS_VIDEO_HORIZONTAL_PIXELS : Int))
      | next :: _ => retireSpans i (shr12 next.ep0.x) rest
    else (span :: rest, nextSpanX)

/-- The loop of lines 324-337 on the reversed span table: `depth`, `ep` and
`span` are the locals of the same names; the result is `span` and `ep`. -/
def testSpans (i : Nat) : List DSGXSoftwareSpan → Int → DSGXSoftwareEndpoint →
    Option DSGXSoftwareSpan → Option DSGXSoftwareSpan × DSGXSoftwareEndpoint
  | [], _, ep, span => (span, ep)
  | testSpan :: rest, depth, ep, span =>
    if (i : Int) > shr12 testSpan.ep0.x then
      if (i : Int) ≤ shr12 testSpan.ep1.x then
        let ep1 := _lerpEndpoint testSpan ep i
        if ep1.w > depth then testSpans i rest ep1.w ep1 (some testSpan)
        else testSpans i rest depth ep1 span
      else testSpans i rest depth ep span
    else (span, ep)

/-- The state of the pixel loop: the reversed span table, `nextSpanX` and the
cache. -/
structure PixelState where
  spans : List DSGXSoftwareSpan
  nextSpanX : Int
  cache : Int → Nat

/-- Lines 303-339: the span chosen for column `i`, with the span table,
`nextSpanX` and `ep` afterwards. `ep` enters uninitialised: `junk` is the
value it happens to hold. -/
def selectSpan (i : Nat) (junk : DSGXSoftwareEndpoint) (spans : List DSGXSoftwareSpan)
    (nextSpanX : Int) :
    Option DSGXSoftwareSpan × DSGXSoftwareEndpoint × List DSGXSoftwareSpan × Int :=
  if (i : Int) ≥ nextSpanX then
    let r := retireSpans i nextSpanX spans
    if (i : Int) < r.2 then (none, junk, r.1, r.2)
    else
      let t := testSpans i r.1 INT32_MIN junk r.1.head?
      (t.1, t.2, r.1, r.2)
  else (none, junk, spans, nextSpanX)

/-- Lines 340-345: the value stored in `scanline[i]`. -/
def pixelColor (i : Nat) (span : Option DSGXSoftwareSpan) (ep : DSGXSoftwareEndpoint) : Nat :=
  match span with
  | some sp =>
    let e := _lerpEndpoint sp ep i
    _finishColor e.cr e.cg e.cb
  | none => FLAG_UNWRITTEN

/-- One iteration of the loop of lines 302-346, for column `i` of the row that
starts at offset `base` of the cache. -/
def pixelStep (base : Int) (junk : Nat → DSGXSoftwareEndpoint) (i : Nat) (st : PixelState) :
    PixelState :=
  let sel := selectSpan i (junk i) st.spans st.nextSpanX
  { spans := sel.2.2.1
    nextSpanX := sel.2.2.2
    cache := Function.update st.cache (base + i) (pixelColor i sel.1 sel.2.1) }

/-- The loop of lines 302-346 from column `i` on, with `n` columns to go. -/
def pixelLoop (base : Int) (junk : Nat → DSGXSoftwareEndpoint) : Nat → Nat → PixelState → PixelState
  | 0, _, st => st
  | n + 1, i, st => pixelLoop base junk n (i + 1) (pixelStep base junk i st)

/-- Lines 297-301: the initial value of `nextSpanX`. -/
def initialNextSpanX (rspans : List DSGXSoftwareSpan) : Int :=
  match rspans with
  | [] => (DS_VIDEO_HORIZONTAL_PIXELS : Int)
  | span :: _ => shr12 span.ep0.x

/-- Offset of cache row `y % 48` (lines 294-295 and 351-352). -/
def rowBase (y : Int) : Int := (DS_VIDEO_HORIZONTAL_PIXELS : Int) * (y.tmod 48)

/-- The function `DSGXSoftwareRendererDrawScanline`. `junk i` is the value the
uninitialised local `ep` holds at the start of iteration `i` of the pixel
loop. -/
def DSGXSoftwareRendererDrawScanline (r : DSGXSoftwareRenderer) (y : Int)
    (junk : Nat → DSGXSoftwareEndpoint) : DSGXSoftwareRenderer :=
  let sw := sweepEdges y r.activeEdges
  let rspans := (qsortSpans sw.spans).reverse
  let px := pixelLoop (rowBase y) junk DS_VIDEO_HORIZONTAL_PIXELS 0
    { spans := rspans, nextSpanX := initialNextSpanX rspans, cache := r.scanlineCache }
  { activeEdges := sw.edges, activeSpans := px.spans.reverse, scanlineCache := px.cache }

/-- The function `DSGXSoftwareRendererGetScanline`: the offset of the row it
hands out. -/
def DSGXSoftwareRendererGetScanline (_r : DSGXSoftwareRenderer) (y : Int) : Int :=
  rowBase y

/-- The row behind the reference that `getScanline` returns. -/
def scanlineRow (r : DSGXSoftwareRenderer) (y : Int) (i : Nat) : Nat :=
  r.scanlineCache (DSGXSoftwareRendererGetScanline r y + i)

/-! ## Predicates and inputs used in the statements -/

/-- Endpoint 0 of `e` carries vertex `a` and endpoint 1 carries vertex `b`:
position x, depth term, texture coordinates, expanded colour, and the
inverted height `SCREEN_SIZE - vy` as the 32-bit subtraction yields it. -/
def edgeCarries (e : DSGXSoftwareEdge) (a b : DSGXVertex) : Prop :=
  (e.y0 = wrap32 (SCREEN_SIZE - a.vy) ∧ e.x0 = a.vx ∧ e.w0 = a.vw ∧ e.s0 = a.s ∧ e.t0 = a.t ∧
    (e.cr0, e.cg0, e.cb0) = _expandColor a.color) ∧
  (e.y1 = wrap32 (SCREEN_SIZE - b.vy) ∧ e.x1 = b.vx ∧ e.w1 = b.vw ∧ e.s1 = b.s ∧ e.t1 = b.t ∧
    (e.cr1, e.cg1, e.cb1) = _expandColor b.color)

instance (e : DSGXSoftwareEdge) (a b : DSGXVertex) : Decidable (edgeCarries e a b) := by
  unfold edgeCarries; infer_instance

/-- The edge `e` joins the vertices `a` and `b`, in one direction or the other. -/
def edgeJoins (e : DSGXSoftwareEdge) (a b : DSGXVertex) : Prop :=
  edgeCarries e a b ∨ edgeCarries e b a

/-- A renderer with empty tables and a cache filled with zeros. -/
def emptyRenderer : DSGXSoftwareRenderer := ⟨[], [], fun _ => 0⟩

/-- The value of an uninitialised `ep` taken as all zeros. -/
def zeroJunk : Nat → DSGXSoftwareEndpoint := fun _ => zeroEndpoint

/-- A vertex at pixel column `x` and screen row `y` (inverted height
`y << 12`), with packed colour `c` and depth term `w`. -/
def screenVertex (x y : Int) (c : Nat) (w : Int) : DSGXVertex :=
  ⟨c, 0, 0, x * 4096, SCREEN_SIZE - y * 4096, w⟩

/-- The quad of the end-to-end scenario of the specification: rows 10 to 20,
columns 5 to 15, white, depth term 4096. -/
def scenarioVerts : List DSGXVertex :=
  [screenVertex 5 10 0x7FFF 4096, screenVertex 15 10 0x7FFF 4096,
   screenVertex 15 20 0x7FFF 4096, screenVertex 5 20 0x7FFF 4096]

/-- The renderer after the scenario quad has been submitted alone. -/
def scenarioRenderer : DSGXSoftwareRenderer :=
  DSGXSoftwareRendererSetRAM emptyRenderer scenarioVerts [⟨4, [0, 1, 2, 3]⟩]

/-- The span `sp` covers pixel column `i`: `(ep[0].x >> 12) ≤ i ≤ (ep[1].x >> 12)`. -/
def spanCovers (sp : DSGXSoftwareSpan) (i : Nat) : Prop :=
  shr12 sp.ep0.x ≤ i ∧ (i : Int) ≤ shr12 sp.ep1.x

instance (sp : DSGXSoftwareSpan) (i : Nat) : Decidable (spanCovers sp i) := by
  unfold spanCovers; infer_instance

/-- The sample of `edge` at scanline `y`: the endpoint that `_edgeToSpan`
writes into a fresh span. -/
def edgeSample (edge : DSGXSoftwareEdge) (y : Int) : DSGXSoftwareEndpoint :=
  (_edgeToSpan zeroSpan edge 0 y).2.ep0

/-- The edge has height zero in the 32-bit arithmetic of `_edgeToSpan`. -/
def flatEdge (edge : DSGXSoftwareEdge) : Prop := wrap32 (edge.y1 - edge.y0) = 0

instance (edge : DSGXSoftwareEdge) : Decidable (flatEdge edge) := by
  unfold flatEdge; infer_instance

/-- The vertex buffer of an axis-aligned quad: left and right columns at
`xL`, `xR`, top and bottom at `vyT`, `vyB`, every vertex with packed colour
`c` and depth term `w`; `tex k` gives the texture coordinates of vertex `k`.
Vertex 0 is top left, 1 top right, 2 bottom right, 3 bottom left. -/
def quadVerts (xL xR vyT vyB : Int) (c : Nat) (w : Int) (tex : Nat → Int × Int) :
    List DSGXVertex :=
  [⟨c, (tex 0).1, (tex 0).2, xL, vyT, w⟩, ⟨c, (tex 1).1, (tex 1).2, xR, vyT, w⟩,
   ⟨c, (tex 2).1, (tex 2).2, xR, vyB, w⟩, ⟨c, (tex 3).1, (tex 3).2, xL, vyB, w⟩]

/-- The edge is active at scanline `y`: neither retired (line 269) nor still
to come (line 272). -/
def edgeActive (y : Int) (e : DSGXSoftwareEdge) : Prop :=
  ¬ shr12 e.y1 < y ∧ ¬ shr12 e.y0 > y

instance (y : Int) (e : DSGXSoftwareEdge) : Decidable (edgeActive y e) := by
  unfold edgeActive; infer_instance

/-- Two overlapping quads over rows 10 to 20: vertices 0-3 are a red quad over
columns 5 to 15 with depth term 4096, vertices 4-7 a blue quad over columns 8
to 12 with depth term 8192. -/
def overlapVerts : List DSGXVertex :=
  [screenVertex 5 10 0x001F 4096, screenVertex 15 10 0x001F 4096,
   screenVertex 15 20 0x001F 4096, screenVertex 5 20 0x001F 4096,
   screenVertex 8 10 0x7C00 8192, screenVertex 12 10 0x7C00 8192,
   screenVertex 12 20 0x7C00 8192, screenVertex 8 20 0x7C00 8192]

/-- The span of the red quad of `overlapVerts` at any of its rows. -/
def redSpan : DSGXSoftwareSpan := ⟨⟨20480, 4096, 63, 1, 1, 0, 0⟩, ⟨61440, 4096, 63, 1, 1, 0, 0⟩⟩

/-- The span of the blue quad of `overlapVerts` at any of its rows. -/
def blueSpan : DSGXSoftwareSpan := ⟨⟨32768, 8192, 1, 1, 63, 0, 0⟩, ⟨49152, 8192, 1, 1, 63, 0, 0⟩⟩

/-- The span closed from the samples `a` (stored first) and `b`: the one with
the smaller x becomes `ep[0]` (lines 74-79). -/
def closeSpan (a b : DSGXSoftwareEndpoint) : DSGXSoftwareSpan :=
  if a.x > b.x then ⟨b, a⟩ else ⟨a, b⟩

/-- What the span assembly of scanline `y` leaves for a single triangle with
edge table `T`: the span at position 0 is closed (no bucket entry points to
it), its two endpoints are the samples of two different sides `e1`, `e2` that
cross the height `y << 12`, the left one first; every further span of the
table is open (the bucket still points to it and its `ep[1]` is zero). -/
def triangleSpans (T : List DSGXSoftwareEdge) (y : Int) (st : SweepState) : Prop :=
  ∃ e1 e2, e1 ∈ T ∧ e2 ∈ T ∧ e1 ≠ e2 ∧
    (e1.y0 ≤ y * 4096 ∧ y * 4096 ≤ e1.y1) ∧ (e2.y0 ≤ y * 4096 ∧ y * 4096 ≤ e2.y1) ∧
    (edgeSample e1 y).x ≤ (edgeSample e2 y).x ∧
    st.spans[0]? = some ⟨edgeSample e1 y, edgeSample e2 y⟩ ∧
    (∀ p, st.bucket p ≠ some 0) ∧
    ∀ k sp, 0 < k → st.spans[k]? = some sp → st.bucket 0 = some k ∧ sp.ep1 = zeroEndpoint

/-- The vertices of a sample triangle: (5, 10), (15, 14) and (8, 20), as
pixel column and screen row. -/
def sampleTriangle : Fin 3 → DSGXVertex
  | 0 => screenVertex 5 10 0x7FFF 4096
  | 1 => screenVertex 15 14 0x7FFF 4096
  | 2 => screenVertex 8 20 0x7FFF 4096

/-- The orders in which a polygon can list the four corners of `quadVerts`:
around the quad from any corner, in either direction. -/
def quadOrders : List (List Nat) :=
  [[0, 1, 2, 3], [1, 2, 3, 0], [2, 3, 0, 1], [3, 0, 1, 2],
   [3, 2, 1, 0], [2, 1, 0, 3], [1, 0, 3, 2], [0, 3, 2, 1]]

/-- The right-hand edge of the scenario quad (position 1 of its sorted table). -/
def scenarioRightEdge : DSGXSoftwareEdge := scenarioRenderer.activeEdges.getD 1 default

/-- The sample at row 15 of the left-hand edge of the scenario quad (position
2 of its sorted table). -/
def scenarioLeftSample : DSGXSoftwareEndpoint :=
  edgeSample (scenarioRenderer.activeEdges.getD 2 default) 15

/-- An edge from row 0 to row 2 whose columns are 2^31 apart. -/
def wideEdge : DSGXSoftwareEdge :=
  ⟨0, 0, -1073741824, 64, 1, 1, 1, 0, 0, 8192, 1073741824, 64, 1, 1, 1, 0, 0⟩

/-- The value `v` is representable in the type `int32_t`. -/
def isInt32 (v : Int) : Prop := -2147483648 ≤ v ∧ v ≤ 2147483647

instance (v : Int) : Decidable (isInt32 v) := by
  unfold isInt32; infer_instance

/-- Plain linear interpolation `(a1 - a0) * xw / width + a0` in C arithmetic
(the division truncates). -/
def plainLerp (a0 a1 xw width : Int) : Int := ((a1 - a0) * xw).tdiv width + a0

/-- The attribute rises from `a0` at `ep[0]` to `a1` at `ep[1]`: it is
non-negative, does not decrease, stays within `limit` (the range of its field)
and its weighted difference times the width fits in 64 bits. -/
def risingAttr (a0 a1 w width limit : Int) : Prop :=
  0 ≤ a0 ∧ a0 ≤ a1 ∧ a1 ≤ limit ∧ (a1 - a0) * w * width ≤ 9223372036854775807

/-- A span of three pixels whose red channel falls from 63 to 1, both ends with
depth term 4096. -/
def fallingSpan : DSGXSoftwareSpan :=
  ⟨⟨0, 4096, 63, 1, 1, 0, 0⟩, ⟨12288, 4096, 1, 1, 1, 0, 0⟩⟩

/-- A span of three pixels whose red channel rises from 1 to 63 and whose `s`
rises from 16 to 160, both ends with depth term 4096. -/
def risingSpan : DSGXSoftwareSpan :=
  ⟨⟨0, 4096, 1, 1, 1, 16, 0⟩, ⟨12288, 4096, 63, 1, 1, 160, 0⟩⟩

instance (a0 a1 w width limit : Int) : Decidable (risingAttr a0 a1 w width limit) := by
  unfold risingAttr; infer_instance

/-- A span from column -262144 to column 262143 whose ends carry channel
value 63 and the depth terms 64 and 2^31 - 1. -/
def extremeSpan : DSGXSoftwareSpan :=
  ⟨⟨-1073741824, 64, 63, 63, 63, 0, 0⟩, ⟨1073741823, 2147483647, 63, 63, 63, 0, 0⟩⟩

/-- A span over columns 0 to 255 whose ends carry channel value 63 and the
depth terms 8192 and 4096. -/
def nearFarSpan : DSGXSoftwareSpan :=
  ⟨⟨0, 8192, 63, 63, 63, 0, 0⟩, ⟨1048575, 4096, 63, 63, 63, 0, 0⟩⟩

/-- The spans that the loop of lines 324-337 hands to `_lerpEndpoint` at column
`i`, in the order it examines them, when it starts from the reversed sorted
span table `table`: the loop of lines 309-319 retires spans from the tail
while `i > (ep[1].x >> 12) || !ep[1].x`, the test loop walks on while
`i > (ep[0].x >> 12)` and examines the spans with `i <= (ep[1].x >> 12)`. -/
def examinedSpans (i : Nat) (table : List DSGXSoftwareSpan) : List DSGXSoftwareSpan :=
  ((table.dropWhile (fun sp => decide ((i : Int) > shr12 sp.ep1.x ∨ sp.ep1.x = 0))).takeWhile
    (fun sp => decide ((i : Int) > shr12 sp.ep0.x))).filter
    (fun sp => decide ((i : Int) ≤ shr12 sp.ep1.x))

/-- The depth term that `_lerpEndpoint` computes for `sp` at column `i`. -/
def depthAt (sp : DSGXSoftwareSpan) (i : Nat) : Int := (_lerpEndpoint sp zeroEndpoint i).w

/-- Two overlapping quads over rows 10 to 20 with the same depth term 4096:
vertices 0-3 are a red quad over columns 5 to 15, vertices 4-7 a blue quad
over columns 8 to 12. -/
def levelVerts : List DSGXVertex :=
  [screenVertex 5 10 0x001F 4096, screenVertex 15 10 0x001F 4096,
   screenVertex 15 20 0x001F 4096, screenVertex 5 20 0x001F 4096,
   screenVertex 8 10 0x7C00 4096, screenVertex 12 10 0x7C00 4096,
   screenVertex 12 20 0x7C00 4096, screenVertex 8 20 0x7C00 4096]

/-- The span of the blue quad of `levelVerts` at any of its rows. -/
def levelSpan : DSGXSoftwareSpan := ⟨⟨32768, 4096, 1, 1, 63, 0, 0⟩, ⟨49152, 4096, 1, 1, 63, 0, 0⟩⟩

/-! # Properties -/

/-! ## Edge order -/

theorem edgeLE_iff (a b : DSGXSoftwareEdge) :
    edgeLE a b ↔ (b.y0 < a.y0 ∨ (a.y0 = b.y0 ∧ b.y1 ≤ a.y1)) := by
  unfold edgeLE _edgeSort
  split_ifs <;> constructor <;> intro h <;> omega

theorem spanLE_iff (a b : DSGXSoftwareSpan) :
    spanLE a b ↔ (b.ep0.x < a.ep0.x ∨ (a.ep0.x = b.ep0.x ∧ b.ep0.w ≤ a.ep0.w)) := by
  unfold spanLE _spanSort
  split_ifs <;> constructor <;> intro h <;> omega

/-- C5. After `SetRAM` the edge table is sorted in descending order of
(y0, then y1), the order of `_edgeSort`, for every vertex buffer and polygon
list, and sorting the table again leaves it unchanged. -/
theorem setRAM_edges_sorted (r : DSGXSoftwareRenderer) (verts : List DSGXVertex)
    (polys : List DSGXPolygon) :
    List.Sorted (fun a b : DSGXSoftwareEdge => _edgeSort a b ≤ 0 ∧
        (b.y0 < a.y0 ∨ (a.y0 = b.y0 ∧ b.y1 ≤ a.y1)))
      (DSGXSoftwareRendererSetRAM r verts polys).activeEdges ∧
    qsortEdges (DSGXSoftwareRendererSetRAM r verts polys).activeEdges =
      (DSGXSoftwareRendererSetRAM r verts polys).activeEdges := by
  have hs : List.Sorted edgeLE (qsortEdges (buildEdges verts 0 polys)) :=
    List.sorted_insertionSort edgeLE _
  refine ⟨?_, ?_⟩
  · show List.Sorted _ (qsortEdges (buildEdges verts 0 polys))
    exact List.Pairwise.imp (fun {a b} h => ⟨h, (edgeLE_iff a b).1 h⟩) hs
  · exact List.Sorted.insertionSort_eq hs

/-! ## Edge construction: shape of the table -/

theorem mkEdge_polyId (i : Nat) (a b : DSGXVertex) : (mkEdge i a b).polyId = i := by
  unfold mkEdge; split <;> rfl

theorem mkEdge_joins (i : Nat) (a b : DSGXVertex) : edgeJoins (mkEdge i a b) a b := by
  unfold mkEdge edgeJoins edgeCarries
  split
  · left; simp
  · right; simp

theorem polySides_length (vtx : Nat → DSGXVertex) (i : Nat) :
    ∀ (m v : Nat) (v0 : DSGXVertex), (polySides vtx i m v v0).length = m + 1
  | 0, _, _ => rfl
  | m + 1, v, _ => by simp [polySides, polySides_length vtx i m (v + 1)]

theorem polySides_polyId (vtx : Nat → DSGXVertex) (i : Nat) :
    ∀ (m v : Nat) (v0 : DSGXVertex), ∀ e ∈ polySides vtx i m v v0, e.polyId = i
  | 0, _, _ => by simp [polySides, mkEdge_polyId]
  | m + 1, v, _ => by
    intro e he
    simp only [polySides, List.mem_cons] at he
    rcases he with rfl | he
    · exact mkEdge_polyId _ _ _
    · exact polySides_polyId vtx i m (v + 1) _ e he

theorem polySides_getElem? (vtx : Nat → DSGXVertex) (i : Nat) :
    ∀ (m v : Nat) (v0 : DSGXVertex) (k : Nat), k ≤ m →
      (polySides vtx i m v v0)[k]? =
        some (mkEdge i (if k = 0 then v0 else vtx (v + k - 1))
          (if k = m then vtx 0 else vtx (v + k)))
  | 0, _, _, k, hk => by
    obtain rfl : k = 0 := by omega
    simp [polySides]
  | m + 1, v, v0, 0, _ => by simp [polySides]
  | m + 1, v, v0, k + 1, hk => by
    have ih := polySides_getElem? vtx i m (v + 1) (vtx v) k (by omega)
    simp only [polySides, List.getElem?_cons_succ, ih]
    congr 2
    · by_cases hk0 : k = 0
      · subst hk0; simp
      · simp only [hk0, if_false, Nat.succ_ne_zero]
        congr 1
        omega
    · by_cases hkm : k = m
      · subst hkm; simp
      · have : ¬ (k + 1 = m + 1) := by omega
        simp only [hkm, this, if_false]
        congr 1
        omega

theorem polyEdges_polyId (verts : List DSGXVertex) (i : Nat) (p : DSGXPolygon) :
    ∀ e ∈ polyEdges verts i p, e.polyId = i :=
  polySides_polyId _ _ _ _ _

theorem filter_buildEdges (verts : List DSGXVertex) (i : Nat) :
    ∀ (ps : List DSGXPolygon) (j : Nat),
      (buildEdges verts j ps).filter (fun e => decide (e.polyId = i)) =
        if j ≤ i then
          match ps[i - j]? with
          | some p => polyEdges verts i p
          | none => []
        else []
  | [], j => by simp [buildEdges]
  | p :: ps, j => by
    simp only [buildEdges, List.filter_append, filter_buildEdges verts i ps (j + 1)]
    by_cases hji : j = i
    · subst hji
      have h1 : (polyEdges verts j p).filter (fun e => decide (e.polyId = j)) =
          polyEdges verts j p := by
        rw [List.filter_eq_self]
        intro e he
        simp [polyEdges_polyId verts j p e he]
      simp [h1]
    · have h1 : (polyEdges verts j p).filter (fun e => decide (e.polyId = i)) = [] := by
        rw [List.filter_eq_nil_iff]
        intro e he
        simp [polyEdges_polyId verts j p e he, hji]
      rw [h1, List.nil_append]
      by_cases hlt : j + 1 ≤ i
      · have hle : j ≤ i := by omega
        have hidx : i - j = (i - (j + 1)) + 1 := by omega
        simp only [hlt, hle, if_true]
        rw [hidx, List.getElem?_cons_succ]
      · have hle : ¬ j ≤ i := by omega
        simp [hlt, hle]

theorem length_buildEdges (verts : List DSGXVertex) :
    ∀ (ps : List DSGXPolygon) (j : Nat), (∀ q ∈ ps, 1 ≤ q.verts) →
      ((buildEdges verts j ps).length : Int) = (ps.map (fun q => q.verts)).sum
  | [], _, _ => by simp [buildEdges]
  | p :: ps, j, h => by
    have hp : 1 ≤ p.verts := h p (List.mem_cons_self _ _)
    have ih := length_buildEdges verts ps (j + 1) (fun q hq => h q (List.mem_cons_of_mem _ hq))
    simp only [buildEdges, List.length_append, List.map_cons, List.sum_cons, Nat.cast_add, ih]
    simp only [polyEdges, polySides_length]
    omega

/-- C3 (as amended). For every vertex buffer and every polygon list whose
polygons all have a vertex count of at least 1, after `SetRAM` the edges of
the table tagged `polyId = i` are, up to the order the sort gives them,
exactly N edges for polygon `i` with N vertices, the k-th joining vertex
`vertIds[k]` and vertex `vertIds[(k+1) mod N]` and carrying at each end that
vertex's x, w, s, t, expanded colour and `SCREEN_SIZE - vy`; the table size is
the sum of the vertex counts. -/
theorem setRAM_edge_count_shape (r : DSGXSoftwareRenderer) (verts : List DSGXVertex)
    (polys : List DSGXPolygon) (hall : ∀ q ∈ polys, 1 ≤ q.verts)
    (i : Nat) (p : DSGXPolygon) (hp : polys[i]? = some p) :
    (∃ es : List DSGXSoftwareEdge,
      List.Perm ((DSGXSoftwareRendererSetRAM r verts polys).activeEdges.filter
        (fun e => decide (e.polyId = i))) es ∧
      es.length = p.verts.toNat ∧
      ∀ k, k < p.verts.toNat → ∃ e, es[k]? = some e ∧ e.polyId = i ∧
        edgeJoins e (polyVertex verts p k) (polyVertex verts p ((k + 1) % p.verts.toNat))) ∧
    (((DSGXSoftwareRendererSetRAM r verts polys).activeEdges.length : Int) =
      (polys.map (fun q => q.verts)).sum) := by
  have hpv : 1 ≤ p.verts := hall p (List.mem_iff_getElem?.2 ⟨i, hp⟩)
  have hN : 1 ≤ p.verts.toNat := by omega
  have hperm : List.Perm (DSGXSoftwareRendererSetRAM r verts polys).activeEdges
      (buildEdges verts 0 polys) := List.perm_insertionSort edgeLE _
  refine ⟨⟨polyEdges verts i p, ?_, ?_, ?_⟩, ?_⟩
  · have h := filter_buildEdges verts i polys 0
    simp only [Nat.zero_le, if_true, Nat.sub_zero, hp] at h
    rw [← h]
    exact hperm.filter _
  · simp only [polyEdges, polySides_length]; omega
  · intro k hk
    have hg := polySides_getElem? (polyVertex verts p) i (p.verts.toNat - 1) 1
      (polyVertex verts p 0) k (by omega)
    refine ⟨_, hg, mkEdge_polyId _ _ _, ?_⟩
    have ha : (if k = 0 then polyVertex verts p 0 else polyVertex verts p (1 + k - 1)) =
        polyVertex verts p k := by
      by_cases hk0 : k = 0
      · simp [hk0]
      · simp only [hk0, if_false]; congr 1; omega
    have hb : (if k = p.verts.toNat - 1 then polyVertex verts p 0
        else polyVertex verts p (1 + k)) =
        polyVertex verts p ((k + 1) % p.verts.toNat) := by
      by_cases hkm : k = p.verts.toNat - 1
      · have : (k + 1) % p.verts.toNat = 0 := by
          have : k + 1 = p.verts.toNat := by omega
          rw [this, Nat.mod_self]
        rw [if_pos hkm, this]
      · have : (k + 1) % p.verts.toNat = 1 + k := by
          rw [Nat.mod_eq_of_lt (by omega)]; omega
        simp only [hkm, if_false, this]
    rw [ha, hb]
    exact mkEdge_joins _ _ _
  · rw [hperm.length_eq]
    exact length_buildEdges verts polys 0 hall

/-- Witness of C3: a triangle, submitted alone. -/
theorem setRAM_edge_count_shape_witness :
    (∃ es : List DSGXSoftwareEdge,
      List.Perm ((DSGXSoftwareRendererSetRAM emptyRenderer
          [⟨0, 0, 0, 0, 0, 4096⟩, ⟨0, 0, 0, 4096, 8192, 4096⟩, ⟨0, 0, 0, 8192, 4096, 4096⟩]
          [⟨3, [0, 1, 2]⟩]).activeEdges.filter (fun e => decide (e.polyId = 0))) es ∧
      es.length = (3 : Int).toNat ∧
      ∀ k, k < (3 : Int).toNat → ∃ e, es[k]? = some e ∧ e.polyId = 0 ∧
        edgeJoins e
          (polyVertex [⟨0, 0, 0, 0, 0, 4096⟩, ⟨0, 0, 0, 4096, 8192, 4096⟩,
            ⟨0, 0, 0, 8192, 4096, 4096⟩] ⟨3, [0, 1, 2]⟩ k)
          (polyVertex [⟨0, 0, 0, 0, 0, 4096⟩, ⟨0, 0, 0, 4096, 8192, 4096⟩,
            ⟨0, 0, 0, 8192, 4096, 4096⟩] ⟨3, [0, 1, 2]⟩ ((k + 1) % (3 : Int).toNat))) ∧
    (((DSGXSoftwareRendererSetRAM emptyRenderer
        [⟨0, 0, 0, 0, 0, 4096⟩, ⟨0, 0, 0, 4096, 8192, 4096⟩, ⟨0, 0, 0, 8192, 4096, 4096⟩]
        [⟨3, [0, 1, 2]⟩]).activeEdges.length : Int) =
      ([(⟨3, [0, 1, 2]⟩ : DSGXPolygon)].map (fun q => q.verts)).sum) :=
  setRAM_edge_count_shape emptyRenderer _ [⟨3, [0, 1, 2]⟩] (by simp) 0 ⟨3, [0, 1, 2]⟩ rfl

/-- C3, counterexample. A polygon whose vertex count is 0 still leaves one
edge tagged with its number in the table (from `vertIds[0]` to itself), not
0 edges. -/
theorem setRAM_edge_count_zero_verts :
    ((DSGXSoftwareRendererSetRAM emptyRenderer [⟨0, 0, 0, 0, 0, 4096⟩]
        [⟨0, [0]⟩]).activeEdges.filter (fun e => decide (e.polyId = 0))).length = 1 ∧
    ((DSGXSoftwareRendererSetRAM emptyRenderer [⟨0, 0, 0, 0, 0, 4096⟩]
        [⟨0, [0]⟩]).activeEdges.filter (fun e => decide (e.polyId = 0))).length ≠
      (0 : Int).toNat := by
  decide

/-! ## Edge orientation -/

theorem wrap32_eq_self {x : Int} (h1 : -2147483648 ≤ x) (h2 : x ≤ 2147483647) :
    wrap32 x = x := by
  unfold wrap32 wrapS
  norm_num
  omega

theorem forall_mem_polySides (vtx : Nat → DSGXVertex) (i : Nat)
    (P : DSGXVertex → Prop) (Q : DSGXSoftwareEdge → Prop)
    (hQ : ∀ a b, P a → P b → Q (mkEdge i a b)) (hP : ∀ k, P (vtx k)) :
    ∀ (m v : Nat) (v0 : DSGXVertex), P v0 → ∀ e ∈ polySides vtx i m v v0, Q e
  | 0, _, v0, h0 => by
    intro e he
    simp only [polySides, List.mem_singleton] at he
    subst he
    exact hQ _ _ h0 (hP 0)
  | m + 1, v, v0, h0 => by
    intro e he
    simp only [polySides, List.mem_cons] at he
    rcases he with rfl | he
    · exact hQ _ _ h0 (hP v)
    · exact forall_mem_polySides vtx i P Q hQ hP m (v + 1) (vtx v) (hP v) e he

theorem forall_mem_buildEdges (verts : List DSGXVertex)
    (P : DSGXVertex → Prop) (Q : DSGXSoftwareEdge → Prop)
    (hQ : ∀ i a b, P a → P b → Q (mkEdge i a b)) (hd : P default) (hP : ∀ v ∈ verts, P v) :
    ∀ (ps : List DSGXPolygon) (j : Nat), ∀ e ∈ buildEdges verts j ps, Q e
  | [], _ => by simp [buildEdges]
  | p :: ps, j => by
    intro e he
    have hv : ∀ k, P (polyVertex verts p k) := by
      intro k
      unfold polyVertex
      rw [List.getD_eq_getElem?_getD]
      cases hg : verts[p.vertIds.getD k 0]? with
      | none => simpa using hd
      | some v => simpa using hP v (List.mem_iff_getElem?.2 ⟨_, hg⟩)
    simp only [buildEdges, List.mem_append] at he
    rcases he with he | he
    · exact forall_mem_polySides _ j P Q (hQ j) hv _ _ _ (hv 0) e he
    · exact forall_mem_buildEdges verts P Q hQ hd hP ps (j + 1) e he

theorem mkEdge_oriented (i : Nat) (a b : DSGXVertex)
    (ha : SCREEN_SIZE - 2147483647 ≤ a.vy ∧ a.vy ≤ 2147483647)
    (hb : SCREEN_SIZE - 2147483647 ≤ b.vy ∧ b.vy ≤ 2147483647) :
    (mkEdge i a b).y0 ≤ (mkEdge i a b).y1 ∧
      ∃ u v : DSGXVertex, v.vy ≤ u.vy ∧ edgeCarries (mkEdge i a b) u v := by
  have hS : SCREEN_SIZE = 786432 := by decide
  rw [hS] at ha hb
  unfold mkEdge
  split
  · refine ⟨?_, a, b, by assumption, by simp [edgeCarries]⟩
    simp only [hS]
    rw [wrap32_eq_self (by omega) (by omega), wrap32_eq_self (by omega) (by omega)]
    omega
  · refine ⟨?_, b, a, by omega, by simp [edgeCarries]⟩
    simp only [hS]
    rw [wrap32_eq_self (by omega) (by omega), wrap32_eq_self (by omega) (by omega)]
    omega

/-- C4 (as amended). Every edge that `SetRAM` builds satisfies `y0 ≤ y1`: its
index-0 endpoint is the vertex with the larger `vy`, that is the one with the
smaller inverted height `SCREEN_SIZE - vy`, for every pair of adjacent polygon
vertices whose `vy` is such that the 32-bit subtraction does not overflow. -/
theorem setRAM_edges_oriented (r : DSGXSoftwareRenderer) (verts : List DSGXVertex)
    (polys : List DSGXPolygon)
    (hvy : ∀ v ∈ verts, SCREEN_SIZE - 2147483647 ≤ v.vy ∧ v.vy ≤ 2147483647) :
    ∀ e ∈ (DSGXSoftwareRendererSetRAM r verts polys).activeEdges,
      e.y0 ≤ e.y1 ∧ ∃ u v : DSGXVertex, v.vy ≤ u.vy ∧ edgeCarries e u v := by
  intro e he
  have hperm : List.Perm (DSGXSoftwareRendererSetRAM r verts polys).activeEdges
      (buildEdges verts 0 polys) := List.perm_insertionSort edgeLE _
  exact forall_mem_buildEdges verts
    (fun v => SCREEN_SIZE - 2147483647 ≤ v.vy ∧ v.vy ≤ 2147483647)
    (fun e => e.y0 ≤ e.y1 ∧ ∃ u v : DSGXVertex, v.vy ≤ u.vy ∧ edgeCarries e u v)
    (fun i a b ha hb => mkEdge_oriented i a b ha hb) (by decide) hvy polys 0 e (hperm.mem_iff.1 he)

/-- Witness of C4: the three edges of a triangle. -/
theorem setRAM_edges_oriented_witness :
    (∀ v ∈ ([⟨0, 0, 0, 0, 0, 4096⟩, ⟨0, 0, 0, 4096, 8192, 4096⟩, ⟨0, 0, 0, 8192, 4096, 4096⟩] :
        List DSGXVertex), SCREEN_SIZE - 2147483647 ≤ v.vy ∧ v.vy ≤ 2147483647) ∧
    ∀ e ∈ (DSGXSoftwareRendererSetRAM emptyRenderer
        [⟨0, 0, 0, 0, 0, 4096⟩, ⟨0, 0, 0, 4096, 8192, 4096⟩, ⟨0, 0, 0, 8192, 4096, 4096⟩]
        [⟨3, [0, 1, 2]⟩]).activeEdges,
      e.y0 ≤ e.y1 ∧ ∃ u v : DSGXVertex, v.vy ≤ u.vy ∧ edgeCarries e u v :=
  ⟨by decide, setRAM_edges_oriented emptyRenderer _ [⟨3, [0, 1, 2]⟩] (by decide)⟩

/-- C4, counterexample. The triangle with `vy` = 0, 8192, 4096 gets an edge
with `y0 < y1`: the edge from vertex 1 (`vy` = 8192) to vertex 0 (`vy` = 0)
has `y0 = SCREEN_SIZE - 8192` and `y1 = SCREEN_SIZE`. -/
theorem setRAM_edge_y0_lt_y1 :
    ∃ e ∈ (DSGXSoftwareRendererSetRAM emptyRenderer
        [⟨0, 0, 0, 0, 0, 4096⟩, ⟨0, 0, 0, 4096, 8192, 4096⟩, ⟨0, 0, 0, 8192, 4096, 4096⟩]
        [⟨3, [0, 1, 2]⟩]).activeEdges,
      e.y0 = SCREEN_SIZE - 8192 ∧ e.y1 = SCREEN_SIZE ∧ ¬ (e.y0 ≥ e.y1) := by
  decide

/-! ## The edge sweep -/

theorem sweepEdges_edges (y : Int) :
    ∀ es : List DSGXSoftwareEdge,
      (sweepEdges y es).edges = es.filter (fun e => decide (¬ shr12 e.y1 < y))
  | [] => rfl
  | e :: rest => by
    have ih := sweepEdges_edges y rest
    by_cases h1 : shr12 e.y1 < y
    · simp [sweepEdges, sweepEdge, h1, ih]
    · have h1' : y ≤ shr12 e.y1 := not_lt.1 h1
      by_cases h2 : shr12 e.y0 > y
      · simp [sweepEdges, sweepEdge, h1, h2, ih, List.filter_cons, h1']
      · simp [sweepEdges, sweepEdge, h1, h2, ih, List.filter_cons, h1']

/-- Dropping edges that the sweep of scanline `y` would retire anyway does not
change what the sweep assembles. -/
theorem sweepEdges_filter (y : Int) (keep : DSGXSoftwareEdge → Bool)
    (hkeep : ∀ e, keep e = false → shr12 e.y1 < y) :
    ∀ es : List DSGXSoftwareEdge,
      (sweepEdges y (es.filter keep)).spans = (sweepEdges y es).spans ∧
      (sweepEdges y (es.filter keep)).bucket = (sweepEdges y es).bucket ∧
      (sweepEdges y (es.filter keep)).edges = (sweepEdges y es).edges
  | [] => by simp [sweepEdges]
  | e :: rest => by
    obtain ⟨ih1, ih2, ih3⟩ := sweepEdges_filter y keep hkeep rest
    cases hk : keep e with
    | false =>
      have h1 := hkeep e hk
      simp [List.filter_cons, hk, sweepEdges, sweepEdge, h1, ih1, ih2, ih3]
    | true =>
      simp only [List.filter_cons, hk, if_true, sweepEdges, sweepEdge]
      split_ifs <;> simp [ih1, ih2, ih3]

theorem sweepEdges_idem (y : Int) (es : List DSGXSoftwareEdge) :
    (sweepEdges y (sweepEdges y es).edges).spans = (sweepEdges y es).spans ∧
    (sweepEdges y (sweepEdges y es).edges).edges = (sweepEdges y es).edges := by
  rw [sweepEdges_edges]
  have h := sweepEdges_filter y (fun e => decide (¬ shr12 e.y1 < y))
    (fun e he => by simpa using he) es
  refine ⟨h.1, ?_⟩
  rw [h.2.2, sweepEdges_edges]

/-! ## The pixel loop -/

theorem pixelStep_spans (base base2 : Int) (junk : Nat → DSGXSoftwareEndpoint) (i : Nat)
    (st st2 : PixelState) (h1 : st.spans = st2.spans) (h2 : st.nextSpanX = st2.nextSpanX) :
    (pixelStep base junk i st).spans = (pixelStep base2 junk i st2).spans ∧
    (pixelStep base junk i st).nextSpanX = (pixelStep base2 junk i st2).nextSpanX ∧
    (pixelStep base junk i st).cache (base + i) = (pixelStep base2 junk i st2).cache (base2 + i) := by
  simp [pixelStep, h1, h2]

theorem pixelLoop_cache_other (base : Int) (junk : Nat → DSGXSoftwareEndpoint) :
    ∀ (n i : Nat) (st : PixelState) (k : Int),
      (∀ j : Nat, i ≤ j → j < i + n → k ≠ base + j) →
      (pixelLoop base junk n i st).cache k = st.cache k
  | 0, _, _, _, _ => rfl
  | n + 1, i, st, k, h => by
    rw [pixelLoop, pixelLoop_cache_other base junk n (i + 1) _ k
      (fun j h1 h2 => h j (by omega) (by omega))]
    have hk : k ≠ base + i := h i (le_refl _) (by omega)
    simp [pixelStep, Function.update_noteq hk]

theorem pixelLoop_cache_written (base : Int) (junk : Nat → DSGXSoftwareEndpoint) :
    ∀ (n i : Nat) (st st2 : PixelState), st.spans = st2.spans → st.nextSpanX = st2.nextSpanX →
      ∀ j : Nat, i ≤ j → j < i + n →
      (pixelLoop base junk n i st).cache (base + j) =
        (pixelLoop base junk n i st2).cache (base + j)
  | 0, _, _, _, _, _, j, h1, h2 => by omega
  | n + 1, i, st, st2, hs, hx, j, h1, h2 => by
    obtain ⟨e1, e2, e3⟩ := pixelStep_spans base base junk i st st2 hs hx
    rw [pixelLoop, pixelLoop]
    by_cases hj : j = i
    · subst hj
      rw [pixelLoop_cache_other base junk n (j + 1) _ _ (fun j' h1 _ => by omega),
        pixelLoop_cache_other base junk n (j + 1) _ _ (fun j' h1 _ => by omega)]
      exact e3
    · exact pixelLoop_cache_written base junk n (i + 1) _ _ e1 e2 j (by omega) (by omega)

/-! ## Drawing a scanline: frame and determinacy -/

theorem drawScanline_edges (r : DSGXSoftwareRenderer) (y : Int)
    (junk : Nat → DSGXSoftwareEndpoint) :
    (DSGXSoftwareRendererDrawScanline r y junk).activeEdges = (sweepEdges y r.activeEdges).edges :=
  rfl

theorem drawScanline_cache_other (r : DSGXSoftwareRenderer) (y : Int)
    (junk : Nat → DSGXSoftwareEndpoint) (k : Int)
    (hk : ∀ j : Nat, j < 256 → k ≠ rowBase y + j) :
    (DSGXSoftwareRendererDrawScanline r y junk).scanlineCache k = r.scanlineCache k := by
  show (pixelLoop (rowBase y) junk 256 0 _).cache k = _
  exact pixelLoop_cache_other (rowBase y) junk 256 0 _ k (fun j _ h2 => hk j (by omega))

theorem drawScanline_cache_row (r r2 : DSGXSoftwareRenderer) (y : Int)
    (junk : Nat → DSGXSoftwareEndpoint)
    (hs : (sweepEdges y r.activeEdges).spans = (sweepEdges y r2.activeEdges).spans)
    (j : Nat) (hj : j < 256) :
    (DSGXSoftwareRendererDrawScanline r y junk).scanlineCache (rowBase y + j) =
      (DSGXSoftwareRendererDrawScanline r2 y junk).scanlineCache (rowBase y + j) := by
  show (pixelLoop (rowBase y) junk 256 0 _).cache _ = (pixelLoop (rowBase y) junk 256 0 _).cache _
  exact pixelLoop_cache_written (rowBase y) junk 256 0 _ _ (by simp only [hs]) (by simp only [hs])
    j (Nat.zero_le _) (by omega)

/-- C6. Calling `drawScanline(y)` twice in a row leaves the same edge table
and the same cache (hence the same cached row for `y`) as calling it once, for
every renderer state and every `y`. -/
theorem drawScanline_idempotent (r : DSGXSoftwareRenderer) (y : Int)
    (junk : Nat → DSGXSoftwareEndpoint) :
    (DSGXSoftwareRendererDrawScanline (DSGXSoftwareRendererDrawScanline r y junk) y junk).activeEdges =
      (DSGXSoftwareRendererDrawScanline r y junk).activeEdges ∧
    (DSGXSoftwareRendererDrawScanline (DSGXSoftwareRendererDrawScanline r y junk) y junk).scanlineCache =
      (DSGXSoftwareRendererDrawScanline r y junk).scanlineCache := by
  have hid := sweepEdges_idem y r.activeEdges
  refine ⟨?_, ?_⟩
  · rw [drawScanline_edges, drawScanline_edges]
    exact hid.2
  · funext k
    by_cases hk : ∃ j : Nat, j < 256 ∧ k = rowBase y + j
    · obtain ⟨j, hj, rfl⟩ := hk
      exact drawScanline_cache_row _ r y junk (by rw [drawScanline_edges]; exact hid.1) j hj
    · rw [drawScanline_cache_other _ y junk k (fun j hj hkj => hk ⟨j, hj, hkj⟩)]

/-- C7 (as amended). When every edge whose bottom row `y1 >> 12` lies below
`ya` also has its bottom row below `yb` (in particular when `ya ≤ yb`), the row
that `drawScanline(yb)` produces is the same whether or not `drawScanline(ya)`
was called before it. -/
theorem drawScanline_after_earlier (r : DSGXSoftwareRenderer) (ya yb : Int)
    (junkA junkB : Nat → DSGXSoftwareEndpoint)
    (h : ∀ e ∈ r.activeEdges, shr12 e.y1 < ya → shr12 e.y1 < yb) :
    ∀ i : Nat, i < 256 →
      scanlineRow (DSGXSoftwareRendererDrawScanline
        (DSGXSoftwareRendererDrawScanline r ya junkA) yb junkB) yb i =
      scanlineRow (DSGXSoftwareRendererDrawScanline r yb junkB) yb i := by
  intro i hi
  unfold scanlineRow DSGXSoftwareRendererGetScanline
  apply drawScanline_cache_row _ r yb junkB _ i hi
  rw [drawScanline_edges, sweepEdges_edges]
  have hf : r.activeEdges.filter (fun e => decide (¬ shr12 e.y1 < ya)) =
      r.activeEdges.filter (fun e => decide (¬ (shr12 e.y1 < ya ∧ shr12 e.y1 < yb))) := by
    apply List.filter_congr
    intro e he
    have := h e he
    by_cases h1 : shr12 e.y1 < ya
    · simp [h1, this h1]
    · simp [h1]
  rw [hf]
  exact (sweepEdges_filter yb _ (fun e he => by
    simp only [decide_eq_false_iff_not, not_not] at he
    exact he.2) r.activeEdges).1

set_option maxRecDepth 100000 in
/-- C7, counterexample. With the scenario quad (rows 10 to 20) submitted,
`drawScanline(15)` writes the quad's colour at column 5, but after
`drawScanline(30)`, which removes all four edges from the table,
`drawScanline(15)` writes the unwritten sentinel there. -/
theorem drawScanline_order_matters :
    scanlineRow (DSGXSoftwareRendererDrawScanline scenarioRenderer 15 zeroJunk) 15 5 =
      _finishColor 63 63 63 ∧
    (DSGXSoftwareRendererDrawScanline scenarioRenderer 30 zeroJunk).activeEdges = [] ∧
    scanlineRow (DSGXSoftwareRendererDrawScanline
      (DSGXSoftwareRendererDrawScanline scenarioRenderer 30 zeroJunk) 15 zeroJunk) 15 5 =
      FLAG_UNWRITTEN ∧
    scanlineRow (DSGXSoftwareRendererDrawScanline
      (DSGXSoftwareRendererDrawScanline scenarioRenderer 30 zeroJunk) 15 zeroJunk) 15 5 ≠
    scanlineRow (DSGXSoftwareRendererDrawScanline scenarioRenderer 15 zeroJunk) 15 5 := by
  decide

/-- Witness of C7: the scenario quad, drawn at row 12 and then at row 15. -/
theorem drawScanline_after_earlier_witness :
    (∀ e ∈ scenarioRenderer.activeEdges, shr12 e.y1 < 12 → shr12 e.y1 < 15) ∧
    ∀ i : Nat, i < 256 →
      scanlineRow (DSGXSoftwareRendererDrawScanline
        (DSGXSoftwareRendererDrawScanline scenarioRenderer 12 zeroJunk) 15 zeroJunk) 15 i =
      scanlineRow (DSGXSoftwareRendererDrawScanline scenarioRenderer 15 zeroJunk) 15 i :=
  ⟨by decide, drawScanline_after_earlier scenarioRenderer 12 15 zeroJunk zeroJunk (by decide)⟩

/-! ## The cyclic cache -/

theorem rowBase_add_48 (y : Int) (hy : 0 ≤ y) : rowBase (y + 48) = rowBase y := by
  unfold rowBase
  rw [Int.tmod_eq_emod (by omega) (by decide), Int.tmod_eq_emod hy (by decide),
    Int.add_emod_self]

/-- C10. For every `y ≥ 0`, `getScanline(y)` and `getScanline(y + 48)` hand out
the same row of the cache, row `y mod 48`; after `drawScanline(y)` followed by
`drawScanline(y + 48)` the row read through `getScanline(y)` is the row that
the second draw writes, whatever the cache held before that draw. -/
theorem getScanline_cyclic (r : DSGXSoftwareRenderer) (y : Int) (hy : 0 ≤ y)
    (junkA junkB : Nat → DSGXSoftwareEndpoint) (before : Int → Nat) :
    DSGXSoftwareRendererGetScanline r y = DSGXSoftwareRendererGetScanline r (y + 48) ∧
    DSGXSoftwareRendererGetScanline r y = 256 * (y % 48) ∧
    ∀ i : Nat, i < 256 →
      scanlineRow (DSGXSoftwareRendererDrawScanline
        (DSGXSoftwareRendererDrawScanline r y junkA) (y + 48) junkB) y i =
      scanlineRow (DSGXSoftwareRendererDrawScanline
        { DSGXSoftwareRendererDrawScanline r y junkA with scanlineCache := before }
        (y + 48) junkB) (y + 48) i := by
  refine ⟨?_, ?_, ?_⟩
  · unfold DSGXSoftwareRendererGetScanline
    rw [rowBase_add_48 y hy]
  · unfold DSGXSoftwareRendererGetScanline rowBase
    rw [Int.tmod_eq_emod hy (by decide)]
    rfl
  · intro i hi
    unfold scanlineRow DSGXSoftwareRendererGetScanline
    rw [← rowBase_add_48 y hy]
    exact drawScanline_cache_row (DSGXSoftwareRendererDrawScanline r y junkA)
      { DSGXSoftwareRendererDrawScanline r y junkA with scanlineCache := before }
      (y + 48) junkB (by simp only []) i hi

/-- Witness of C10: rows 3 and 51. -/
theorem getScanline_cyclic_witness :
    DSGXSoftwareRendererGetScanline scenarioRenderer 3 =
      DSGXSoftwareRendererGetScanline scenarioRenderer (3 + 48) ∧
    DSGXSoftwareRendererGetScanline scenarioRenderer 3 = 256 * (3 % 48) ∧
    ∀ i : Nat, i < 256 →
      scanlineRow (DSGXSoftwareRendererDrawScanline
        (DSGXSoftwareRendererDrawScanline scenarioRenderer 3 zeroJunk) (3 + 48) zeroJunk) 3 i =
      scanlineRow (DSGXSoftwareRendererDrawScanline
        { DSGXSoftwareRendererDrawScanline scenarioRenderer 3 zeroJunk with
          scanlineCache := fun _ => 7 }
        (3 + 48) zeroJunk) (3 + 48) i :=
  getScanline_cyclic scenarioRenderer 3 (by decide) zeroJunk zeroJunk (fun _ => 7)

/-! ## The span sweep: which span is chosen -/

theorem retireSpans_spec (i : Int) :
    ∀ (l : List DSGXSoftwareSpan) (nx : Int), nx = initialNextSpanX l →
      (retireSpans i nx l).1 <:+ l ∧
      (retireSpans i nx l).2 = initialNextSpanX (retireSpans i nx l).1 ∧
      ∀ sp ∈ (retireSpans i nx l).1.head?, i ≤ shr12 sp.ep1.x ∧ sp.ep1.x ≠ 0
  | [], nx, h => by simp [retireSpans, h]
  | span :: rest, nx, h => by
    by_cases hc : i > shr12 span.ep1.x ∨ span.ep1.x = 0
    · cases rest with
      | nil => simp [retireSpans, hc, initialNextSpanX]
      | cons next rest2 =>
        have ih := retireSpans_spec i (next :: rest2) (shr12 next.ep0.x) rfl
        simp only [retireSpans, hc, if_true]
        exact ⟨ih.1.trans (List.suffix_cons _ _), ih.2⟩
    · simp only [retireSpans, hc, if_false]
      refine ⟨List.suffix_refl _, h, ?_⟩
      intro sp hsp
      simp only [List.head?_cons, Option.mem_def, Option.some.injEq] at hsp
      subst hsp
      constructor
      · omega
      · exact fun h0 => hc (Or.inr h0)

theorem testSpans_spec (i : Nat) :
    ∀ (l : List DSGXSoftwareSpan) (depth : Int) (ep : DSGXSoftwareEndpoint)
      (span : Option DSGXSoftwareSpan) (sp : DSGXSoftwareSpan),
      (testSpans i l depth ep span).1 = some sp →
      span = some sp ∨ (sp ∈ l ∧ shr12 sp.ep0.x < i ∧ (i : Int) ≤ shr12 sp.ep1.x)
  | [], _, _, _, _, h => Or.inl h
  | t :: rest, depth, ep, span, sp, h => by
    unfold testSpans at h
    simp only [] at h
    split_ifs at h with h1 h2 h3
    · rcases testSpans_spec i rest _ _ _ sp h with h' | ⟨hm, hx⟩
      · right
        simp only [Option.some.injEq] at h'
        subst h'
        exact ⟨List.mem_cons_self _ _, h1, h2⟩
      · exact Or.inr ⟨List.mem_cons_of_mem _ hm, hx⟩
    · rcases testSpans_spec i rest _ _ _ sp h with h' | ⟨hm, hx⟩
      · exact Or.inl h'
      · exact Or.inr ⟨List.mem_cons_of_mem _ hm, hx⟩
    · rcases testSpans_spec i rest _ _ _ sp h with h' | ⟨hm, hx⟩
      · exact Or.inl h'
      · exact Or.inr ⟨List.mem_cons_of_mem _ hm, hx⟩
    · exact Or.inl h

theorem selectSpan_spec (i : Nat) (junk : DSGXSoftwareEndpoint) (l : List DSGXSoftwareSpan)
    (nx : Int) (h : nx = initialNextSpanX l) :
    (selectSpan i junk l nx).2.2.1 <:+ l ∧
    (selectSpan i junk l nx).2.2.2 = initialNextSpanX (selectSpan i junk l nx).2.2.1 ∧
    ∀ sp, (selectSpan i junk l nx).1 = some sp → sp ∈ l ∧ spanCovers sp i := by
  unfold selectSpan
  by_cases h1 : (i : Int) ≥ nx
  · obtain ⟨hsuf, hinv, hhead⟩ := retireSpans_spec i l nx h
    simp only [h1, if_true]
    by_cases h2 : (i : Int) < (retireSpans i nx l).2
    · simp only [h2, if_true]
      exact ⟨hsuf, hinv, fun sp hsp => by simp at hsp⟩
    · simp only [h2, if_false]
      refine ⟨hsuf, hinv, ?_⟩
      intro sp hsp
      rcases testSpans_spec i _ _ _ _ sp hsp with h' | ⟨hm, hx1, hx2⟩
      · have hh := hhead sp h'
        refine ⟨hsuf.subset (List.mem_of_mem_head? h'), ?_, hh.1⟩
        rw [hinv] at h2
        cases hl : (retireSpans i nx l).1 with
        | nil => rw [hl] at h'; simp at h'
        | cons a b =>
          rw [hl] at h' h2
          simp only [List.head?_cons, Option.some.injEq] at h'
          subst h'
          simp only [initialNextSpanX] at h2
          omega
      · exact ⟨hsuf.subset hm, le_of_lt hx1, hx2⟩
  · simp only [h1, if_false]
    exact ⟨List.suffix_refl _, h, fun sp hsp => by simp at hsp⟩

theorem pixelLoop_unwritten (base : Int) (junk : Nat → DSGXSoftwareEndpoint) (j : Nat) :
    ∀ (n i : Nat) (st : PixelState), st.nextSpanX = initialNextSpanX st.spans →
      i ≤ j → j < i + n → (∀ sp ∈ st.spans, ¬ spanCovers sp j) →
      (pixelLoop base junk n i st).cache (base + j) = FLAG_UNWRITTEN
  | 0, _, _, _, h1, h2, _ => by omega
  | n + 1, i, st, hinv, h1, h2, hno => by
    obtain ⟨hsuf, hinv2, hcov⟩ := selectSpan_spec i (junk i) st.spans st.nextSpanX hinv
    rw [pixelLoop]
    by_cases hj : j = i
    · subst hj
      rw [pixelLoop_cache_other base junk n (j + 1) _ _ (fun j' h1 _ => by omega)]
      simp only [pixelStep, Function.update_same]
      cases hsel : (selectSpan j (junk j) st.spans st.nextSpanX).1 with
      | none => rfl
      | some sp => exact absurd (hcov sp hsel).2 (hno sp (hcov sp hsel).1)
    · exact pixelLoop_unwritten base junk j n (i + 1) _ hinv2 (by omega) (by omega)
        (fun sp hsp => hno sp (hsuf.subset hsp))

/-- C9. For every scanline `y` and every column `i` in [0, 256), if no span of
the span table of that scanline covers `i`, `drawScanline` writes
`FLAG_UNWRITTEN` at column `i`; and with an empty polygon list submitted,
column `i` of every scanline holds `FLAG_UNWRITTEN`. -/
theorem drawScanline_unwritten (r : DSGXSoftwareRenderer) (y : Int)
    (junk : Nat → DSGXSoftwareEndpoint) (i : Nat) (hi : i < 256)
    (hno : ∀ sp ∈ (sweepEdges y r.activeEdges).spans, ¬ spanCovers sp i) :
    scanlineRow (DSGXSoftwareRendererDrawScanline r y junk) y i = FLAG_UNWRITTEN ∧
    ∀ (verts : List DSGXVertex) (y2 : Int),
      scanlineRow (DSGXSoftwareRendererDrawScanline
        (DSGXSoftwareRendererSetRAM r verts []) y2 junk) y2 i = FLAG_UNWRITTEN := by
  have key : ∀ (r2 : DSGXSoftwareRenderer) (y2 : Int),
      (∀ sp ∈ (sweepEdges y2 r2.activeEdges).spans, ¬ spanCovers sp i) →
      scanlineRow (DSGXSoftwareRendererDrawScanline r2 y2 junk) y2 i = FLAG_UNWRITTEN := by
    intro r2 y2 h2
    show (pixelLoop (rowBase y2) junk 256 0 _).cache (rowBase y2 + i) = FLAG_UNWRITTEN
    apply pixelLoop_unwritten (rowBase y2) junk i 256 0 _ rfl (Nat.zero_le _) (by omega)
    intro sp hsp
    apply h2 sp
    have hsp2 : sp ∈ qsortSpans (sweepEdges y2 r2.activeEdges).spans := List.mem_reverse.1 hsp
    exact (List.perm_insertionSort spanLE _).mem_iff.1 hsp2
  refine ⟨key r y hno, ?_⟩
  intro verts y2
  apply key
  intro sp hsp
  have : (sweepEdges y2 (DSGXSoftwareRendererSetRAM r verts []).activeEdges).spans = [] := rfl
  rw [this] at hsp
  simp at hsp

/-- Witness of C9: column 3 of row 15 of the scenario quad, which spans columns
5 to 15. -/
theorem drawScanline_unwritten_witness :
    (3 < 256 ∧ ∀ sp ∈ (sweepEdges 15 scenarioRenderer.activeEdges).spans, ¬ spanCovers sp 3) ∧
    scanlineRow (DSGXSoftwareRendererDrawScanline scenarioRenderer 15 zeroJunk) 15 3 =
      FLAG_UNWRITTEN ∧
    ∀ (verts : List DSGXVertex) (y2 : Int),
      scanlineRow (DSGXSoftwareRendererDrawScanline
        (DSGXSoftwareRendererSetRAM scenarioRenderer verts []) y2 zeroJunk) y2 3 =
        FLAG_UNWRITTEN :=
  ⟨⟨by decide, by decide⟩,
    drawScanline_unwritten scenarioRenderer 15 zeroJunk 3 (by decide) (by decide)⟩

/-! ## Sampling an edge -/

theorem edgeToSpan_flat (sp : DSGXSoftwareSpan) (e : DSGXSoftwareEdge) (k : Nat) (y : Int)
    (h : flatEdge e) : _edgeToSpan sp e k y = (false, sp) := by
  unfold flatEdge at h
  simp [_edgeToSpan, h]

theorem edgeToSpan_open (e : DSGXSoftwareEdge) (y : Int) (h : ¬ flatEdge e) :
    _edgeToSpan zeroSpan e 0 y = (true, ⟨edgeSample e y, zeroEndpoint⟩) := by
  unfold flatEdge at h
  simp [edgeSample, _edgeToSpan, h, DSGXSoftwareSpan.setEp, DSGXSoftwareSpan.ep, zeroSpan]

theorem edgeToSpan_close (a : DSGXSoftwareEndpoint) (e : DSGXSoftwareEdge) (y : Int)
    (h : ¬ flatEdge e) :
    _edgeToSpan ⟨a, zeroEndpoint⟩ e 1 y =
      (true, if a.x > (edgeSample e y).x then ⟨edgeSample e y, a⟩ else ⟨a, edgeSample e y⟩) := by
  unfold flatEdge at h
  unfold edgeSample _edgeToSpan
  simp only [h, if_false]
  generalize clampTo (wrap32 (wrap32 (y * 4096) - e.y0)) (wrap32 (e.y1 - e.y0)) = yw
  generalize wrap32 (e.y1 - e.y0) = hgt
  generalize wrap32 ((wrap32 (e.x1 - e.x0) * yw).tdiv hgt + e.x0) = X
  generalize wrap32 ((wrap32 (e.w1 - e.w0) * yw).tdiv hgt + e.w0) = W
  by_cases hx : a.x > X
  · simp [DSGXSoftwareSpan.setEp, DSGXSoftwareSpan.ep, zeroSpan, zeroEndpoint, hx]
  · simp [DSGXSoftwareSpan.setEp, DSGXSoftwareSpan.ep, zeroSpan, zeroEndpoint, hx]

/-! ## Interpolation between equal ends -/

theorem wrap64_eq_self {x : Int} (h1 : -9223372036854775808 ≤ x) (h2 : x ≤ 9223372036854775807) :
    wrap64 x = x := by
  unfold wrap64 wrapS
  norm_num
  omega

theorem wrap32_zero : wrap32 0 = 0 := by decide

theorem wrap64_zero : wrap64 0 = 0 := by decide

theorem toU64_eq_self {x : Int} (h1 : 0 ≤ x) (h2 : x ≤ 18446744073709551615) :
    toU64 x = x.toNat := by
  unfold toU64
  congr 1
  norm_num
  omega

/-- A colour channel sampled between two ends that carry the same value `a`
and the same positive depth term `w` is `a`. -/
theorem lerpColor_same (a : Nat) (w xw width : Int) (ha : a ≤ 255) (hw : 0 < w)
    (hw2 : w ≤ 2147483647) : lerpColor a a w w xw width w = a := by
  have hprod : (a : Int) * w ≤ 255 * 2147483647 := by
    have h1 : (a : Int) ≤ 255 := by exact_mod_cast ha
    calc (a : Int) * w ≤ 255 * w := Int.mul_le_mul_of_nonneg_right h1 hw.le
      _ ≤ 255 * 2147483647 := Int.mul_le_mul_of_nonneg_left hw2 (by decide)
  have hprod0 : 0 ≤ (a : Int) * w := Int.mul_nonneg (Int.ofNat_nonneg a) hw.le
  unfold lerpColor lerpNum
  rw [sub_self, zero_mul, wrap64_zero, Int.zero_tdiv, zero_add,
    wrap64_eq_self (by omega) (by omega), toU64_eq_self hprod0 (by omega),
    toU64_eq_self hw.le (by omega)]
  obtain ⟨n, rfl⟩ := Int.eq_ofNat_of_zero_le hw.le
  have hn : 0 < n := by exact_mod_cast hw
  rw [← Nat.cast_mul, Int.toNat_natCast, Int.toNat_natCast, Nat.mul_div_cancel _ hn]
  exact Nat.mod_eq_of_lt (by omega)

/-- Sampling a span whose two ends carry the same colour and the same positive
depth term gives that colour and that depth term at every column. -/
theorem lerpEndpoint_uniform (sp : DSGXSoftwareSpan) (ep : DSGXSoftwareEndpoint) (i : Nat)
    (w : Int) (hw : 0 < w) (hw2 : w ≤ 2147483647)
    (hw0 : sp.ep0.w = w) (hw1 : sp.ep1.w = w)
    (hr : sp.ep1.cr = sp.ep0.cr) (hg : sp.ep1.cg = sp.ep0.cg) (hb : sp.ep1.cb = sp.ep0.cb)
    (hr2 : sp.ep0.cr ≤ 255) (hg2 : sp.ep0.cg ≤ 255) (hb2 : sp.ep0.cb ≤ 255)
    (hwidth : wrap32 (sp.ep1.x - sp.ep0.x) ≠ 0) :
    (_lerpEndpoint sp ep i).w = w ∧ (_lerpEndpoint sp ep i).cr = sp.ep0.cr ∧
    (_lerpEndpoint sp ep i).cg = sp.ep0.cg ∧ (_lerpEndpoint sp ep i).cb = sp.ep0.cb := by
  have hW : ∀ xw width : Int, wrap32 ((wrap32 (w - w) * xw).tdiv width + w) = w := by
    intro xw width
    rw [sub_self, wrap32_zero, zero_mul, Int.zero_tdiv, zero_add,
      wrap32_eq_self (by omega) (by omega)]
  unfold _lerpEndpoint
  simp only [hwidth, if_false, hw0, hw1, hW, hr, hg, hb]
  exact ⟨trivial, lerpColor_same _ _ _ _ hr2 hw hw2, lerpColor_same _ _ _ _ hg2 hw hw2,
    lerpColor_same _ _ _ _ hb2 hw hw2⟩

/-! ## The pixel loop over a single span -/

theorem selectSpan_single (i : Nat) (junk : DSGXSoftwareEndpoint) (sp : DSGXSoftwareSpan)
    (hx1 : sp.ep1.x ≠ 0) (hi : (i : Int) ≤ shr12 sp.ep1.x) :
    (selectSpan i junk [sp] (shr12 sp.ep0.x)).2.2.1 = [sp] ∧
    (selectSpan i junk [sp] (shr12 sp.ep0.x)).2.2.2 = shr12 sp.ep0.x ∧
    (shr12 sp.ep0.x ≤ i → (selectSpan i junk [sp] (shr12 sp.ep0.x)).1 = some sp) := by
  have hr : ¬ ((i : Int) > shr12 sp.ep1.x ∨ sp.ep1.x = 0) := by
    intro h
    rcases h with h | h
    · omega
    · exact hx1 h
  unfold selectSpan
  by_cases h1 : (i : Int) ≥ shr12 sp.ep0.x
  · have h2 : ¬ ((i : Int) < shr12 sp.ep0.x) := by omega
    simp only [h1, if_true, retireSpans, hr, if_false, h2, List.head?_cons]
    refine ⟨trivial, trivial, fun _ => ?_⟩
    unfold testSpans
    simp only []
    split_ifs <;> simp [testSpans]
  · simp only [h1, if_false]
    exact ⟨trivial, trivial, fun h => h.elim⟩

theorem pixelLoop_single (base : Int) (junk : Nat → DSGXSoftwareEndpoint)
    (sp : DSGXSoftwareSpan) (j : Nat) (hx1 : sp.ep1.x ≠ 0)
    (hj0 : shr12 sp.ep0.x ≤ j) (hj1 : (j : Int) ≤ shr12 sp.ep1.x) :
    ∀ (n i : Nat) (st : PixelState), st.spans = [sp] → st.nextSpanX = shr12 sp.ep0.x →
      i ≤ j → j < i + n →
      ∃ ep, (pixelLoop base junk n i st).cache (base + j) = pixelColor j (some sp) ep
  | 0, _, _, _, _, h1, h2 => by omega
  | n + 1, i, st, hs, hn, h1, h2 => by
    obtain ⟨e1, e2, e3⟩ := selectSpan_single i (junk i) sp hx1 (by omega)
    rw [pixelLoop]
    by_cases hj : j = i
    · subst hj
      rw [pixelLoop_cache_other base junk n (j + 1) _ _ (fun j' h1 _ => by omega)]
      simp only [pixelStep, Function.update_same, hs, hn, e3 hj0]
      exact ⟨_, rfl⟩
    · exact pixelLoop_single base junk sp j hx1 hj0 hj1 n (i + 1) _
        (by simp only [pixelStep, hs, hn, e1]) (by simp only [pixelStep, hs, hn, e2])
        (by omega) (by omega)

/-! ## A single axis-aligned quad -/

theorem mkEdge_y (i : Nat) (a b : DSGXVertex) :
    (a.vy ≥ b.vy → (mkEdge i a b).y0 = wrap32 (SCREEN_SIZE - a.vy) ∧
      (mkEdge i a b).y1 = wrap32 (SCREEN_SIZE - b.vy)) ∧
    (¬ a.vy ≥ b.vy → (mkEdge i a b).y0 = wrap32 (SCREEN_SIZE - b.vy) ∧
      (mkEdge i a b).y1 = wrap32 (SCREEN_SIZE - a.vy)) := by
  constructor <;> intro h <;> simp [mkEdge, h]

/-! ## One step of the edge sweep -/

theorem sweepEdge_inactive (y : Int) (e : DSGXSoftwareEdge) (st : SweepState)
    (h : ¬ edgeActive y e) :
    (sweepEdge y e st).spans = st.spans ∧ (sweepEdge y e st).bucket = st.bucket := by
  unfold edgeActive at h
  unfold sweepEdge
  by_cases h1 : shr12 e.y1 < y
  · simp [h1]
  · by_cases h2 : shr12 e.y0 > y
    · simp [h1, h2]
    · exact absurd ⟨h1, h2⟩ h

theorem sweepEdge_flat (y : Int) (e : DSGXSoftwareEdge) (st : SweepState)
    (h : flatEdge e) (hb : st.bucket e.polyId = none) :
    (sweepEdge y e st).spans = st.spans ∧ (sweepEdge y e st).bucket = st.bucket := by
  unfold sweepEdge
  by_cases h1 : shr12 e.y1 < y
  · simp [h1]
  · by_cases h2 : shr12 e.y0 > y
    · simp [h1, h2]
    · simp [h1, h2, addEdgeToSpans, hb, edgeToSpan_flat _ e 0 y h]

theorem sweepEdge_open (y : Int) (e : DSGXSoftwareEdge) (st : SweepState)
    (ha : edgeActive y e) (h : ¬ flatEdge e) (hb : st.bucket e.polyId = none) :
    (sweepEdge y e st).spans = st.spans ++ [⟨edgeSample e y, zeroEndpoint⟩] ∧
    (sweepEdge y e st).bucket = setBucket st.bucket e.polyId (some st.spans.length) := by
  unfold edgeActive at ha
  unfold sweepEdge
  simp [ha.1, ha.2, addEdgeToSpans, hb, edgeToSpan_open e y h]

theorem sweepEdge_close (y : Int) (e : DSGXSoftwareEdge) (st : SweepState)
    (k : Nat) (a : DSGXSoftwareEndpoint)
    (ha : edgeActive y e) (h : ¬ flatEdge e) (hb : st.bucket e.polyId = some k)
    (hk : st.spans[k]? = some ⟨a, zeroEndpoint⟩) :
    (sweepEdge y e st).spans = st.spans.set k
      (if a.x > (edgeSample e y).x then ⟨edgeSample e y, a⟩ else ⟨a, edgeSample e y⟩) ∧
    (sweepEdge y e st).bucket = setBucket st.bucket e.polyId none := by
  unfold edgeActive at ha
  have hg : st.spans.getD k zeroSpan = ⟨a, zeroEndpoint⟩ := by
    rw [List.getD_eq_getElem?_getD, hk]; rfl
  unfold sweepEdge
  simp only [ha.1, ha.2, if_false, addEdgeToSpans, hb, hg, edgeToSpan_close a e y h]
  simp [zeroEndpoint]

theorem sweepEdges_quad (y : Int) (hb vr vl ht : DSGXSoftwareEdge) (p : Nat)
    (pb : hb.polyId = p) (pr : vr.polyId = p) (pl : vl.polyId = p)
    (fb : flatEdge hb) (ft : flatEdge ht) (fr : ¬ flatEdge vr) (fl : ¬ flatEdge vl)
    (ar : edgeActive y vr) (al : edgeActive y vl) :
    (sweepEdges y [hb, vr, vl, ht]).spans =
      [if (edgeSample vl y).x > (edgeSample vr y).x
        then ⟨edgeSample vr y, edgeSample vl y⟩ else ⟨edgeSample vl y, edgeSample vr y⟩] := by
  have s0 : sweepEdges y [] = ⟨[], [], fun _ => none⟩ := rfl
  have s1 := sweepEdge_flat y ht (sweepEdges y []) ft rfl
  have e1 : sweepEdges y [ht] = sweepEdge y ht (sweepEdges y []) := rfl
  rw [← e1] at s1
  have s2 := sweepEdge_open y vl (sweepEdges y [ht]) al fl (by rw [s1.2]; rfl)
  have e2 : sweepEdges y [vl, ht] = sweepEdge y vl (sweepEdges y [ht]) := rfl
  rw [← e2, s1.1, s1.2, s0] at s2
  have s3 := sweepEdge_close y vr (sweepEdges y [vl, ht]) 0 (edgeSample vl y) ar fr
    (by rw [s2.2, pr, pl]; simp [setBucket]) (by rw [s2.1]; rfl)
  have e3 : sweepEdges y [vr, vl, ht] = sweepEdge y vr (sweepEdges y [vl, ht]) := rfl
  rw [← e3, s2.1, s2.2] at s3
  have s4 := sweepEdge_flat y hb (sweepEdges y [vr, vl, ht]) fb
    (by rw [s3.2, pb, pr]; simp [setBucket])
  have e4 : sweepEdges y [hb, vr, vl, ht] = sweepEdge y hb (sweepEdges y [vr, vl, ht]) := rfl
  rw [← e4, s3.1] at s4
  rw [s4.1]
  rfl

/-- An attribute sampled along an edge whose two ends carry the same value
`a` and the same positive depth term `w` is `a`, when `a * w` fits 32 bits. -/
theorem edgeAttr_same (a w yw height : Int) (ha0 : 0 ≤ a) (ha : a ≤ 63) (hw : 0 < w)
    (hw63 : 63 * w ≤ 2147483647) : edgeAttr a a w w yw height w = a := by
  have hprod : a * w ≤ 63 * w := Int.mul_le_mul_of_nonneg_right ha hw.le
  have hprod0 : 0 ≤ a * w := Int.mul_nonneg ha0 hw.le
  unfold edgeAttr
  rw [sub_self, wrap32_zero, zero_mul, Int.zero_tdiv, zero_add,
    wrap32_eq_self (by omega) (by omega)]
  exact Int.mul_tdiv_cancel _ (by omega)

theorem toU8_natCast (a : Nat) (ha : a ≤ 255) : toU8 (a : Int) = a := by
  unfold toU8
  omega

/-- The sample of an edge whose two ends share column, depth term and colour. -/
theorem edgeSample_uniform (e : DSGXSoftwareEdge) (y : Int) (h : ¬ flatEdge e)
    (hx : e.x1 = e.x0) (hx1 : -2147483648 ≤ e.x0) (hx2 : e.x0 ≤ 2147483647)
    (hw : e.w1 = e.w0) (hw0 : 0 < e.w0) (hw63 : 63 * e.w0 ≤ 2147483647)
    (hr : e.cr1 = e.cr0) (hg : e.cg1 = e.cg0) (hb : e.cb1 = e.cb0)
    (hr2 : e.cr0 ≤ 63) (hg2 : e.cg0 ≤ 63) (hb2 : e.cb0 ≤ 63) :
    (edgeSample e y).x = e.x0 ∧ (edgeSample e y).w = e.w0 ∧ (edgeSample e y).cr = e.cr0 ∧
    (edgeSample e y).cg = e.cg0 ∧ (edgeSample e y).cb = e.cb0 := by
  have hW : ∀ yw height : Int, wrap32 ((wrap32 (e.w0 - e.w0) * yw).tdiv height + e.w0) = e.w0 := by
    intro yw height
    rw [sub_self, wrap32_zero, zero_mul, Int.zero_tdiv, zero_add,
      wrap32_eq_self (by omega) (by omega)]
  have hX : ∀ yw height : Int, wrap32 ((wrap32 (e.x0 - e.x0) * yw).tdiv height + e.x0) = e.x0 := by
    intro yw height
    rw [sub_self, wrap32_zero, zero_mul, Int.zero_tdiv, zero_add, wrap32_eq_self hx1 hx2]
  have hA : ∀ (a : Nat) (yw height : Int), a ≤ 63 →
      toU8 (edgeAttr a a e.w0 e.w0 yw height e.w0) = a := by
    intro a yw height ha
    rw [edgeAttr_same _ _ _ _ (Int.ofNat_nonneg a) (by exact_mod_cast ha) hw0 hw63]
    exact toU8_natCast a (by omega)
  unfold flatEdge at h
  unfold edgeSample _edgeToSpan
  simp only [h, if_false, hx, hw, hr, hg, hb, hW, hX]
  simp [DSGXSoftwareSpan.setEp, DSGXSoftwareSpan.ep, hA _ _ _ hr2, hA _ _ _ hg2, hA _ _ _ hb2]

theorem expandColor_le (c : Nat) :
    (_expandColor c).1 ≤ 63 ∧ (_expandColor c).2.1 ≤ 63 ∧ (_expandColor c).2.2 ≤ 63 := by
  have key : ∀ a : Nat, (a &&& 0x3E) ||| 1 ≤ 63 := by
    intro a
    have h1 : a &&& 0x3E < 2 ^ 6 := lt_of_le_of_lt Nat.and_le_right (by decide)
    have h2 : (a &&& 0x3E) ||| 1 < 2 ^ 6 := Nat.or_lt_two_pow h1 (by decide)
    omega
  exact ⟨key _, key _, key _⟩

theorem wrap32_ne_zero {x : Int} (h1 : -4294967296 < x) (h2 : x < 4294967296) (h0 : x ≠ 0) :
    wrap32 x ≠ 0 := by
  unfold wrap32 wrapS
  norm_num
  omega

theorem mkEdge_fields (i : Nat) (a b : DSGXVertex) :
    (mkEdge i a b).polyId = i ∧
    (a.vy ≥ b.vy → (mkEdge i a b).x0 = a.vx ∧ (mkEdge i a b).x1 = b.vx ∧
      (mkEdge i a b).w0 = a.vw ∧ (mkEdge i a b).w1 = b.vw ∧
      ((mkEdge i a b).cr0, (mkEdge i a b).cg0, (mkEdge i a b).cb0) = _expandColor a.color ∧
      ((mkEdge i a b).cr1, (mkEdge i a b).cg1, (mkEdge i a b).cb1) = _expandColor b.color) ∧
    (¬ a.vy ≥ b.vy → (mkEdge i a b).x0 = b.vx ∧ (mkEdge i a b).x1 = a.vx ∧
      (mkEdge i a b).w0 = b.vw ∧ (mkEdge i a b).w1 = a.vw ∧
      ((mkEdge i a b).cr0, (mkEdge i a b).cg0, (mkEdge i a b).cb0) = _expandColor b.color ∧
      ((mkEdge i a b).cr1, (mkEdge i a b).cg1, (mkEdge i a b).cb1) = _expandColor a.color) := by
  refine ⟨mkEdge_polyId i a b, ?_, ?_⟩ <;> intro h <;> simp [mkEdge, h]

/-- The edge between two vertices of one column that share depth term and
colour: it runs from the inverted height of the upper vertex to that of the
lower one, and its sample at any scanline is the column, the depth term and
the expanded colour. -/
theorem mkEdge_vertical (i : Nat) (a b : DSGXVertex) (x vyT vyB w : Int) (c : Nat) (y : Int)
    (hvy : vyB < vyT) (hvB : SCREEN_SIZE - 2147483647 ≤ vyB) (hvT : vyT ≤ 2147483647)
    (hab : (a.vy = vyT ∧ b.vy = vyB) ∨ (a.vy = vyB ∧ b.vy = vyT))
    (hax : a.vx = x) (hbx : b.vx = x) (haw : a.vw = w) (hbw : b.vw = w)
    (hac : a.color = c) (hbc : b.color = c)
    (hx1 : -2147483648 ≤ x) (hx2 : x ≤ 2147483647) (hw0 : 0 < w) (hw63 : 63 * w ≤ 2147483647) :
    (mkEdge i a b).polyId = i ∧ ¬ flatEdge (mkEdge i a b) ∧
    (mkEdge i a b).y0 = SCREEN_SIZE - vyT ∧ (mkEdge i a b).y1 = SCREEN_SIZE - vyB ∧
    (edgeSample (mkEdge i a b) y).x = x ∧ (edgeSample (mkEdge i a b) y).w = w ∧
    (edgeSample (mkEdge i a b) y).cr = (_expandColor c).1 ∧
    (edgeSample (mkEdge i a b) y).cg = (_expandColor c).2.1 ∧
    (edgeSample (mkEdge i a b) y).cb = (_expandColor c).2.2 := by
  have hS : SCREEN_SIZE = 786432 := by decide
  rw [hS] at hvB ⊢
  have e1 : wrap32 (SCREEN_SIZE - vyT) = 786432 - vyT := by
    rw [hS]; exact wrap32_eq_self (by omega) (by omega)
  have e2 : wrap32 (SCREEN_SIZE - vyB) = 786432 - vyB := by
    rw [hS]; exact wrap32_eq_self (by omega) (by omega)
  obtain ⟨hid, hF1, hF2⟩ := mkEdge_fields i a b
  obtain ⟨hY1, hY2⟩ := mkEdge_y i a b
  obtain ⟨hc1, hc2, hc3⟩ := expandColor_le c
  have hy : (mkEdge i a b).y0 = 786432 - vyT ∧ (mkEdge i a b).y1 = 786432 - vyB := by
    rcases hab with ⟨h1, h2⟩ | ⟨h1, h2⟩
    · have := hY1 (by omega)
      rw [h1, h2, e1, e2] at this
      exact this
    · have := hY2 (by omega)
      rw [h1, h2, e1, e2] at this
      exact this
  have hf : (mkEdge i a b).x0 = x ∧ (mkEdge i a b).x1 = x ∧ (mkEdge i a b).w0 = w ∧
      (mkEdge i a b).w1 = w ∧
      ((mkEdge i a b).cr0, (mkEdge i a b).cg0, (mkEdge i a b).cb0) = _expandColor c ∧
      ((mkEdge i a b).cr1, (mkEdge i a b).cg1, (mkEdge i a b).cb1) = _expandColor c := by
    by_cases h : a.vy ≥ b.vy
    · have := hF1 h
      rw [hax, hbx, haw, hbw, hac, hbc] at this
      exact this
    · have := hF2 h
      rw [hax, hbx, haw, hbw, hac, hbc] at this
      exact this
  obtain ⟨f1, f2, f3, f4, f5, f6⟩ := hf
  have g5 : (mkEdge i a b).cr0 = (_expandColor c).1 ∧ (mkEdge i a b).cg0 = (_expandColor c).2.1 ∧
      (mkEdge i a b).cb0 = (_expandColor c).2.2 := by
    rw [← f5]; exact ⟨rfl, rfl, rfl⟩
  have g6 : (mkEdge i a b).cr1 = (_expandColor c).1 ∧ (mkEdge i a b).cg1 = (_expandColor c).2.1 ∧
      (mkEdge i a b).cb1 = (_expandColor c).2.2 := by
    rw [← f6]; exact ⟨rfl, rfl, rfl⟩
  have hflat : ¬ flatEdge (mkEdge i a b) := by
    unfold flatEdge
    rw [hy.1, hy.2]
    exact wrap32_ne_zero (by omega) (by omega) (by omega)
  have hs := edgeSample_uniform (mkEdge i a b) y hflat (by rw [f1, f2]) (by rw [f1]; exact hx1)
    (by rw [f1]; exact hx2) (by rw [f3, f4]) (by rw [f3]; exact hw0) (by rw [f3]; exact hw63)
    (by rw [g5.1, g6.1]) (by rw [g5.2.1, g6.2.1]) (by rw [g5.2.2, g6.2.2])
    (by rw [g5.1]; exact hc1) (by rw [g5.2.1]; exact hc2) (by rw [g5.2.2]; exact hc3)
  rw [f1, f3, g5.1, g5.2.1, g5.2.2] at hs
  exact ⟨hid, hflat, hy.1, hy.2, hs⟩

/-- The edge between two vertices of equal height has height zero. -/
theorem mkEdge_flat (i : Nat) (a b : DSGXVertex) (h : a.vy = b.vy) : flatEdge (mkEdge i a b) := by
  obtain ⟨h1, h2⟩ := (mkEdge_y i a b).1 (by omega)
  unfold flatEdge
  rw [h1, h2, h, sub_self]
  exact wrap32_zero

/-- When the span table of scanline `y` is a single span with the same
colour and the same positive depth term at both ends, the row holds that
colour on the columns the span covers and the sentinel elsewhere. -/
theorem drawScanline_single_span (r : DSGXSoftwareRenderer) (y : Int)
    (junk : Nat → DSGXSoftwareEndpoint) (sp : DSGXSoftwareSpan) (w : Int)
    (hsp : (sweepEdges y r.activeEdges).spans = [sp])
    (hw : 0 < w) (hw2 : w ≤ 2147483647) (hw0 : sp.ep0.w = w) (hw1 : sp.ep1.w = w)
    (hr : sp.ep1.cr = sp.ep0.cr) (hg : sp.ep1.cg = sp.ep0.cg) (hb : sp.ep1.cb = sp.ep0.cb)
    (hr2 : sp.ep0.cr ≤ 255) (hg2 : sp.ep0.cg ≤ 255) (hb2 : sp.ep0.cb ≤ 255)
    (hwidth : wrap32 (sp.ep1.x - sp.ep0.x) ≠ 0) (hx1 : sp.ep1.x ≠ 0)
    (i : Nat) (hi : i < 256) :
    scanlineRow (DSGXSoftwareRendererDrawScanline r y junk) y i =
      if shr12 sp.ep0.x ≤ i ∧ (i : Int) ≤ shr12 sp.ep1.x
      then _finishColor sp.ep0.cr sp.ep0.cg sp.ep0.cb else FLAG_UNWRITTEN := by
  have hq : (qsortSpans (sweepEdges y r.activeEdges).spans).reverse = [sp] := by
    rw [hsp]; rfl
  show (pixelLoop (rowBase y) junk 256 0
    ⟨(qsortSpans (sweepEdges y r.activeEdges).spans).reverse,
      initialNextSpanX (qsortSpans (sweepEdges y r.activeEdges).spans).reverse,
      r.scanlineCache⟩).cache (rowBase y + i) = _
  rw [hq]
  by_cases hc : shr12 sp.ep0.x ≤ i ∧ (i : Int) ≤ shr12 sp.ep1.x
  · rw [if_pos hc]
    obtain ⟨ep, hep⟩ := pixelLoop_single (rowBase y) junk sp i hx1 hc.1 hc.2 256 0
      ⟨[sp], initialNextSpanX [sp], r.scanlineCache⟩ rfl rfl (Nat.zero_le _) (by omega)
    rw [hep]
    obtain ⟨_, l1, l2, l3⟩ := lerpEndpoint_uniform sp ep i w hw hw2 hw0 hw1 hr hg hb hr2 hg2 hb2
      hwidth
    simp only [pixelColor, l1, l2, l3]
  · rw [if_neg hc]
    apply pixelLoop_unwritten (rowBase y) junk i 256 0 _ rfl (Nat.zero_le _) (by omega)
    intro s hs
    simp only [List.mem_singleton] at hs
    subst hs
    exact hc

theorem shr12_lt_imp {a b : Int} (h : shr12 a < shr12 b) : a < b := by
  unfold shr12 at h
  omega

/-! ## Overlapping spans -/

set_option maxRecDepth 100000 in
/-- C2, the code at the failing input. With the red quad (columns 5 to 15,
depth term 4096) and the blue quad (columns 8 to 12, depth term 8192)
submitted in either order, the span table of row 15 holds both spans, both
cover column 8 and the blue span has the greater depth term there, yet
`drawScanline(15)` writes the red colour at column 8; at column 9 it writes
the blue colour. -/
theorem drawScanline_overlap_left_pixel :
    (sweepEdges 15 (DSGXSoftwareRendererSetRAM emptyRenderer overlapVerts
      [⟨4, [0, 1, 2, 3]⟩, ⟨4, [4, 5, 6, 7]⟩]).activeEdges).spans = [blueSpan, redSpan] ∧
    (sweepEdges 15 (DSGXSoftwareRendererSetRAM emptyRenderer overlapVerts
      [⟨4, [4, 5, 6, 7]⟩, ⟨4, [0, 1, 2, 3]⟩]).activeEdges).spans = [redSpan, blueSpan] ∧
    spanCovers redSpan 8 ∧ spanCovers blueSpan 8 ∧
    (_lerpEndpoint blueSpan zeroEndpoint 8).w = 8192 ∧
    (_lerpEndpoint redSpan zeroEndpoint 8).w = 4096 ∧
    scanlineRow (DSGXSoftwareRendererDrawScanline (DSGXSoftwareRendererSetRAM emptyRenderer
      overlapVerts [⟨4, [0, 1, 2, 3]⟩, ⟨4, [4, 5, 6, 7]⟩]) 15 zeroJunk) 15 8 =
      _finishColor 63 1 1 ∧
    scanlineRow (DSGXSoftwareRendererDrawScanline (DSGXSoftwareRendererSetRAM emptyRenderer
      overlapVerts [⟨4, [4, 5, 6, 7]⟩, ⟨4, [0, 1, 2, 3]⟩]) 15 zeroJunk) 15 8 =
      _finishColor 63 1 1 ∧
    scanlineRow (DSGXSoftwareRendererDrawScanline (DSGXSoftwareRendererSetRAM emptyRenderer
      overlapVerts [⟨4, [0, 1, 2, 3]⟩, ⟨4, [4, 5, 6, 7]⟩]) 15 zeroJunk) 15 9 =
      _finishColor 1 1 63 ∧
    _finishColor 63 1 1 ≠ _finishColor 1 1 63 := by
  decide

/-! ## A single triangle -/

theorem sweep_open_close (y : Int) (e1 e2 : DSGXSoftwareEdge) (st : SweepState) (p : Nat)
    (hs : st.spans = []) (hb : st.bucket = fun _ => none)
    (p1 : e1.polyId = p) (p2 : e2.polyId = p) (f1 : ¬ flatEdge e1) (f2 : ¬ flatEdge e2)
    (a1 : edgeActive y e1) (a2 : edgeActive y e2) :
    (sweepEdge y e2 (sweepEdge y e1 st)).spans =
      [closeSpan (edgeSample e1 y) (edgeSample e2 y)] ∧
    (sweepEdge y e2 (sweepEdge y e1 st)).bucket = fun _ => none := by
  have s1 := sweepEdge_open y e1 st a1 f1 (by rw [hb])
  rw [hs, hb] at s1
  have s2 := sweepEdge_close y e2 (sweepEdge y e1 st) 0 (edgeSample e1 y) a2 f2
    (by rw [s1.2, p1, p2]; simp [setBucket]) (by rw [s1.1]; rfl)
  rw [s1.1, s1.2] at s2
  refine ⟨s2.1, ?_⟩
  rw [s2.2]
  funext k
  simp [setBucket, p1, p2]

theorem perm_three {α : Type} (a b c : α) (l : List α)
    (h : l = [a, b, c] ∨ l = [a, c, b] ∨ l = [b, a, c] ∨ l = [b, c, a] ∨ l = [c, a, b] ∨
      l = [c, b, a]) : List.Perm l [a, b, c] := by
  rcases h with h | h | h | h | h | h <;> subst h
  · exact List.Perm.refl _
  · exact (List.Perm.swap b c []).cons a
  · exact List.Perm.swap a b [c]
  · exact ((List.Perm.swap a c []).cons b).trans (List.Perm.swap a b [c])
  · exact (List.Perm.swap a c [b]).trans ((List.Perm.swap b c []).cons a)
  · exact ((List.Perm.swap a b []).cons c).trans
      ((List.Perm.swap a c [b]).trans ((List.Perm.swap b c []).cons a))

theorem qsortEdges_eq_of_perm (l t : List DSGXSoftwareEdge) (hp : List.Perm l t)
    (hs : t.Pairwise edgeLE)
    (ha : ∀ a b, a ∈ t → b ∈ t → edgeLE a b → edgeLE b a → a = b) : qsortEdges l = t := by
  have hperm : List.Perm (qsortEdges l) t := (List.perm_insertionSort edgeLE l).trans hp
  exact List.Perm.eq_of_sorted (fun a b ha' hb' => ha a b (hperm.mem_iff.1 ha') hb')
    (List.sorted_insertionSort edgeLE l) hs hperm

theorem mkEdge_comm (i : Nat) (a b : DSGXVertex) (h : a.vy ≠ b.vy) :
    mkEdge i a b = mkEdge i b a := by
  unfold mkEdge
  by_cases h1 : a.vy ≥ b.vy
  · have h2 : ¬ b.vy ≥ a.vy := by omega
    simp [h1, h2]
  · have h2 : b.vy ≥ a.vy := by omega
    simp [h1, h2]

theorem edgeActive_iff (y : Int) (e : DSGXSoftwareEdge) :
    edgeActive y e ↔ (e.y0 < (y + 1) * 4096 ∧ y * 4096 ≤ e.y1) := by
  unfold edgeActive shr12
  constructor <;> intro h <;> constructor <;> omega

theorem triangleSpans_of_closed (T : List DSGXSoftwareEdge) (y : Int) (st : SweepState)
    (ea eb : DSGXSoftwareEdge) (rest : List DSGXSoftwareSpan)
    (ha : ea ∈ T) (hb : eb ∈ T) (hne : ea ≠ eb)
    (ca : ea.y0 ≤ y * 4096 ∧ y * 4096 ≤ ea.y1) (cb : eb.y0 ≤ y * 4096 ∧ y * 4096 ≤ eb.y1)
    (hs : st.spans = closeSpan (edgeSample ea y) (edgeSample eb y) :: rest)
    (hbk : ∀ p, st.bucket p ≠ some 0)
    (hrest : ∀ k sp, 0 < k → st.spans[k]? = some sp →
      st.bucket 0 = some k ∧ sp.ep1 = zeroEndpoint) :
    triangleSpans T y st := by
  by_cases hx : (edgeSample ea y).x > (edgeSample eb y).x
  · refine ⟨eb, ea, hb, ha, Ne.symm hne, cb, ca, le_of_lt hx, ?_, hbk, hrest⟩
    rw [hs]
    simp [closeSpan, hx]
  · refine ⟨ea, eb, ha, hb, hne, ca, cb, not_lt.1 hx, ?_, hbk, hrest⟩
    rw [hs]
    simp [closeSpan, hx]

theorem wrap32_screen (vy : Int) (h1 : SCREEN_SIZE - 2147483647 ≤ vy) (h2 : vy ≤ 2147483647) :
    wrap32 (SCREEN_SIZE - vy) = SCREEN_SIZE - vy := by
  have hS : SCREEN_SIZE = 786432 := by decide
  rw [hS] at h1 ⊢
  exact wrap32_eq_self (by omega) (by omega)

/-- The edge between an upper vertex `a` and a lower vertex `b`: its polygon,
its heights, and that it is not flat. -/
theorem mkEdge_slanted (i : Nat) (a b : DSGXVertex) (h : b.vy < a.vy)
    (hb : SCREEN_SIZE - 2147483647 ≤ b.vy) (ha : a.vy ≤ 2147483647) :
    (mkEdge i a b).polyId = i ∧ (mkEdge i a b).y0 = SCREEN_SIZE - a.vy ∧
    (mkEdge i a b).y1 = SCREEN_SIZE - b.vy ∧ ¬ flatEdge (mkEdge i a b) := by
  obtain ⟨h0, h1⟩ := (mkEdge_y i a b).1 (le_of_lt h)
  rw [wrap32_screen _ (by omega) ha] at h0
  rw [wrap32_screen _ hb (by omega)] at h1
  refine ⟨mkEdge_polyId i a b, h0, h1, ?_⟩
  unfold flatEdge
  rw [h0, h1]
  have hS : SCREEN_SIZE = 786432 := by decide
  rw [hS] at hb ⊢
  exact wrap32_ne_zero (by omega) (by omega) (by omega)

theorem triangle_sweep (A B C : DSGXVertex) (y : Int) (hAB : B.vy < A.vy) (hBC : C.vy < B.vy)
    (hA : A.vy ≤ 2147483647) (hC : SCREEN_SIZE - 2147483647 ≤ C.vy)
    (htop : SCREEN_SIZE - A.vy < y * 4096) (hbot : y * 4096 < SCREEN_SIZE - C.vy) :
    triangleSpans [mkEdge 0 B C, mkEdge 0 A C, mkEdge 0 A B] y
      (sweepEdges y [mkEdge 0 B C, mkEdge 0 A C, mkEdge 0 A B]) := by
  obtain ⟨pAB, y0AB, y1AB, fAB⟩ := mkEdge_slanted 0 A B hAB (by omega) hA
  obtain ⟨pAC, y0AC, y1AC, fAC⟩ := mkEdge_slanted 0 A C (by omega) hC hA
  obtain ⟨pBC, y0BC, y1BC, fBC⟩ := mkEdge_slanted 0 B C hBC hC (by omega)
  have nAB_AC : mkEdge 0 A B ≠ mkEdge 0 A C := by
    intro h
    have := congrArg DSGXSoftwareEdge.y1 h
    rw [y1AB, y1AC] at this
    omega
  have nAC_BC : mkEdge 0 A C ≠ mkEdge 0 B C := by
    intro h
    have := congrArg DSGXSoftwareEdge.y0 h
    rw [y0AC, y0BC] at this
    omega
  have aAC : edgeActive y (mkEdge 0 A C) := by
    rw [edgeActive_iff, y0AC, y1AC]; omega
  have e3 : sweepEdges y [mkEdge 0 B C, mkEdge 0 A C, mkEdge 0 A B] =
      sweepEdge y (mkEdge 0 B C) (sweepEdge y (mkEdge 0 A C) (sweepEdge y (mkEdge 0 A B)
        (sweepEdges y []))) := rfl
  by_cases h1 : y * 4096 ≤ SCREEN_SIZE - B.vy
  · have aAB : edgeActive y (mkEdge 0 A B) := by
      rw [edgeActive_iff, y0AB, y1AB]; omega
    obtain ⟨s2, b2⟩ := sweep_open_close y (mkEdge 0 A B) (mkEdge 0 A C) (sweepEdges y []) 0
      rfl rfl pAB pAC fAB fAC aAB aAC
    by_cases h2 : SCREEN_SIZE - B.vy < (y + 1) * 4096
    · have aBC : edgeActive y (mkEdge 0 B C) := by
        rw [edgeActive_iff, y0BC, y1BC]; omega
      obtain ⟨s3, b3⟩ := sweepEdge_open y (mkEdge 0 B C) _ aBC fBC (by rw [b2])
      rw [s2] at s3 b3
      rw [b2] at b3
      rw [← e3] at s3 b3
      apply triangleSpans_of_closed _ y _ (mkEdge 0 A B) (mkEdge 0 A C) _
        (by simp) (by simp) nAB_AC (by rw [y0AB, y1AB]; omega) (by rw [y0AC, y1AC]; omega) s3
      · intro p
        rw [b3, pBC]
        simp [setBucket]
      · intro k sp hk hsp
        rw [s3] at hsp
        rw [b3, pBC]
        cases k with
        | zero => omega
        | succ k =>
          cases k with
          | zero =>
            simp only [List.singleton_append, List.getElem?_cons_succ, List.getElem?_cons_zero,
              Option.some.injEq] at hsp
            subst hsp
            simp [setBucket]
          | succ k => simp at hsp
    · have iBC : ¬ edgeActive y (mkEdge 0 B C) := by
        rw [edgeActive_iff, y0BC, y1BC]; omega
      obtain ⟨s3, b3⟩ := sweepEdge_inactive y (mkEdge 0 B C)
        (sweepEdge y (mkEdge 0 A C) (sweepEdge y (mkEdge 0 A B) (sweepEdges y []))) iBC
      rw [s2] at s3
      rw [b2] at b3
      rw [← e3] at s3 b3
      apply triangleSpans_of_closed _ y _ (mkEdge 0 A B) (mkEdge 0 A C) _
        (by simp) (by simp) nAB_AC (by rw [y0AB, y1AB]; omega) (by rw [y0AC, y1AC]; omega) s3
      · intro p
        rw [b3]
        simp
      · intro k sp hk hsp
        rw [s3] at hsp
        cases k with
        | zero => omega
        | succ k => simp at hsp
  · have iAB : ¬ edgeActive y (mkEdge 0 A B) := by
      rw [edgeActive_iff, y0AB, y1AB]; omega
    have aBC : edgeActive y (mkEdge 0 B C) := by
      rw [edgeActive_iff, y0BC, y1BC]; omega
    obtain ⟨s1, b1⟩ := sweepEdge_inactive y (mkEdge 0 A B) (sweepEdges y []) iAB
    obtain ⟨s3, b3⟩ := sweep_open_close y (mkEdge 0 A C) (mkEdge 0 B C)
      (sweepEdge y (mkEdge 0 A B) (sweepEdges y [])) 0 (by rw [s1]; rfl) (by rw [b1]; rfl)
      pAC pBC fAC fBC aAC aBC
    rw [← e3] at s3 b3
    apply triangleSpans_of_closed _ y _ (mkEdge 0 A C) (mkEdge 0 B C) _
      (by simp) (by simp) nAC_BC (by rw [y0AC, y1AC]; omega) (by rw [y0BC, y1BC]; omega) s3
    · intro p
      rw [b3]
      simp
    · intro k sp hk hsp
      rw [s3] at hsp
      cases k with
      | zero => omega
      | succ k => simp at hsp

theorem triangle_any_order (A B C : DSGXVertex) (y : Int) (hAB : B.vy < A.vy)
    (hBC : C.vy < B.vy) (hA : A.vy ≤ 2147483647) (hC : SCREEN_SIZE - 2147483647 ≤ C.vy)
    (htop : SCREEN_SIZE - A.vy < y * 4096) (hbot : y * 4096 < SCREEN_SIZE - C.vy)
    (l : List DSGXSoftwareEdge)
    (hl : l = [mkEdge 0 B C, mkEdge 0 A C, mkEdge 0 A B] ∨
      l = [mkEdge 0 B C, mkEdge 0 A B, mkEdge 0 A C] ∨
      l = [mkEdge 0 A C, mkEdge 0 B C, mkEdge 0 A B] ∨
      l = [mkEdge 0 A C, mkEdge 0 A B, mkEdge 0 B C] ∨
      l = [mkEdge 0 A B, mkEdge 0 B C, mkEdge 0 A C] ∨
      l = [mkEdge 0 A B, mkEdge 0 A C, mkEdge 0 B C]) :
    triangleSpans (qsortEdges l) y (sweepEdges y (qsortEdges l)) := by
  obtain ⟨_, y0AB, y1AB, _⟩ := mkEdge_slanted 0 A B hAB (by omega) hA
  obtain ⟨_, y0AC, y1AC, _⟩ := mkEdge_slanted 0 A C (by omega) hC hA
  obtain ⟨_, y0BC, y1BC, _⟩ := mkEdge_slanted 0 B C hBC hC (by omega)
  have hq : qsortEdges l = [mkEdge 0 B C, mkEdge 0 A C, mkEdge 0 A B] := by
    apply qsortEdges_eq_of_perm l _ (perm_three _ _ _ l hl)
    · simp only [List.pairwise_cons, List.mem_cons, List.mem_singleton, List.not_mem_nil,
        forall_eq_or_imp, forall_eq, edgeLE_iff, y0AB, y1AB, y0AC, y1AC, y0BC, y1BC]
      simp only [List.Pairwise.nil, and_true, true_and, IsEmpty.forall_iff, implies_true]
      omega
    · intro a b ha hb
      simp only [List.mem_cons, List.mem_singleton, List.not_mem_nil, or_false] at ha hb
      rcases ha with rfl | rfl | rfl <;> rcases hb with rfl | rfl | rfl <;>
        first
        | (intro _ _; rfl)
        | (rw [edgeLE_iff, edgeLE_iff]
           simp only [y0AB, y1AB, y0AC, y1AC, y0BC, y1BC]
           intro h1 h2
           exfalso
           omega)
  rw [hq]
  exact triangle_sweep A B C y hAB hBC hA hC htop hbot

/-- C8. For every triangle whose three vertices have pairwise distinct `vy`
(within the range where `SCREEN_SIZE - vy` fits 32 bits), submitted alone, and
every scanline `y` with `y << 12` strictly between its top and its bottom, the
span assembly of `drawScanline(y)` produces exactly one closed span: the span
at position 0 of the span table is closed, its endpoints are the samples of
two different sides of the triangle that cross the height `y << 12`, with
`ep[0].x ≤ ep[1].x`, and any other span of the table is still open. -/
theorem drawScanline_triangle_span (r : DSGXSoftwareRenderer) (v0 v1 v2 : DSGXVertex) (y : Int)
    (h01 : v0.vy ≠ v1.vy) (h12 : v1.vy ≠ v2.vy) (h02 : v0.vy ≠ v2.vy)
    (hr0 : SCREEN_SIZE - 2147483647 ≤ v0.vy ∧ v0.vy ≤ 2147483647)
    (hr1 : SCREEN_SIZE - 2147483647 ≤ v1.vy ∧ v1.vy ≤ 2147483647)
    (hr2 : SCREEN_SIZE - 2147483647 ≤ v2.vy ∧ v2.vy ≤ 2147483647)
    (htop : SCREEN_SIZE - max v0.vy (max v1.vy v2.vy) < y * 4096)
    (hbot : y * 4096 < SCREEN_SIZE - min v0.vy (min v1.vy v2.vy)) :
    ∃ e1 e2,
      e1 ∈ (DSGXSoftwareRendererSetRAM r [v0, v1, v2] [⟨3, [0, 1, 2]⟩]).activeEdges ∧
      e2 ∈ (DSGXSoftwareRendererSetRAM r [v0, v1, v2] [⟨3, [0, 1, 2]⟩]).activeEdges ∧
      e1 ≠ e2 ∧
      (e1.y0 ≤ y * 4096 ∧ y * 4096 ≤ e1.y1) ∧ (e2.y0 ≤ y * 4096 ∧ y * 4096 ≤ e2.y1) ∧
      (edgeSample e1 y).x ≤ (edgeSample e2 y).x ∧
      (sweepEdges y (DSGXSoftwareRendererSetRAM r [v0, v1, v2]
          [⟨3, [0, 1, 2]⟩]).activeEdges).spans[0]? =
        some ⟨edgeSample e1 y, edgeSample e2 y⟩ ∧
      (∀ p, (sweepEdges y (DSGXSoftwareRendererSetRAM r [v0, v1, v2]
          [⟨3, [0, 1, 2]⟩]).activeEdges).bucket p ≠ some 0) ∧
      ∀ k sp, 0 < k →
        (sweepEdges y (DSGXSoftwareRendererSetRAM r [v0, v1, v2]
          [⟨3, [0, 1, 2]⟩]).activeEdges).spans[k]? = some sp →
        (sweepEdges y (DSGXSoftwareRendererSetRAM r [v0, v1, v2]
          [⟨3, [0, 1, 2]⟩]).activeEdges).bucket 0 = some k ∧ sp.ep1 = zeroEndpoint := by
  have hT : (DSGXSoftwareRendererSetRAM r [v0, v1, v2] [⟨3, [0, 1, 2]⟩]).activeEdges =
      qsortEdges [mkEdge 0 v0 v1, mkEdge 0 v1 v2, mkEdge 0 v2 v0] := rfl
  rw [hT]
  have c01 := mkEdge_comm 0 v0 v1 h01
  have c12 := mkEdge_comm 0 v1 v2 h12
  have c20 := mkEdge_comm 0 v2 v0 (Ne.symm h02)
  show triangleSpans _ y _
  rcases lt_or_gt_of_ne h01 with a01 | a01 <;> rcases lt_or_gt_of_ne h12 with a12 | a12 <;>
    rcases lt_or_gt_of_ne h02 with a02 | a02
  · exact triangle_any_order v2 v1 v0 y a12 a01 hr2.2 hr0.1 (by omega) (by omega) _
      (by rw [c01, c12]; simp)
  · omega
  · exact triangle_any_order v1 v2 v0 y a12 a02 hr1.2 hr0.1 (by omega) (by omega) _
      (by rw [c01]; simp)
  · exact triangle_any_order v1 v0 v2 y a01 a02 hr1.2 hr2.1 (by omega) (by omega) _
      (by rw [c01, c20]; simp)
  · exact triangle_any_order v2 v0 v1 y a02 a01 hr2.2 hr1.1 (by omega) (by omega) _
      (by rw [c12]; simp)
  · exact triangle_any_order v0 v2 v1 y a02 a12 hr0.2 hr1.1 (by omega) (by omega) _
      (by rw [c12, c20]; simp)
  · omega
  · exact triangle_any_order v0 v1 v2 y a01 a12 hr0.2 hr2.1 (by omega) (by omega) _
      (by rw [c20]; simp)

/-- Witness of C8: the sample triangle at scanline 12. -/
theorem drawScanline_triangle_span_witness :
    ∃ e1 e2,
      e1 ∈ (DSGXSoftwareRendererSetRAM emptyRenderer
        [sampleTriangle 0, sampleTriangle 1, sampleTriangle 2] [⟨3, [0, 1, 2]⟩]).activeEdges ∧
      e2 ∈ (DSGXSoftwareRendererSetRAM emptyRenderer
        [sampleTriangle 0, sampleTriangle 1, sampleTriangle 2] [⟨3, [0, 1, 2]⟩]).activeEdges ∧
      e1 ≠ e2 ∧
      (e1.y0 ≤ 12 * 4096 ∧ 12 * 4096 ≤ e1.y1) ∧ (e2.y0 ≤ 12 * 4096 ∧ 12 * 4096 ≤ e2.y1) ∧
      (edgeSample e1 12).x ≤ (edgeSample e2 12).x ∧
      (sweepEdges 12 (DSGXSoftwareRendererSetRAM emptyRenderer
        [sampleTriangle 0, sampleTriangle 1, sampleTriangle 2]
          [⟨3, [0, 1, 2]⟩]).activeEdges).spans[0]? =
        some ⟨edgeSample e1 12, edgeSample e2 12⟩ ∧
      (∀ p, (sweepEdges 12 (DSGXSoftwareRendererSetRAM emptyRenderer
        [sampleTriangle 0, sampleTriangle 1, sampleTriangle 2]
          [⟨3, [0, 1, 2]⟩]).activeEdges).bucket p ≠ some 0) ∧
      ∀ k sp, 0 < k →
        (sweepEdges 12 (DSGXSoftwareRendererSetRAM emptyRenderer
          [sampleTriangle 0, sampleTriangle 1, sampleTriangle 2]
            [⟨3, [0, 1, 2]⟩]).activeEdges).spans[k]? = some sp →
        (sweepEdges 12 (DSGXSoftwareRendererSetRAM emptyRenderer
          [sampleTriangle 0, sampleTriangle 1, sampleTriangle 2]
            [⟨3, [0, 1, 2]⟩]).activeEdges).bucket 0 = some k ∧ sp.ep1 = zeroEndpoint :=
  drawScanline_triangle_span emptyRenderer (sampleTriangle 0) (sampleTriangle 1)
    (sampleTriangle 2) 12 (by decide) (by decide) (by decide) (by decide) (by decide) (by decide)
    (by decide) (by decide)

theorem qsortEdges_quad (hb va vb ht : DSGXSoftwareEdge) (yt yb : Int) (hlt : yt < yb)
    (kb : hb.y0 = yb ∧ hb.y1 = yb) (kt : ht.y0 = yt ∧ ht.y1 = yt)
    (ka : va.y0 = yt ∧ va.y1 = yb) (kv : vb.y0 = yt ∧ vb.y1 = yb)
    (l : List DSGXSoftwareEdge)
    (hl : l = [ht, va, hb, vb] ∨ l = [va, hb, vb, ht] ∨ l = [hb, va, ht, vb] ∨
      l = [va, ht, vb, hb]) :
    qsortEdges l = [hb, va, vb, ht] := by
  have h1 : edgeLE hb va := by rw [edgeLE_iff]; omega
  have h2 : edgeLE hb vb := by rw [edgeLE_iff]; omega
  have h3 : edgeLE hb ht := by rw [edgeLE_iff]; omega
  have h4 : edgeLE va vb := by rw [edgeLE_iff]; omega
  have h5 : edgeLE va ht := by rw [edgeLE_iff]; omega
  have h6 : edgeLE vb ht := by rw [edgeLE_iff]; omega
  have n1 : ¬ edgeLE va hb := by rw [edgeLE_iff]; omega
  have n2 : ¬ edgeLE vb hb := by rw [edgeLE_iff]; omega
  have n3 : ¬ edgeLE ht hb := by rw [edgeLE_iff]; omega
  have n4 : ¬ edgeLE ht va := by rw [edgeLE_iff]; omega
  have n5 : ¬ edgeLE ht vb := by rw [edgeLE_iff]; omega
  rcases hl with h | h | h | h <;> subst h <;>
    simp [qsortEdges, List.insertionSort, List.orderedInsert, h1, h2, h3, h4, h5, h6, n1, n2,
      n3, n4, n5]

/-- The row of a scanline whose edge table is that of an axis-aligned quad:
two flat edges around two vertical edges that are active at `y` and whose
samples carry one colour and one positive depth term at columns `xL < xR`. -/
theorem quad_row (r : DSGXSoftwareRenderer) (junk : Nat → DSGXSoftwareEndpoint) (y : Int)
    (hb va vb ht : DSGXSoftwareEdge) (p : Nat) (xL xR w : Int) (cr cg cb : Nat)
    (hT : r.activeEdges = [hb, va, vb, ht])
    (pb : hb.polyId = p) (pa : va.polyId = p) (pv : vb.polyId = p)
    (fb : flatEdge hb) (ft : flatEdge ht) (fa : ¬ flatEdge va) (fv : ¬ flatEdge vb)
    (aa : edgeActive y va) (av : edgeActive y vb)
    (sa : (edgeSample va y).w = w ∧ (edgeSample va y).cr = cr ∧ (edgeSample va y).cg = cg ∧
      (edgeSample va y).cb = cb)
    (sv : (edgeSample vb y).w = w ∧ (edgeSample vb y).cr = cr ∧ (edgeSample vb y).cg = cg ∧
      (edgeSample vb y).cb = cb)
    (hx : ((edgeSample va y).x = xL ∧ (edgeSample vb y).x = xR) ∨
      ((edgeSample va y).x = xR ∧ (edgeSample vb y).x = xL))
    (hlt : xL < xR) (hxL : -2147483648 ≤ xL) (hxR : xR ≤ 2147483647) (hxR0 : xR ≠ 0)
    (hw : 0 < w) (hw2 : w ≤ 2147483647) (hr : cr ≤ 255) (hg : cg ≤ 255) (hc : cb ≤ 255)
    (i : Nat) (hi : i < 256) :
    scanlineRow (DSGXSoftwareRendererDrawScanline r y junk) y i =
      if shr12 xL ≤ i ∧ (i : Int) ≤ shr12 xR then _finishColor cr cg cb else FLAG_UNWRITTEN := by
  have hsw := sweepEdges_quad y hb va vb ht p pb pa pv fb ft fa fv aa av
  rw [← hT] at hsw
  obtain ⟨sa1, sa2, sa3, sa4⟩ := sa
  obtain ⟨sv1, sv2, sv3, sv4⟩ := sv
  have hwd : wrap32 (xR - xL) ≠ 0 := wrap32_ne_zero (by omega) (by omega) (by omega)
  rcases hx with ⟨xa, xv⟩ | ⟨xa, xv⟩
  · rw [xa, xv, if_pos (by omega : xR > xL)] at hsw
    have hmain := drawScanline_single_span r y junk _ w hsw hw hw2 sa1 sv1
      (by rw [sv2, sa2]) (by rw [sv3, sa3]) (by rw [sv4, sa4])
      (by rw [sa2]; exact hr) (by rw [sa3]; exact hg) (by rw [sa4]; exact hc)
      (by rw [xa, xv]; exact hwd) (by rw [xv]; exact hxR0) i hi
    rw [xa, xv, sa2, sa3, sa4] at hmain
    exact hmain
  · rw [xa, xv, if_neg (by omega : ¬ xL > xR)] at hsw
    have hmain := drawScanline_single_span r y junk _ w hsw hw hw2 sv1 sa1
      (by rw [sv2, sa2]) (by rw [sv3, sa3]) (by rw [sv4, sa4])
      (by rw [sv2]; exact hr) (by rw [sv3]; exact hg) (by rw [sv4]; exact hc)
      (by rw [xa, xv]; exact hwd) (by rw [xa]; exact hxR0) i hi
    rw [xa, xv, sv2, sv3, sv4] at hmain
    exact hmain

theorem mkEdge_flat_y (i : Nat) (a b : DSGXVertex) (vy : Int) (ha : a.vy = vy) (hb : b.vy = vy)
    (h1 : SCREEN_SIZE - 2147483647 ≤ vy) (h2 : vy ≤ 2147483647) :
    (mkEdge i a b).y0 = SCREEN_SIZE - vy ∧ (mkEdge i a b).y1 = SCREEN_SIZE - vy := by
  obtain ⟨k0, k1⟩ := (mkEdge_y i a b).1 (by omega)
  rw [ha, wrap32_screen vy h1 h2] at k0
  rw [hb, wrap32_screen vy h1 h2] at k1
  exact ⟨k0, k1⟩

theorem quad_core (r : DSGXSoftwareRenderer) (junk : Nat → DSGXSoftwareEndpoint)
    (xL xR vyT vyB : Int) (c : Nat) (w : Int) (tex : Nat → Int × Int) (y : Int)
    (hw0 : 0 < w) (hw63 : 63 * w ≤ 2147483647)
    (hxL : -2147483648 ≤ xL) (hxR : xR ≤ 2147483647)
    (hc0 : 0 ≤ shr12 xL) (hcc : shr12 xL < shr12 xR)
    (hvy : vyB < vyT) (hvB : SCREEN_SIZE - 2147483647 ≤ vyB) (hvT : vyT ≤ 2147483647)
    (hy0 : shr12 (SCREEN_SIZE - vyT) ≤ y) (hy1 : y ≤ shr12 (SCREEN_SIZE - vyB))
    (ids : List Nat) (hb va vb ht : DSGXSoftwareEdge)
    (hbf : hb = mkEdge 0 ⟨c, (tex 2).1, (tex 2).2, xR, vyB, w⟩ ⟨c, (tex 3).1, (tex 3).2, xL, vyB, w⟩ ∨
      hb = mkEdge 0 ⟨c, (tex 3).1, (tex 3).2, xL, vyB, w⟩ ⟨c, (tex 2).1, (tex 2).2, xR, vyB, w⟩)
    (htf : ht = mkEdge 0 ⟨c, (tex 0).1, (tex 0).2, xL, vyT, w⟩ ⟨c, (tex 1).1, (tex 1).2, xR, vyT, w⟩ ∨
      ht = mkEdge 0 ⟨c, (tex 1).1, (tex 1).2, xR, vyT, w⟩ ⟨c, (tex 0).1, (tex 0).2, xL, vyT, w⟩)
    (hv : (va = mkEdge 0 ⟨c, (tex 1).1, (tex 1).2, xR, vyT, w⟩ ⟨c, (tex 2).1, (tex 2).2, xR, vyB, w⟩ ∧
        vb = mkEdge 0 ⟨c, (tex 3).1, (tex 3).2, xL, vyB, w⟩ ⟨c, (tex 0).1, (tex 0).2, xL, vyT, w⟩) ∨
      (va = mkEdge 0 ⟨c, (tex 3).1, (tex 3).2, xL, vyB, w⟩ ⟨c, (tex 0).1, (tex 0).2, xL, vyT, w⟩ ∧
        vb = mkEdge 0 ⟨c, (tex 1).1, (tex 1).2, xR, vyT, w⟩ ⟨c, (tex 2).1, (tex 2).2, xR, vyB, w⟩))
    (hl : buildEdges (quadVerts xL xR vyT vyB c w tex) 0 [⟨4, ids⟩] = [ht, va, hb, vb] ∨
      buildEdges (quadVerts xL xR vyT vyB c w tex) 0 [⟨4, ids⟩] = [va, hb, vb, ht] ∨
      buildEdges (quadVerts xL xR vyT vyB c w tex) 0 [⟨4, ids⟩] = [hb, va, ht, vb] ∨
      buildEdges (quadVerts xL xR vyT vyB c w tex) 0 [⟨4, ids⟩] = [va, ht, vb, hb])
    (i : Nat) (hi : i < 256) :
    scanlineRow (DSGXSoftwareRendererDrawScanline
      (DSGXSoftwareRendererSetRAM r (quadVerts xL xR vyT vyB c w tex) [⟨4, ids⟩]) y junk) y i =
      if shr12 xL ≤ i ∧ (i : Int) ≤ shr12 xR
      then _finishColor (_expandColor c).1 (_expandColor c).2.1 (_expandColor c).2.2
      else FLAG_UNWRITTEN := by
  have hlt : xL < xR := shr12_lt_imp hcc
  have hxR0 : xR ≠ 0 := by
    intro h0
    rw [h0] at hcc
    have : shr12 0 = 0 := by decide
    omega
  obtain ⟨hc1', hc2', hc3'⟩ := expandColor_le c
  obtain ⟨pR, fR, yR0, yR1, sRx, sRw, sRr, sRg, sRb⟩ :=
    mkEdge_vertical 0 ⟨c, (tex 1).1, (tex 1).2, xR, vyT, w⟩ ⟨c, (tex 2).1, (tex 2).2, xR, vyB, w⟩
      xR vyT vyB w c y hvy hvB hvT (Or.inl ⟨rfl, rfl⟩) rfl rfl rfl rfl rfl rfl (by omega) hxR
      hw0 hw63
  obtain ⟨pL, fL, yL0, yL1, sLx, sLw, sLr, sLg, sLb⟩ :=
    mkEdge_vertical 0 ⟨c, (tex 3).1, (tex 3).2, xL, vyB, w⟩ ⟨c, (tex 0).1, (tex 0).2, xL, vyT, w⟩
      xL vyT vyB w c y hvy hvB hvT (Or.inr ⟨rfl, rfl⟩) rfl rfl rfl rfl rfl rfl hxL (by omega)
      hw0 hw63
  have aR : edgeActive y (mkEdge 0 ⟨c, (tex 1).1, (tex 1).2, xR, vyT, w⟩
      ⟨c, (tex 2).1, (tex 2).2, xR, vyB, w⟩) := by
    unfold edgeActive; rw [yR0, yR1]; omega
  have aL : edgeActive y (mkEdge 0 ⟨c, (tex 3).1, (tex 3).2, xL, vyB, w⟩
      ⟨c, (tex 0).1, (tex 0).2, xL, vyT, w⟩) := by
    unfold edgeActive; rw [yL0, yL1]; omega
  have kb : hb.y0 = SCREEN_SIZE - vyB ∧ hb.y1 = SCREEN_SIZE - vyB := by
    rcases hbf with h | h <;> rw [h] <;>
      exact mkEdge_flat_y 0 _ _ vyB rfl rfl hvB (by omega)
  have kt : ht.y0 = SCREEN_SIZE - vyT ∧ ht.y1 = SCREEN_SIZE - vyT := by
    rcases htf with h | h <;> rw [h] <;>
      exact mkEdge_flat_y 0 _ _ vyT rfl rfl (by omega) hvT
  have fb : flatEdge hb := by
    rcases hbf with h | h <;> rw [h] <;> exact mkEdge_flat 0 _ _ rfl
  have ft : flatEdge ht := by
    rcases htf with h | h <;> rw [h] <;> exact mkEdge_flat 0 _ _ rfl
  have pb : hb.polyId = 0 := by
    rcases hbf with h | h <;> rw [h] <;> exact mkEdge_polyId 0 _ _
  have hbound : (_expandColor c).1 ≤ 255 ∧ (_expandColor c).2.1 ≤ 255 ∧
      (_expandColor c).2.2 ≤ 255 := ⟨by omega, by omega, by omega⟩
  rcases hv with ⟨ea, ev⟩ | ⟨ea, ev⟩
  · have hT : (DSGXSoftwareRendererSetRAM r (quadVerts xL xR vyT vyB c w tex)
        [⟨4, ids⟩]).activeEdges = [hb, va, vb, ht] :=
      qsortEdges_quad hb va vb ht _ _ (by omega) kb kt (by rw [ea]; exact ⟨yR0, yR1⟩)
        (by rw [ev]; exact ⟨yL0, yL1⟩) _ hl
    subst ea ev
    exact quad_row _ junk y hb _ _ ht 0 xL xR w _ _ _ hT pb pR pL fb ft fR fL aR aL
      ⟨sRw, sRr, sRg, sRb⟩ ⟨sLw, sLr, sLg, sLb⟩ (Or.inr ⟨sRx, sLx⟩) hlt hxL hxR hxR0 hw0
      (by omega) hbound.1 hbound.2.1 hbound.2.2 i hi
  · have hT : (DSGXSoftwareRendererSetRAM r (quadVerts xL xR vyT vyB c w tex)
        [⟨4, ids⟩]).activeEdges = [hb, va, vb, ht] :=
      qsortEdges_quad hb va vb ht _ _ (by omega) kb kt (by rw [ea]; exact ⟨yL0, yL1⟩)
        (by rw [ev]; exact ⟨yR0, yR1⟩) _ hl
    subst ea ev
    exact quad_row _ junk y hb _ _ ht 0 xL xR w _ _ _ hT pb pL pR fb ft fL fR aL aR
      ⟨sLw, sLr, sLg, sLb⟩ ⟨sRw, sRr, sRg, sRb⟩ (Or.inl ⟨sLx, sRx⟩) hlt hxL hxR hxR0 hw0
      (by omega) hbound.1 hbound.2.1 hbound.2.2 i hi

/-- C1. End-to-end rectangle: for every axis-aligned quad of non-zero height
whose four vertices share one packed colour `c` and one positive depth term
`w` with `63 * w` within 32 bits, listed around the quad from any corner in
either direction, covering pixel columns c0 = `xL >> 12` to c1 = `xR >> 12`
with 0 ≤ c0 < c1 and the rows from `(SCREEN_SIZE - vyT) >> 12` to
`(SCREEN_SIZE - vyB) >> 12`, and for every row `y` in that range, after
`SetRAM` with that single quad and `drawScanline(y)` the cached row holds
`_finishColor(_expandColor(c))` in the columns c0..c1 and `FLAG_UNWRITTEN` in
every other column. -/
theorem drawScanline_quad (r : DSGXSoftwareRenderer) (junk : Nat → DSGXSoftwareEndpoint)
    (xL xR vyT vyB : Int) (c : Nat) (w : Int) (tex : Nat → Int × Int) (y : Int)
    (ids : List Nat) (hids : ids ∈ quadOrders)
    (hw0 : 0 < w) (hw63 : 63 * w ≤ 2147483647)
    (hxL : -2147483648 ≤ xL) (hxR : xR ≤ 2147483647)
    (hc0 : 0 ≤ shr12 xL) (hcc : shr12 xL < shr12 xR)
    (hvy : vyB < vyT) (hvB : SCREEN_SIZE - 2147483647 ≤ vyB) (hvT : vyT ≤ 2147483647)
    (hy0 : shr12 (SCREEN_SIZE - vyT) ≤ y) (hy1 : y ≤ shr12 (SCREEN_SIZE - vyB))
    (i : Nat) (hi : i < 256) :
    scanlineRow (DSGXSoftwareRendererDrawScanline
      (DSGXSoftwareRendererSetRAM r (quadVerts xL xR vyT vyB c w tex) [⟨4, ids⟩]) y junk) y i =
      if shr12 xL ≤ i ∧ (i : Int) ≤ shr12 xR
      then _finishColor (_expandColor c).1 (_expandColor c).2.1 (_expandColor c).2.2
      else FLAG_UNWRITTEN := by
  have cR := mkEdge_comm 0 (⟨c, (tex 2).1, (tex 2).2, xR, vyB, w⟩ : DSGXVertex)
    ⟨c, (tex 1).1, (tex 1).2, xR, vyT, w⟩ (by simp only []; omega)
  have cL := mkEdge_comm 0 (⟨c, (tex 0).1, (tex 0).2, xL, vyT, w⟩ : DSGXVertex)
    ⟨c, (tex 3).1, (tex 3).2, xL, vyB, w⟩ (by simp only []; omega)
  simp only [quadOrders, List.mem_cons, List.mem_singleton, List.not_mem_nil, or_false] at hids
  rcases hids with h | h | h | h | h | h | h | h <;> subst h
  · exact quad_core r junk xL xR vyT vyB c w tex y hw0 hw63 hxL hxR hc0 hcc hvy hvB hvT hy0 hy1
      [0, 1, 2, 3] _ _ _ _ (Or.inl rfl) (Or.inl rfl) (Or.inl ⟨rfl, rfl⟩) (Or.inl rfl) i hi
  · exact quad_core r junk xL xR vyT vyB c w tex y hw0 hw63 hxL hxR hc0 hcc hvy hvB hvT hy0 hy1
      [1, 2, 3, 0] _ _ _ _ (Or.inl rfl) (Or.inl rfl) (Or.inl ⟨rfl, rfl⟩) (Or.inr (Or.inl rfl)) i hi
  · exact quad_core r junk xL xR vyT vyB c w tex y hw0 hw63 hxL hxR hc0 hcc hvy hvB hvT hy0 hy1
      [2, 3, 0, 1] _ _ _ _ (Or.inl rfl) (Or.inl rfl) (Or.inr ⟨rfl, rfl⟩) (Or.inr (Or.inr (Or.inl rfl))) i hi
  · exact quad_core r junk xL xR vyT vyB c w tex y hw0 hw63 hxL hxR hc0 hcc hvy hvB hvT hy0 hy1
      [3, 0, 1, 2] _ _ _ _ (Or.inl rfl) (Or.inl rfl) (Or.inr ⟨rfl, rfl⟩)
      (Or.inr (Or.inr (Or.inr rfl))) i hi
  · exact quad_core r junk xL xR vyT vyB c w tex y hw0 hw63 hxL hxR hc0 hcc hvy hvB hvT hy0 hy1
      [3, 2, 1, 0] _ _ _ _ (Or.inr rfl) (Or.inr rfl) (Or.inl ⟨cR, cL⟩) (Or.inr (Or.inr (Or.inl rfl))) i hi
  · exact quad_core r junk xL xR vyT vyB c w tex y hw0 hw63 hxL hxR hc0 hcc hvy hvB hvT hy0 hy1
      [2, 1, 0, 3] _ _ _ _ (Or.inr rfl) (Or.inr rfl) (Or.inl ⟨cR, cL⟩)
      (Or.inr (Or.inr (Or.inr rfl))) i hi
  · exact quad_core r junk xL xR vyT vyB c w tex y hw0 hw63 hxL hxR hc0 hcc hvy hvB hvT hy0 hy1
      [1, 0, 3, 2] _ _ _ _ (Or.inr rfl) (Or.inr rfl) (Or.inr ⟨cL, cR⟩) (Or.inl rfl) i hi
  · exact quad_core r junk xL xR vyT vyB c w tex y hw0 hw63 hxL hxR hc0 hcc hvy hvB hvT hy0 hy1
      [0, 3, 2, 1] _ _ _ _ (Or.inr rfl) (Or.inr rfl) (Or.inr ⟨cL, cR⟩) (Or.inr (Or.inl rfl)) i hi

/-- Witness of C1: the scenario of the specification, rows 10 to 20 and
columns 5 to 15, drawn at row 15, read at column 7. -/
theorem drawScanline_quad_witness :
    scanlineRow (DSGXSoftwareRendererDrawScanline
      (DSGXSoftwareRendererSetRAM emptyRenderer
        (quadVerts 20480 61440 745472 704512 0x7FFF 4096 (fun _ => (0, 0)))
        [⟨4, [0, 1, 2, 3]⟩])
      15 zeroJunk) 15 7 =
      if shr12 20480 ≤ ((7 : Nat) : Int) ∧ ((7 : Nat) : Int) ≤ shr12 61440
      then _finishColor (_expandColor 0x7FFF).1 (_expandColor 0x7FFF).2.1 (_expandColor 0x7FFF).2.2
      else FLAG_UNWRITTEN :=
  drawScanline_quad emptyRenderer zeroJunk 20480 61440 745472 704512 0x7FFF 4096
    (fun _ => (0, 0)) 15 [0, 1, 2, 3] (by decide) (by decide) (by decide) (by decide) (by decide)
    (by decide) (by decide) (by decide) (by decide) (by decide) (by decide) (by decide) 7
    (by decide)

/-! ## The colour codec -/

theorem and_3E (x : Nat) : x &&& 0x3E = 2 * (x % 64 / 2) := by
  have h62 : (0x3E : Nat) = (2 ^ 6 - 1) &&& 0x3E := by decide
  have hfin : ∀ y, y < 64 → y &&& 0x3E = 2 * (y / 2) := by decide
  rw [h62, ← Nat.and_assoc, Nat.and_pow_two_sub_one_eq_mod]
  exact hfin _ (Nat.mod_lt _ (by decide))

theorem and_1F (x : Nat) : x &&& 0x1F = x % 32 :=
  Nat.and_pow_two_sub_one_eq_mod x 5

theorem and_FF (x : Nat) : x &&& 0xFF = x % 256 :=
  Nat.and_pow_two_sub_one_eq_mod x 8

/-- A channel of `_expandColor`, as arithmetic on the value `x` that is masked. -/
theorem channel_eq (x : Nat) : (x &&& 0x3E) ||| 1 = 2 * (x % 64 / 2) + 1 := by
  have hfin : ∀ y, y < 32 → (2 * y) ||| 1 = 2 * y + 1 := by decide
  rw [and_3E]
  exact hfin _ (by omega)

theorem field_channel (f : Nat) (hf : f < 32) : (f <<< 1) ||| 1 = 2 * f + 1 := by
  revert f
  decide

/-- The three channels of `_expandColor` in terms of the 5-bit fields. -/
theorem expandColor_eq (c15 : Nat) :
    (_expandColor c15).1 = 2 * (c15 % 32) + 1 ∧
    (_expandColor c15).2.1 = 2 * (c15 / 32 % 32) + 1 ∧
    (_expandColor c15).2.2 = 2 * (c15 / 1024 % 32) + 1 := by
  simp only [_expandColor, channel_eq, Nat.shiftLeft_eq, Nat.shiftRight_eq_div_pow]
  refine ⟨?_, ?_, ?_⟩ <;> omega

/-- C14. For every input `c15`, each channel that `_expandColor` returns is
`(f << 1) | 1` for the corresponding 5-bit field `f` of `c15` (bits 0-4 red,
5-9 green, 10-14 blue); it is odd and lies in [1, 63]; bit 15 of `c15` (and
anything above it) has no effect. -/
theorem expandColor_fields (c15 : Nat) :
    ((_expandColor c15).1 = ((c15 &&& 0x1F) <<< 1) ||| 1 ∧
      (_expandColor c15).2.1 = (((c15 >>> 5) &&& 0x1F) <<< 1) ||| 1 ∧
      (_expandColor c15).2.2 = (((c15 >>> 10) &&& 0x1F) <<< 1) ||| 1) ∧
    ((_expandColor c15).1 % 2 = 1 ∧ (_expandColor c15).2.1 % 2 = 1 ∧
      (_expandColor c15).2.2 % 2 = 1) ∧
    (1 ≤ (_expandColor c15).1 ∧ (_expandColor c15).1 ≤ 63 ∧
      1 ≤ (_expandColor c15).2.1 ∧ (_expandColor c15).2.1 ≤ 63 ∧
      1 ≤ (_expandColor c15).2.2 ∧ (_expandColor c15).2.2 ≤ 63) ∧
    _expandColor (c15 &&& 0x7FFF) = _expandColor c15 ∧
    _expandColor (c15 ||| 0x8000) = _expandColor (c15 &&& 0x7FFF) := by
  obtain ⟨h1, h2, h3⟩ := expandColor_eq c15
  have hlow : c15 &&& 0x7FFF = c15 % 32768 := Nat.and_pow_two_sub_one_eq_mod c15 15
  have hhigh : c15 ||| 0x8000 = 32768 * (c15 / 32768 ||| 1) + c15 % 32768 := by
    have hsplit : c15 = 2 ^ 15 * (c15 / 32768) + c15 % 32768 := by omega
    have hlt : c15 % 32768 < 2 ^ 15 := by omega
    have h8 : (0x8000 : Nat) = 2 ^ 15 * 1 ||| 0 := by decide
    conv_lhs => rw [hsplit, Nat.mul_add_lt_is_or hlt, h8]
    rw [Nat.mul_add_lt_is_or hlt]
    apply Nat.eq_of_testBit_eq
    intro i
    simp only [Nat.testBit_or, Nat.testBit_mul_pow_two, Nat.zero_testBit, Bool.or_false]
    by_cases hi : 15 ≤ i <;> simp [hi, Bool.or_comm, Bool.or_assoc, Bool.or_left_comm]
  have ext : ∀ a b : Nat × Nat × Nat, a.1 = b.1 → a.2.1 = b.2.1 → a.2.2 = b.2.2 → a = b := by
    intro a b e1 e2 e3
    exact Prod.ext e1 (Prod.ext e2 e3)
  refine ⟨⟨?_, ?_, ?_⟩, ⟨by omega, by omega, by omega⟩,
    ⟨by omega, by omega, by omega, by omega, by omega, by omega⟩, ?_, ?_⟩
  · rw [h1, and_1F, field_channel _ (by omega)]
  · rw [h2, and_1F, field_channel _ (by omega), Nat.shiftRight_eq_div_pow]
  · rw [h3, and_1F, field_channel _ (by omega), Nat.shiftRight_eq_div_pow]
  · obtain ⟨g1, g2, g3⟩ := expandColor_eq (c15 &&& 0x7FFF)
    apply ext
    · rw [g1, h1, hlow]; omega
    · rw [g2, h2, hlow]; omega
    · rw [g3, h3, hlow]; omega
  · obtain ⟨g1, g2, g3⟩ := expandColor_eq (c15 &&& 0x7FFF)
    obtain ⟨k1, k2, k3⟩ := expandColor_eq (c15 ||| 0x8000)
    apply ext
    · rw [g1, k1, hlow, hhigh]; omega
    · rw [g2, k2, hlow, hhigh]; omega
    · rw [g3, k3, hlow, hhigh]; omega

/-- The lanes of `_finishColor` for green and blue channels below 64: the result is the sum
of the three masked channels, each in its own byte. -/
theorem finishColor_eq (r g b : Nat) (hg : g ≤ 63) (hb : b ≤ 63) :
    _finishColor r g b =
      65536 * ((b <<< 2) &&& 0xF8) + 256 * ((g <<< 2) &&& 0xF8) + ((r <<< 2) &&& 0xF8) ∧
    (r <<< 2) &&& 0xF8 < 256 ∧ (g <<< 2) &&& 0xF8 < 256 ∧ (b <<< 2) &&& 0xF8 < 256 := by
  have hG : ∀ v, v < 64 → (v <<< 10) &&& 0xF800 = 2 ^ 8 * ((v <<< 2) &&& 0xF8) := by decide
  have hB : ∀ v, v < 64 → (v <<< 18) &&& 0xF80000 = 2 ^ 16 * ((v <<< 2) &&& 0xF8) := by decide
  have hA : ∀ v : Nat, (v <<< 2) &&& 0xF8 < 2 ^ 8 := fun v =>
    lt_of_le_of_lt Nat.and_le_right (by decide)
  have hAB : 2 ^ 8 * ((g <<< 2) &&& 0xF8) + ((r <<< 2) &&& 0xF8) < 2 ^ 16 := by
    have := hA g
    have := hA r
    omega
  refine ⟨?_, hA r, hA g, hA b⟩
  unfold _finishColor
  rw [hG g (by omega), hB b (by omega), Nat.or_comm ((r <<< 2) &&& 0xF8),
    ← Nat.mul_add_lt_is_or (hA r), Nat.or_comm, ← Nat.mul_add_lt_is_or hAB]
  omega

/-- C13. For every packed colour, `_expandColor` followed by `_finishColor`
yields in each byte lane (bits 0-7 red, 8-15 green, 16-23 blue) the value
`((c << 1 | 1) << 2) & 0xF8` for the 5-bit value `c` of that channel's field,
and bits 24-31 of the result are zero. -/
theorem color_round_trip (c15 : Nat) :
    _finishColor (_expandColor c15).1 (_expandColor c15).2.1 (_expandColor c15).2.2 &&& 0xFF =
      ((((c15 &&& 0x1F) <<< 1) ||| 1) <<< 2) &&& 0xF8 ∧
    (_finishColor (_expandColor c15).1 (_expandColor c15).2.1 (_expandColor c15).2.2 >>> 8)
        &&& 0xFF =
      (((((c15 >>> 5) &&& 0x1F) <<< 1) ||| 1) <<< 2) &&& 0xF8 ∧
    (_finishColor (_expandColor c15).1 (_expandColor c15).2.1 (_expandColor c15).2.2 >>> 16)
        &&& 0xFF =
      (((((c15 >>> 10) &&& 0x1F) <<< 1) ||| 1) <<< 2) &&& 0xF8 ∧
    _finishColor (_expandColor c15).1 (_expandColor c15).2.1 (_expandColor c15).2.2 >>> 24 =
      0 := by
  obtain ⟨h1, h2, h3⟩ := expandColor_eq c15
  have f1 : ((c15 &&& 0x1F) <<< 1) ||| 1 = (_expandColor c15).1 := by
    rw [h1, and_1F, field_channel _ (by omega)]
  have f2 : (((c15 >>> 5) &&& 0x1F) <<< 1) ||| 1 = (_expandColor c15).2.1 := by
    rw [h2, and_1F, field_channel _ (by omega), Nat.shiftRight_eq_div_pow]
  have f3 : (((c15 >>> 10) &&& 0x1F) <<< 1) ||| 1 = (_expandColor c15).2.2 := by
    rw [h3, and_1F, field_channel _ (by omega), Nat.shiftRight_eq_div_pow]
  obtain ⟨e, a1, a2, a3⟩ := finishColor_eq (_expandColor c15).1 (_expandColor c15).2.1
    (_expandColor c15).2.2 (by omega) (by omega)
  rw [f1, f2, f3, e]
  simp only [and_FF, Nat.shiftRight_eq_div_pow]
  refine ⟨?_, ?_, ?_, ?_⟩ <;> omega

/-! ## Retirement of edges -/

/-- C15. For every edge table and every `y`, `drawScanline(y)` leaves exactly
the edges whose bottom row `y1 >> 12` is not below `y`, unmodified and in their
previous order (edges with `(y0 >> 12) > y` included); when the table was
sorted descending by (y0, y1) it still is afterwards. -/
theorem drawScanline_retires (r : DSGXSoftwareRenderer) (y : Int)
    (junk : Nat → DSGXSoftwareEndpoint) (hs : List.Sorted edgeLE r.activeEdges) :
    (DSGXSoftwareRendererDrawScanline r y junk).activeEdges =
      r.activeEdges.filter (fun e => decide (¬ shr12 e.y1 < y)) ∧
    (∀ e, e ∈ (DSGXSoftwareRendererDrawScanline r y junk).activeEdges ↔
      e ∈ r.activeEdges ∧ ¬ shr12 e.y1 < y) ∧
    List.Sublist (DSGXSoftwareRendererDrawScanline r y junk).activeEdges r.activeEdges ∧
    List.Sorted (fun a b : DSGXSoftwareEdge => _edgeSort a b ≤ 0 ∧
        (b.y0 < a.y0 ∨ (a.y0 = b.y0 ∧ b.y1 ≤ a.y1)))
      (DSGXSoftwareRendererDrawScanline r y junk).activeEdges := by
  have he : (DSGXSoftwareRendererDrawScanline r y junk).activeEdges =
      r.activeEdges.filter (fun e => decide (¬ shr12 e.y1 < y)) := by
    rw [drawScanline_edges, sweepEdges_edges]
  have hsub : List.Sublist (r.activeEdges.filter (fun e => decide (¬ shr12 e.y1 < y)))
      r.activeEdges := List.filter_sublist _
  refine ⟨he, ?_, ?_, ?_⟩
  · intro e
    rw [he, List.mem_filter]
    simp
  · rw [he]; exact hsub
  · rw [he]
    have h2 : List.Sorted edgeLE (r.activeEdges.filter (fun e => decide (¬ shr12 e.y1 < y))) :=
      List.Pairwise.sublist hsub hs
    exact List.Pairwise.imp (fun {a b} h => ⟨h, (edgeLE_iff a b).1 h⟩) h2

/-- Witness of C15: the table of the scenario quad, drawn at row 15. -/
theorem drawScanline_retires_witness :
    (DSGXSoftwareRendererDrawScanline scenarioRenderer 15 zeroJunk).activeEdges =
      scenarioRenderer.activeEdges.filter (fun e => decide (¬ shr12 e.y1 < 15)) ∧
    (∀ e, e ∈ (DSGXSoftwareRendererDrawScanline scenarioRenderer 15 zeroJunk).activeEdges ↔
      e ∈ scenarioRenderer.activeEdges ∧ ¬ shr12 e.y1 < 15) ∧
    List.Sublist (DSGXSoftwareRendererDrawScanline scenarioRenderer 15 zeroJunk).activeEdges
      scenarioRenderer.activeEdges ∧
    List.Sorted (fun a b : DSGXSoftwareEdge => _edgeSort a b ≤ 0 ∧
        (b.y0 < a.y0 ∨ (a.y0 = b.y0 ∧ b.y1 ≤ a.y1)))
      (DSGXSoftwareRendererDrawScanline scenarioRenderer 15 zeroJunk).activeEdges :=
  drawScanline_retires scenarioRenderer 15 zeroJunk (List.sorted_insertionSort edgeLE _)

/-! ## Closing a span -/

/-- C16. For every open span (`ep[0]` holding the sample `a` of a first edge,
`ep[1]` zero) and every second edge of non-zero height, `_edgeToSpan(span,
edge, 1, y)` returns true and leaves a span with `ep[0].x ≤ ep[1].x` whose two
endpoints are `a` and the complete sample of the second edge, in one order or
the other: no endpoint mixes fields of both. -/
theorem edgeToSpan_closes_left_first (a : DSGXSoftwareEndpoint) (e : DSGXSoftwareEdge) (y : Int)
    (h : ¬ flatEdge e) :
    (_edgeToSpan ⟨a, zeroEndpoint⟩ e 1 y).1 = true ∧
    (_edgeToSpan ⟨a, zeroEndpoint⟩ e 1 y).2.ep0.x ≤ (_edgeToSpan ⟨a, zeroEndpoint⟩ e 1 y).2.ep1.x ∧
    (((_edgeToSpan ⟨a, zeroEndpoint⟩ e 1 y).2.ep0 = a ∧
        (_edgeToSpan ⟨a, zeroEndpoint⟩ e 1 y).2.ep1 = edgeSample e y) ∨
      ((_edgeToSpan ⟨a, zeroEndpoint⟩ e 1 y).2.ep0 = edgeSample e y ∧
        (_edgeToSpan ⟨a, zeroEndpoint⟩ e 1 y).2.ep1 = a)) := by
  rw [edgeToSpan_close a e y h]
  by_cases hx : a.x > (edgeSample e y).x
  · rw [if_pos hx]
    exact ⟨rfl, le_of_lt hx, Or.inr ⟨rfl, rfl⟩⟩
  · rw [if_neg hx]
    exact ⟨rfl, not_lt.1 hx, Or.inl ⟨rfl, rfl⟩⟩

/-- Witness of C16: the span opened by the left edge of the scenario quad,
closed by its right edge at row 15. -/
theorem edgeToSpan_closes_left_first_witness :
    (_edgeToSpan ⟨scenarioLeftSample, zeroEndpoint⟩ scenarioRightEdge 1 15).1 =
      true ∧
    (_edgeToSpan ⟨scenarioLeftSample, zeroEndpoint⟩
        scenarioRightEdge 1 15).2.ep0.x ≤
      (_edgeToSpan ⟨scenarioLeftSample, zeroEndpoint⟩
        scenarioRightEdge 1 15).2.ep1.x ∧
    (((_edgeToSpan ⟨scenarioLeftSample, zeroEndpoint⟩
          scenarioRightEdge 1 15).2.ep0 = scenarioLeftSample ∧
        (_edgeToSpan ⟨scenarioLeftSample, zeroEndpoint⟩
          scenarioRightEdge 1 15).2.ep1 =
          edgeSample scenarioRightEdge 15) ∨
      ((_edgeToSpan ⟨scenarioLeftSample, zeroEndpoint⟩
          scenarioRightEdge 1 15).2.ep0 =
          edgeSample scenarioRightEdge 15 ∧
        (_edgeToSpan ⟨scenarioLeftSample, zeroEndpoint⟩
          scenarioRightEdge 1 15).2.ep1 = scenarioLeftSample)) :=
  edgeToSpan_closes_left_first scenarioLeftSample scenarioRightEdge 15
    (by decide)

/-! ## Frame of the cache and draws in ascending order -/

/-- C11. For every renderer state and every `y ≥ 0`, `drawScanline(y)` leaves
every entry of the 47 cache rows other than row `y mod 48` unchanged (indeed
every entry outside that row), and writes all 256 entries of row `y mod 48`:
what they hold afterwards does not depend on what the cache held before. -/
theorem drawScanline_cache_frame (r : DSGXSoftwareRenderer) (y : Int)
    (junk : Nat → DSGXSoftwareEndpoint) (hy : 0 ≤ y) :
    (∀ (row : Int) (i : Nat), 0 ≤ row → row < 48 → row ≠ y % 48 → i < 256 →
      (DSGXSoftwareRendererDrawScanline r y junk).scanlineCache (256 * row + i) =
        r.scanlineCache (256 * row + i)) ∧
    (∀ k : Int, (∀ i : Nat, i < 256 → k ≠ 256 * (y % 48) + i) →
      (DSGXSoftwareRendererDrawScanline r y junk).scanlineCache k = r.scanlineCache k) ∧
    (∀ (i : Nat) (before : Int → Nat), i < 256 →
      (DSGXSoftwareRendererDrawScanline ⟨r.activeEdges, r.activeSpans, before⟩ y
        junk).scanlineCache (256 * (y % 48) + i) =
      (DSGXSoftwareRendererDrawScanline r y junk).scanlineCache (256 * (y % 48) + i)) := by
  have hb : rowBase y = 256 * (y % 48) := by
    unfold rowBase
    rw [Int.tmod_eq_emod hy (by decide)]
    rfl
  refine ⟨?_, ?_, ?_⟩
  · intro row i h0 h1 h2 hi
    apply drawScanline_cache_other
    intro j hj
    rw [hb]
    omega
  · intro k hk
    apply drawScanline_cache_other
    intro j hj
    rw [hb]
    exact hk j hj
  · intro i before hi
    rw [← hb]
    exact drawScanline_cache_row ⟨r.activeEdges, r.activeSpans, before⟩ r y junk rfl i hi

/-- Witness of C11: the scenario quad drawn at row 15. -/
theorem drawScanline_cache_frame_witness :
    (∀ (row : Int) (i : Nat), 0 ≤ row → row < 48 → row ≠ 15 % 48 → i < 256 →
      (DSGXSoftwareRendererDrawScanline scenarioRenderer 15 zeroJunk).scanlineCache
        (256 * row + i) = scenarioRenderer.scanlineCache (256 * row + i)) ∧
    (∀ k : Int, (∀ i : Nat, i < 256 → k ≠ 256 * (15 % 48) + i) →
      (DSGXSoftwareRendererDrawScanline scenarioRenderer 15 zeroJunk).scanlineCache k =
        scenarioRenderer.scanlineCache k) ∧
    (∀ (i : Nat) (before : Int → Nat), i < 256 →
      (DSGXSoftwareRendererDrawScanline
        ⟨scenarioRenderer.activeEdges, scenarioRenderer.activeSpans, before⟩ 15 zeroJunk).scanlineCache (256 * (15 % 48) + i) =
      (DSGXSoftwareRendererDrawScanline scenarioRenderer 15 zeroJunk).scanlineCache
        (256 * (15 % 48) + i)) :=
  drawScanline_cache_frame scenarioRenderer 15 zeroJunk (by decide)

/-- Edges that an earlier draw at `ya` retires are retired by the draw at `yb`
as well, so the draw at `yb` assembles the same spans from either table. -/
theorem sweepEdges_after_sweep (ya yb : Int) (es : List DSGXSoftwareEdge)
    (h : ∀ e ∈ es, shr12 e.y1 < ya → shr12 e.y1 < yb) :
    (sweepEdges yb (sweepEdges ya es).edges).spans = (sweepEdges yb es).spans := by
  rw [sweepEdges_edges]
  have hf : es.filter (fun e => decide (¬ shr12 e.y1 < ya)) =
      es.filter (fun e => decide (¬ (shr12 e.y1 < ya ∧ shr12 e.y1 < yb))) := by
    apply List.filter_congr
    intro e he
    have := h e he
    by_cases h1 : shr12 e.y1 < ya
    · simp [h1, this h1]
    · simp [h1]
  rw [hf]
  exact (sweepEdges_filter yb _ (fun e he => by
    simp only [decide_eq_false_iff_not, not_not] at he
    exact he.2) es).1

/-- C19. For every submitted geometry and scanlines `ya ≤ yb`, every edge that
`drawScanline(ya)` removes has `(y1 >> 12) < ya ≤ yb`, so `drawScanline(yb)`
would remove it as well, and the row that `drawScanline(yb)` produces after
`drawScanline(ya)` equals the row it produces on the freshly built table. -/
theorem drawScanline_ascending (r : DSGXSoftwareRenderer) (verts : List DSGXVertex)
    (polys : List DSGXPolygon) (ya yb : Int) (junkA junkB : Nat → DSGXSoftwareEndpoint)
    (hab : ya ≤ yb) :
    (∀ e ∈ (DSGXSoftwareRendererSetRAM r verts polys).activeEdges,
      e ∉ (DSGXSoftwareRendererDrawScanline (DSGXSoftwareRendererSetRAM r verts polys) ya
        junkA).activeEdges → shr12 e.y1 < ya ∧ shr12 e.y1 < yb) ∧
    ∀ i : Nat, i < 256 →
      scanlineRow (DSGXSoftwareRendererDrawScanline (DSGXSoftwareRendererDrawScanline
        (DSGXSoftwareRendererSetRAM r verts polys) ya junkA) yb junkB) yb i =
      scanlineRow (DSGXSoftwareRendererDrawScanline
        (DSGXSoftwareRendererSetRAM r verts polys) yb junkB) yb i := by
  refine ⟨?_, ?_⟩
  · intro e he hne
    rw [drawScanline_edges, sweepEdges_edges, List.mem_filter] at hne
    have h1 : shr12 e.y1 < ya := by
      by_contra hc
      exact hne ⟨he, by simpa using hc⟩
    exact ⟨h1, by omega⟩
  · intro i hi
    unfold scanlineRow DSGXSoftwareRendererGetScanline
    apply drawScanline_cache_row _ _ yb junkB _ i hi
    rw [drawScanline_edges]
    exact sweepEdges_after_sweep ya yb _ (fun e _ h1 => by omega)

/-- Witness of C19: the scenario quad drawn at row 12 and then at row 15. -/
theorem drawScanline_ascending_witness :
    (∀ e ∈ (DSGXSoftwareRendererSetRAM emptyRenderer scenarioVerts
        [⟨4, [0, 1, 2, 3]⟩]).activeEdges,
      e ∉ (DSGXSoftwareRendererDrawScanline (DSGXSoftwareRendererSetRAM emptyRenderer
        scenarioVerts [⟨4, [0, 1, 2, 3]⟩]) 12 zeroJunk).activeEdges →
        shr12 e.y1 < 12 ∧ shr12 e.y1 < 15) ∧
    ∀ i : Nat, i < 256 →
      scanlineRow (DSGXSoftwareRendererDrawScanline (DSGXSoftwareRendererDrawScanline
        (DSGXSoftwareRendererSetRAM emptyRenderer scenarioVerts [⟨4, [0, 1, 2, 3]⟩]) 12
          zeroJunk) 15 zeroJunk) 15 i =
      scanlineRow (DSGXSoftwareRendererDrawScanline
        (DSGXSoftwareRendererSetRAM emptyRenderer scenarioVerts [⟨4, [0, 1, 2, 3]⟩]) 15
          zeroJunk) 15 i :=
  drawScanline_ascending emptyRenderer scenarioVerts [⟨4, [0, 1, 2, 3]⟩] 12 15 zeroJunk zeroJunk
    (by decide)

/-! ## Sampling an edge: clamped linear interpolation -/

theorem clampTo_range (v hi : Int) (h : 0 ≤ hi) :
    0 ≤ clampTo v hi ∧ clampTo v hi ≤ hi ∧ (v ≤ 0 → clampTo v hi = 0) ∧
    (hi ≤ v → clampTo v hi = hi) := by
  unfold clampTo
  split_ifs <;> refine ⟨?_, ?_, ?_, ?_⟩ <;> omega

/-- The truncated quotient `d * t / h` for `0 ≤ t ≤ h` lies between 0 and `d`,
is 0 at `t = 0` and `d` at `t = h`. -/
theorem tdiv_between (d t h : Int) (h0 : 0 ≤ t) (h1 : t ≤ h) (hh : 0 < h) :
    min 0 d ≤ (d * t).tdiv h ∧ (d * t).tdiv h ≤ max 0 d ∧
    (t = 0 → (d * t).tdiv h = 0) ∧ (t = h → (d * t).tdiv h = d) := by
  have key : ∀ e : Int, 0 ≤ e → 0 ≤ (e * t).tdiv h ∧ (e * t).tdiv h ≤ e := by
    intro e he
    have hp : 0 ≤ e * t := Int.mul_nonneg he h0
    rw [Int.tdiv_eq_ediv hp hh.le]
    exact ⟨Int.ediv_nonneg hp hh.le,
      Int.ediv_le_of_le_mul hh (Int.mul_le_mul_of_nonneg_left h1 he)⟩
  refine ⟨?_, ?_, ?_, ?_⟩
  · rcases le_or_lt 0 d with hd | hd
    · have := (key d hd).1
      omega
    · have hk := key (-d) (by omega)
      rw [Int.neg_mul, Int.neg_tdiv] at hk
      omega
  · rcases le_or_lt 0 d with hd | hd
    · have := (key d hd).2
      omega
    · have hk := key (-d) (by omega)
      rw [Int.neg_mul, Int.neg_tdiv] at hk
      omega
  · intro ht
    rw [ht, Int.mul_zero, Int.zero_tdiv]
  · intro ht
    rw [ht]
    exact Int.mul_tdiv_cancel d (by omega)

/-- The x and w of the sample of a non-flat edge, as `_edgeToSpan` computes
them. -/
theorem edgeSample_x_w (e : DSGXSoftwareEdge) (y : Int) (h : ¬ flatEdge e) :
    (edgeSample e y).x = wrap32 ((wrap32 (e.x1 - e.x0) *
      clampTo (wrap32 (wrap32 (y * 4096) - e.y0)) (wrap32 (e.y1 - e.y0))).tdiv
        (wrap32 (e.y1 - e.y0)) + e.x0) ∧
    (edgeSample e y).w = wrap32 ((wrap32 (e.w1 - e.w0) *
      clampTo (wrap32 (wrap32 (y * 4096) - e.y0)) (wrap32 (e.y1 - e.y0))).tdiv
        (wrap32 (e.y1 - e.y0)) + e.w0) := by
  unfold flatEdge at h
  unfold edgeSample _edgeToSpan
  simp only [h, if_false]
  simp [DSGXSoftwareSpan.setEp, DSGXSoftwareSpan.ep]

set_option maxRecDepth 100000 in
/-- C17, counterexample. The edge from row 0 to row 2 with `x0 = -2^30` and
`x1 = 2^30` is sampled at row 1 with `x = -2^31`, which is not between `x0`
and `x1`: the 32-bit difference `x1 - x0` wraps. -/
theorem edgeToSpan_x_outside :
    wideEdge.y0 < wideEdge.y1 ∧
    (_edgeToSpan zeroSpan wideEdge 0 1).2.ep0.x = -2147483648 ∧
    ¬ (min wideEdge.x0 wideEdge.x1 ≤ (_edgeToSpan zeroSpan wideEdge 0 1).2.ep0.x ∧
      (_edgeToSpan zeroSpan wideEdge 0 1).2.ep0.x ≤ max wideEdge.x0 wideEdge.x1) := by
  decide

/-- C17 (as amended). For every edge with `y0 < y1` whose `x` and `w` fields
are 32-bit values and whose differences `y1 - y0`, `x1 - x0`, `w1 - w0` and
`(y << 12) - y0` fit in 32 bits, and every scanline `y` in [0, 192), the x and
w that `_edgeToSpan` writes equal `(x0, w0)` when `(y << 12) ≤ y0`, equal
`(x1, w1)` when `(y << 12) ≥ y1`, and always lie between the two endpoint
values inclusive; hence w is non-zero when `w0` and `w1` are both positive. -/
theorem edgeToSpan_clamped_linear (e : DSGXSoftwareEdge) (y : Int)
    (hy0 : 0 ≤ y) (hy1 : y < 192) (hlt : e.y0 < e.y1)
    (tx0 : isInt32 e.x0) (tx1 : isInt32 e.x1) (tw0 : isInt32 e.w0) (tw1 : isInt32 e.w1)
    (dy : isInt32 (e.y1 - e.y0)) (dyw : isInt32 (y * 4096 - e.y0))
    (dx : isInt32 (e.x1 - e.x0)) (dw : isInt32 (e.w1 - e.w0)) :
    (_edgeToSpan zeroSpan e 0 y).1 = true ∧
    (y * 4096 ≤ e.y0 → (edgeSample e y).x = e.x0 ∧ (edgeSample e y).w = e.w0) ∧
    (y * 4096 ≥ e.y1 → (edgeSample e y).x = e.x1 ∧ (edgeSample e y).w = e.w1) ∧
    (min e.x0 e.x1 ≤ (edgeSample e y).x ∧ (edgeSample e y).x ≤ max e.x0 e.x1) ∧
    (min e.w0 e.w1 ≤ (edgeSample e y).w ∧ (edgeSample e y).w ≤ max e.w0 e.w1) ∧
    (0 < e.w0 → 0 < e.w1 → (edgeSample e y).w ≠ 0) := by
  unfold isInt32 at tx0 tx1 tw0 tw1 dy dyw dx dw
  have eh : wrap32 (e.y1 - e.y0) = e.y1 - e.y0 := wrap32_eq_self dy.1 dy.2
  have ey : wrap32 (y * 4096) = y * 4096 := wrap32_eq_self (by omega) (by omega)
  have eyw : wrap32 (y * 4096 - e.y0) = y * 4096 - e.y0 := wrap32_eq_self dyw.1 dyw.2
  have ex : wrap32 (e.x1 - e.x0) = e.x1 - e.x0 := wrap32_eq_self dx.1 dx.2
  have ew : wrap32 (e.w1 - e.w0) = e.w1 - e.w0 := wrap32_eq_self dw.1 dw.2
  have hflat : ¬ flatEdge e := by
    unfold flatEdge
    rw [eh]
    omega
  obtain ⟨sx, sw⟩ := edgeSample_x_w e y hflat
  rw [eh, ey, eyw, ex] at sx
  rw [eh, ey, eyw, ew] at sw
  obtain ⟨c0, c1, c2, c3⟩ := clampTo_range (y * 4096 - e.y0) (e.y1 - e.y0) (by omega)
  obtain ⟨bx0, bx1, bx2, bx3⟩ := tdiv_between (e.x1 - e.x0)
    (clampTo (y * 4096 - e.y0) (e.y1 - e.y0)) (e.y1 - e.y0) c0 c1 (by omega)
  obtain ⟨bw0, bw1, bw2, bw3⟩ := tdiv_between (e.w1 - e.w0)
    (clampTo (y * 4096 - e.y0) (e.y1 - e.y0)) (e.y1 - e.y0) c0 c1 (by omega)
  rw [wrap32_eq_self (by omega) (by omega)] at sx sw
  refine ⟨?_, ?_, ?_, ?_, ?_, ?_⟩
  · rw [edgeToSpan_open e y hflat]
  · intro hle
    have h0 := c2 (by omega)
    rw [sx, sw, bx2 h0, bw2 h0]
    omega
  · intro hge
    have h1 := c3 (by omega)
    rw [sx, sw, bx3 h1, bw3 h1]
    omega
  · rw [sx]; omega
  · rw [sw]; omega
  · intro p0 p1
    rw [sw]
    omega

/-- Witness of C17: the right-hand edge of the scenario quad at row 15. -/
theorem edgeToSpan_clamped_linear_witness :
    (_edgeToSpan zeroSpan scenarioRightEdge 0 15).1 = true ∧
    (15 * 4096 ≤ scenarioRightEdge.y0 → (edgeSample scenarioRightEdge 15).x =
      scenarioRightEdge.x0 ∧ (edgeSample scenarioRightEdge 15).w = scenarioRightEdge.w0) ∧
    (15 * 4096 ≥ scenarioRightEdge.y1 → (edgeSample scenarioRightEdge 15).x =
      scenarioRightEdge.x1 ∧ (edgeSample scenarioRightEdge 15).w = scenarioRightEdge.w1) ∧
    (min scenarioRightEdge.x0 scenarioRightEdge.x1 ≤ (edgeSample scenarioRightEdge 15).x ∧
      (edgeSample scenarioRightEdge 15).x ≤ max scenarioRightEdge.x0 scenarioRightEdge.x1) ∧
    (min scenarioRightEdge.w0 scenarioRightEdge.w1 ≤ (edgeSample scenarioRightEdge 15).w ∧
      (edgeSample scenarioRightEdge 15).w ≤ max scenarioRightEdge.w0 scenarioRightEdge.w1) ∧
    (0 < scenarioRightEdge.w0 → 0 < scenarioRightEdge.w1 →
      (edgeSample scenarioRightEdge 15).w ≠ 0) :=
  edgeToSpan_clamped_linear scenarioRightEdge 15 (by decide) (by decide) (by decide) (by decide)
    (by decide) (by decide) (by decide) (by decide) (by decide) (by decide) (by decide)

/-! ## Sampling a span between ends of equal depth -/

theorem ediv_mul_ediv (n w D : Int) (hn : 0 ≤ n) (hw : 0 < w) (hD : 0 < D) :
    n * w / D / w = n / D := by
  lift n to ℕ using hn
  lift w to ℕ using hw.le
  lift D to ℕ using hD.le
  have hw' : 0 < w := by exact_mod_cast hw
  norm_cast
  rw [Nat.div_div_eq_div_mul, Nat.mul_div_mul_right _ _ hw']

/-- The weighted numerator of `_lerpEndpoint` for a rising attribute between
ends of equal depth `w`, divided by `w`, is the plain interpolation. -/
theorem lerpNum_rising (a0 a1 w xw width limit : Int) (hw : 0 < w) (hw2 : w ≤ 2147483647)
    (hx0 : 0 ≤ xw) (hx1 : xw ≤ width) (hwd : 0 < width) (hl : limit ≤ 32767)
    (hr : risingAttr a0 a1 w width limit) :
    0 ≤ lerpNum a0 a1 w w xw width ∧ lerpNum a0 a1 w w xw width ≤ a1 * w ∧
    lerpNum a0 a1 w w xw width / w = plainLerp a0 a1 xw width ∧
    a0 ≤ plainLerp a0 a1 xw width ∧ plainLerp a0 a1 xw width ≤ a1 := by
  obtain ⟨r0, r1, r2, r3⟩ := hr
  have hd : 0 ≤ a1 - a0 := by omega
  have hdx : 0 ≤ (a1 - a0) * xw := Int.mul_nonneg hd hx0
  have hdw : 0 ≤ (a1 - a0) * w := Int.mul_nonneg hd hw.le
  have eN : (a1 * w - a0 * w) * xw = (a1 - a0) * xw * w := by ring
  have hN0 : 0 ≤ (a1 - a0) * xw * w := Int.mul_nonneg hdx hw.le
  have hNle : (a1 - a0) * xw * w ≤ (a1 - a0) * w * width := by
    have : (a1 - a0) * xw * w = (a1 - a0) * w * xw := by ring
    rw [this]
    exact Int.mul_le_mul_of_nonneg_left hx1 hdw
  have hQ0 : 0 ≤ (a1 - a0) * xw * w / width := Int.ediv_nonneg hN0 hwd.le
  have hQle : (a1 - a0) * xw * w / width ≤ (a1 - a0) * w :=
    Int.ediv_le_of_le_mul hwd hNle
  have ha0w : 0 ≤ a0 * w := Int.mul_nonneg r0 hw.le
  have ha1w : a1 * w ≤ 32767 * 2147483647 := by
    calc a1 * w ≤ 32767 * w := Int.mul_le_mul_of_nonneg_right (by omega) hw.le
      _ ≤ 32767 * 2147483647 := Int.mul_le_mul_of_nonneg_left hw2 (by decide)
  have hsum : (a1 - a0) * w + a0 * w = a1 * w := by ring
  have hP : plainLerp a0 a1 xw width = (a1 - a0) * xw / width + a0 := by
    unfold plainLerp
    rw [Int.tdiv_eq_ediv hdx hwd.le]
  have hPle : (a1 - a0) * xw / width ≤ a1 - a0 :=
    Int.ediv_le_of_le_mul hwd (Int.mul_le_mul_of_nonneg_left hx1 hd)
  have hP0 : 0 ≤ (a1 - a0) * xw / width := Int.ediv_nonneg hdx hwd.le
  have hL : lerpNum a0 a1 w w xw width = (a1 - a0) * xw * w / width + a0 * w := by
    unfold lerpNum
    have i1 : wrap64 ((a1 - a0) * xw * w) = (a1 - a0) * xw * w :=
      wrap64_eq_self (by omega) (by omega)
    rw [eN, i1, Int.tdiv_eq_ediv hN0 hwd.le]
    exact wrap64_eq_self (by omega) (by omega)
  refine ⟨by rw [hL]; omega, by rw [hL]; omega, ?_, by rw [hP]; omega, by rw [hP]; omega⟩
  rw [hL, hP, Int.add_mul_ediv_right _ _ (by omega), ediv_mul_ediv _ _ _ hdx hw hwd]

theorem wrap16_eq_self {x : Int} (h1 : -32768 ≤ x) (h2 : x ≤ 32767) : wrap16 x = x := by
  unfold wrap16 wrapS
  norm_num
  omega

/-- The fields that `_lerpEndpoint` writes for a span of non-zero width. -/
theorem lerpEndpoint_fields (sp : DSGXSoftwareSpan) (ep : DSGXSoftwareEndpoint) (x : Nat)
    (h : wrap32 (sp.ep1.x - sp.ep0.x) ≠ 0) :
    (_lerpEndpoint sp ep x).w = wrap32 ((wrap32 (sp.ep1.w - sp.ep0.w) *
      clampTo (wrap64 ((x : Int) * 4096 - sp.ep0.x)) (wrap32 (sp.ep1.x - sp.ep0.x))).tdiv
        (wrap32 (sp.ep1.x - sp.ep0.x)) + sp.ep0.w) ∧
    (_lerpEndpoint sp ep x).cr = lerpColor sp.ep0.cr sp.ep1.cr sp.ep0.w sp.ep1.w
      (clampTo (wrap64 ((x : Int) * 4096 - sp.ep0.x)) (wrap32 (sp.ep1.x - sp.ep0.x)))
      (wrap32 (sp.ep1.x - sp.ep0.x)) (_lerpEndpoint sp ep x).w ∧
    (_lerpEndpoint sp ep x).cg = lerpColor sp.ep0.cg sp.ep1.cg sp.ep0.w sp.ep1.w
      (clampTo (wrap64 ((x : Int) * 4096 - sp.ep0.x)) (wrap32 (sp.ep1.x - sp.ep0.x)))
      (wrap32 (sp.ep1.x - sp.ep0.x)) (_lerpEndpoint sp ep x).w ∧
    (_lerpEndpoint sp ep x).cb = lerpColor sp.ep0.cb sp.ep1.cb sp.ep0.w sp.ep1.w
      (clampTo (wrap64 ((x : Int) * 4096 - sp.ep0.x)) (wrap32 (sp.ep1.x - sp.ep0.x)))
      (wrap32 (sp.ep1.x - sp.ep0.x)) (_lerpEndpoint sp ep x).w ∧
    (_lerpEndpoint sp ep x).s = lerpTex sp.ep0.s sp.ep1.s sp.ep0.w sp.ep1.w
      (clampTo (wrap64 ((x : Int) * 4096 - sp.ep0.x)) (wrap32 (sp.ep1.x - sp.ep0.x)))
      (wrap32 (sp.ep1.x - sp.ep0.x)) (_lerpEndpoint sp ep x).w ∧
    (_lerpEndpoint sp ep x).t = lerpTex sp.ep0.t sp.ep1.t sp.ep0.w sp.ep1.w
      (clampTo (wrap64 ((x : Int) * 4096 - sp.ep0.x)) (wrap32 (sp.ep1.x - sp.ep0.x)))
      (wrap32 (sp.ep1.x - sp.ep0.x)) (_lerpEndpoint sp ep x).w := by
  unfold _lerpEndpoint
  simp only [h, if_false, and_self]

/-- The width and the clamped offset of `_lerpEndpoint` when nothing wraps. -/
theorem lerp_width_xw (sp : DSGXSoftwareSpan) (x : Nat) (hx : x < 4294967296)
    (tx0 : isInt32 sp.ep0.x) (hlt : sp.ep0.x < sp.ep1.x) (dxw : isInt32 (sp.ep1.x - sp.ep0.x)) :
    wrap32 (sp.ep1.x - sp.ep0.x) = sp.ep1.x - sp.ep0.x ∧
    wrap64 ((x : Int) * 4096 - sp.ep0.x) = (x : Int) * 4096 - sp.ep0.x ∧
    0 ≤ clampTo ((x : Int) * 4096 - sp.ep0.x) (sp.ep1.x - sp.ep0.x) ∧
    clampTo ((x : Int) * 4096 - sp.ep0.x) (sp.ep1.x - sp.ep0.x) ≤ sp.ep1.x - sp.ep0.x := by
  unfold isInt32 at tx0 dxw
  obtain ⟨c0, c1, _, _⟩ := clampTo_range ((x : Int) * 4096 - sp.ep0.x) (sp.ep1.x - sp.ep0.x)
    (by omega)
  exact ⟨wrap32_eq_self dxw.1 dxw.2, wrap64_eq_self (by omega) (by omega), c0, c1⟩

theorem lerpColor_rising (a0 a1 : Nat) (w xw width : Int) (hw : 0 < w) (hw2 : w ≤ 2147483647)
    (hx0 : 0 ≤ xw) (hx1 : xw ≤ width) (hwd : 0 < width)
    (hr : risingAttr a0 a1 w width 255) :
    (lerpColor a0 a1 w w xw width w : Int) = plainLerp a0 a1 xw width := by
  obtain ⟨l0, l1, l2, l3, l4⟩ := lerpNum_rising a0 a1 w xw width 255 hw hw2 hx0 hx1 hwd
    (by decide) hr
  have ha1 : (a1 : Int) ≤ 255 := hr.2.2.1
  have ha1w : (a1 : Int) * w ≤ 255 * 2147483647 := by
    calc (a1 : Int) * w ≤ 255 * w := Int.mul_le_mul_of_nonneg_right ha1 hw.le
      _ ≤ 255 * 2147483647 := Int.mul_le_mul_of_nonneg_left hw2 (by decide)
  unfold lerpColor
  rw [toU64_eq_self l0 (by omega), toU64_eq_self hw.le (by omega)]
  have hdiv : ((((lerpNum a0 a1 w w xw width).toNat / w.toNat : Nat)) : Int) =
      lerpNum a0 a1 w w xw width / w := by
    rw [Int.ofNat_ediv, Int.toNat_of_nonneg l0, Int.toNat_of_nonneg hw.le]
  have hlt : (lerpNum a0 a1 w w xw width).toNat / w.toNat < 256 := by
    have : ((((lerpNum a0 a1 w w xw width).toNat / w.toNat : Nat)) : Int) < 256 := by
      rw [hdiv, l2]; omega
    exact_mod_cast this
  rw [Nat.mod_eq_of_lt hlt, hdiv, l2]

theorem lerpTex_rising (a0 a1 w xw width : Int) (hw : 0 < w) (hw2 : w ≤ 2147483647)
    (hx0 : 0 ≤ xw) (hx1 : xw ≤ width) (hwd : 0 < width)
    (hr : risingAttr a0 a1 w width 32767) (h32 : a1 * w ≤ 2147483647) :
    lerpTex a0 a1 w w xw width w = plainLerp a0 a1 xw width := by
  obtain ⟨l0, l1, l2, l3, l4⟩ := lerpNum_rising a0 a1 w xw width 32767 hw hw2 hx0 hx1 hwd
    (by decide) hr
  have ha1 : a1 ≤ 32767 := hr.2.2.1
  have ha0 : 0 ≤ a0 := hr.1
  unfold lerpTex
  rw [wrap32_eq_self (by omega) (by omega), Int.tdiv_eq_ediv l0 hw.le, l2]
  exact wrap16_eq_self (by omega) (by omega)

/-- C12 (as amended). For every span with `ep[0].x < ep[1].x` (32-bit values
whose difference fits in 32 bits) whose two endpoints have the same positive
depth term `w`, and every column `x`, each attribute that `_lerpEndpoint`
computes (cr, cg, cb, s, t) equals the plain linear interpolation
`(a1 - a0) * xw / width + a0` of the endpoint attributes, with `xw` the offset
`(x << 12) - ep[0].x` clamped to [0, width], provided the attribute is
non-negative and does not decrease from `ep[0]` to `ep[1]` and its weighted
values fit the arithmetic (`risingAttr`, and `a1 * w` within 32 bits for s and
t). -/
theorem lerpEndpoint_equal_depth (sp : DSGXSoftwareSpan) (ep : DSGXSoftwareEndpoint) (x : Nat)
    (w : Int) (hx : x < 4294967296) (tx0 : isInt32 sp.ep0.x) (hlt : sp.ep0.x < sp.ep1.x)
    (dxw : isInt32 (sp.ep1.x - sp.ep0.x))
    (hw0 : sp.ep0.w = w) (hw1 : sp.ep1.w = w) (hw : 0 < w) (hw2 : w ≤ 2147483647) :
    (risingAttr sp.ep0.cr sp.ep1.cr w (sp.ep1.x - sp.ep0.x) 255 →
      ((_lerpEndpoint sp ep x).cr : Int) = plainLerp sp.ep0.cr sp.ep1.cr
        (clampTo ((x : Int) * 4096 - sp.ep0.x) (sp.ep1.x - sp.ep0.x)) (sp.ep1.x - sp.ep0.x)) ∧
    (risingAttr sp.ep0.cg sp.ep1.cg w (sp.ep1.x - sp.ep0.x) 255 →
      ((_lerpEndpoint sp ep x).cg : Int) = plainLerp sp.ep0.cg sp.ep1.cg
        (clampTo ((x : Int) * 4096 - sp.ep0.x) (sp.ep1.x - sp.ep0.x)) (sp.ep1.x - sp.ep0.x)) ∧
    (risingAttr sp.ep0.cb sp.ep1.cb w (sp.ep1.x - sp.ep0.x) 255 →
      ((_lerpEndpoint sp ep x).cb : Int) = plainLerp sp.ep0.cb sp.ep1.cb
        (clampTo ((x : Int) * 4096 - sp.ep0.x) (sp.ep1.x - sp.ep0.x)) (sp.ep1.x - sp.ep0.x)) ∧
    (risingAttr sp.ep0.s sp.ep1.s w (sp.ep1.x - sp.ep0.x) 32767 →
      sp.ep1.s * w ≤ 2147483647 →
      (_lerpEndpoint sp ep x).s = plainLerp sp.ep0.s sp.ep1.s
        (clampTo ((x : Int) * 4096 - sp.ep0.x) (sp.ep1.x - sp.ep0.x)) (sp.ep1.x - sp.ep0.x)) ∧
    (risingAttr sp.ep0.t sp.ep1.t w (sp.ep1.x - sp.ep0.x) 32767 →
      sp.ep1.t * w ≤ 2147483647 →
      (_lerpEndpoint sp ep x).t = plainLerp sp.ep0.t sp.ep1.t
        (clampTo ((x : Int) * 4096 - sp.ep0.x) (sp.ep1.x - sp.ep0.x)) (sp.ep1.x - sp.ep0.x)) := by
  obtain ⟨ewd, exw, c0, c1⟩ := lerp_width_xw sp x hx tx0 hlt dxw
  have hwd : 0 < sp.ep1.x - sp.ep0.x := by omega
  have hne : wrap32 (sp.ep1.x - sp.ep0.x) ≠ 0 := by rw [ewd]; omega
  obtain ⟨fw, fr, fg, fb, fs, ft⟩ := lerpEndpoint_fields sp ep x hne
  have hW : (_lerpEndpoint sp ep x).w = w := by
    rw [fw, hw0, hw1, sub_self, wrap32_zero, zero_mul, Int.zero_tdiv, zero_add]
    exact wrap32_eq_self (by omega) (by omega)
  rw [hW, ewd, exw, hw0, hw1] at fr fg fb fs ft
  refine ⟨?_, ?_, ?_, ?_, ?_⟩
  · intro hr
    rw [fr]
    exact lerpColor_rising _ _ w _ _ hw hw2 c0 c1 hwd hr
  · intro hr
    rw [fg]
    exact lerpColor_rising _ _ w _ _ hw hw2 c0 c1 hwd hr
  · intro hr
    rw [fb]
    exact lerpColor_rising _ _ w _ _ hw hw2 c0 c1 hwd hr
  · intro hr h32
    rw [fs]
    exact lerpTex_rising _ _ w _ _ hw hw2 c0 c1 hwd hr h32
  · intro hr h32
    rw [ft]
    exact lerpTex_rising _ _ w _ _ hw hw2 c0 c1 hwd hr h32

/-- C12, counterexample. On the span of three pixels whose red channel falls
from 63 to 1 with depth term 4096 at both ends, `_lerpEndpoint` gives red 42 at
column 1, while the plain interpolation `(1 - 63) * 4096 / 12288 + 63` is 43:
the two truncating divisions round a falling attribute one step further. -/
theorem lerpEndpoint_falling_channel :
    fallingSpan.ep0.x < fallingSpan.ep1.x ∧ fallingSpan.ep0.w = fallingSpan.ep1.w ∧
    (_lerpEndpoint fallingSpan zeroEndpoint 1).cr = 42 ∧
    plainLerp fallingSpan.ep0.cr fallingSpan.ep1.cr
      (clampTo ((1 : Nat) * 4096 - fallingSpan.ep0.x) (fallingSpan.ep1.x - fallingSpan.ep0.x))
      (fallingSpan.ep1.x - fallingSpan.ep0.x) = 43 ∧
    ((_lerpEndpoint fallingSpan zeroEndpoint 1).cr : Int) ≠
      plainLerp fallingSpan.ep0.cr fallingSpan.ep1.cr
        (clampTo ((1 : Nat) * 4096 - fallingSpan.ep0.x) (fallingSpan.ep1.x - fallingSpan.ep0.x))
        (fallingSpan.ep1.x - fallingSpan.ep0.x) := by
  decide

/-- Witness of C12: the red channel and `s` of the rising span at column 1. -/
theorem lerpEndpoint_equal_depth_witness :
    ((_lerpEndpoint risingSpan zeroEndpoint 1).cr : Int) =
      plainLerp risingSpan.ep0.cr risingSpan.ep1.cr
        (clampTo (((1 : Nat) : Int) * 4096 - risingSpan.ep0.x)
          (risingSpan.ep1.x - risingSpan.ep0.x)) (risingSpan.ep1.x - risingSpan.ep0.x) ∧
    (_lerpEndpoint risingSpan zeroEndpoint 1).s =
      plainLerp risingSpan.ep0.s risingSpan.ep1.s
        (clampTo (((1 : Nat) : Int) * 4096 - risingSpan.ep0.x)
          (risingSpan.ep1.x - risingSpan.ep0.x)) (risingSpan.ep1.x - risingSpan.ep0.x) :=
  ⟨(lerpEndpoint_equal_depth risingSpan zeroEndpoint 1 4096 (by decide) (by decide) (by decide)
      (by decide) rfl rfl (by decide) (by decide)).1 (by decide),
    (lerpEndpoint_equal_depth risingSpan zeroEndpoint 1 4096 (by decide) (by decide) (by decide)
      (by decide) rfl rfl (by decide) (by decide)).2.2.2.1 (by decide) (by decide)⟩

/-! ## Rounding of a uniform odd channel -/

/-- Scaling the dividend by `c ≥ 1` moves the quotient to between `c` times the
quotient and `c - 1` more. -/
theorem mul_ediv_bounds (c n h : Int) (hc : 1 ≤ c) (hh : 0 < h) :
    c * (n / h) ≤ c * n / h ∧ c * n / h ≤ c * (n / h) + (c - 1) := by
  have hr0 : 0 ≤ n % h := Int.emod_nonneg n (by omega)
  have hr1 : n % h < h := Int.emod_lt_of_pos n hh
  have hsplit : c * n = c * (n % h) + c * (n / h) * h := by
    have := Int.emod_add_ediv n h
    calc c * n = c * (n % h + h * (n / h)) := by rw [this]
      _ = c * (n % h) + c * (n / h) * h := by ring
  have hq : c * n / h = c * (n % h) / h + c * (n / h) := by
    rw [hsplit, Int.add_mul_ediv_right _ _ (by omega)]
  have h0 : 0 ≤ c * (n % h) / h := Int.ediv_nonneg (Int.mul_nonneg (by omega) hr0) hh.le
  have h1 : c * (n % h) / h < c :=
    Int.ediv_lt_of_lt_mul hh (Int.mul_lt_mul_of_pos_left hr1 (by omega))
  omega

/-- The quotient by `W` of a value within `c - 1` of `c * W`, for `c ≤ W`. -/
theorem ediv_near_multiple (L W c : Int) (hc : 1 ≤ c) (hW : c ≤ W)
    (h0 : c * W - (c - 1) ≤ L) (h1 : L ≤ c * W + (c - 1)) :
    L / W = c ∨ L / W = c - 1 := by
  have hWpos : 0 < W := by omega
  rcases le_or_lt (c * W) L with h | h
  · left
    have a1 : c ≤ L / W := Int.le_ediv_of_mul_le hWpos h
    have a2 : L / W < c + 1 := Int.ediv_lt_of_lt_mul hWpos (by
      have : (c + 1) * W = c * W + W := by ring
      omega)
    omega
  · right
    have a1 : c - 1 ≤ L / W := Int.le_ediv_of_mul_le hWpos (by
      have : (c - 1) * W = c * W - W := by ring
      omega)
    have a2 : L / W < c := Int.ediv_lt_of_lt_mul hWpos h
    omega

/-- A colour channel sampled between two ends that carry the same value
`c ≥ 1` and depth terms of at least 64 is `c` or `c - 1`. -/
theorem lerpColor_uniform (c : Nat) (w0 w1 xw width : Int) (hc1 : 1 ≤ c) (hc2 : c ≤ 63)
    (hw0 : 64 ≤ w0) (hw1 : 64 ≤ w1) (tw0 : w0 ≤ 2147483647) (tw1 : w1 ≤ 2147483647)
    (hx0 : 0 ≤ xw) (hx1 : xw ≤ width) (hwd : 0 < width)
    (ho1 : c * (w1 - w0) * width ≤ 9223372036854775807)
    (ho2 : c * (w0 - w1) * width ≤ 9223372036854775807) :
    lerpColor c c w0 w1 xw width
        (wrap32 ((wrap32 (w1 - w0) * xw).tdiv width + w0)) = c ∨
      lerpColor c c w0 w1 xw width
        (wrap32 ((wrap32 (w1 - w0) * xw).tdiv width + w0)) + 1 = c := by
  have hcI1 : (1 : Int) ≤ c := by exact_mod_cast hc1
  have hcI2 : (c : Int) ≤ 63 := by exact_mod_cast hc2
  have eD : wrap32 (w1 - w0) = w1 - w0 := wrap32_eq_self (by omega) (by omega)
  obtain ⟨b0, b1, _, _⟩ := tdiv_between (w1 - w0) xw width hx0 hx1 hwd
  have eW : wrap32 (((w1 - w0) * xw).tdiv width + w0) = ((w1 - w0) * xw).tdiv width + w0 :=
    wrap32_eq_self (by omega) (by omega)
  have hWlo : 64 ≤ ((w1 - w0) * xw).tdiv width + w0 := by omega
  have hWhi : ((w1 - w0) * xw).tdiv width + w0 ≤ 2147483647 := by omega
  -- the numerator stays within c - 1 of c * W
  have key : c * (((w1 - w0) * xw).tdiv width + w0) - (c - 1) ≤
      ((c * w1 - c * w0) * xw).tdiv width + c * w0 ∧
      ((c * w1 - c * w0) * xw).tdiv width + c * w0 ≤
        c * (((w1 - w0) * xw).tdiv width + w0) + (c - 1) ∧
      -9223372036854775808 ≤ (c * w1 - c * w0) * xw ∧
      (c * w1 - c * w0) * xw ≤ 9223372036854775807 := by
    rcases le_or_lt w0 w1 with hd | hd
    · have hn : 0 ≤ (w1 - w0) * xw := Int.mul_nonneg (by omega) hx0
      have e1 : (c * w1 - c * w0) * xw = c * ((w1 - w0) * xw) := by ring
      have hcn : 0 ≤ c * ((w1 - w0) * xw) := Int.mul_nonneg (by omega) hn
      have hle : c * ((w1 - w0) * xw) ≤ c * (w1 - w0) * width := by
        have : c * ((w1 - w0) * xw) = c * (w1 - w0) * xw := by ring
        rw [this]
        exact Int.mul_le_mul_of_nonneg_left hx1 (Int.mul_nonneg (by omega) (by omega))
      obtain ⟨m0, m1⟩ := mul_ediv_bounds c ((w1 - w0) * xw) width hcI1 hwd
      rw [e1, Int.tdiv_eq_ediv hcn hwd.le, Int.tdiv_eq_ediv hn hwd.le]
      have : c * ((w1 - w0) * xw / width + w0) = c * ((w1 - w0) * xw / width) + c * w0 := by
        ring
      refine ⟨by omega, by omega, by omega, by omega⟩
    · have hn : 0 ≤ (w0 - w1) * xw := Int.mul_nonneg (by omega) hx0
      have e1 : (c * w1 - c * w0) * xw = -(c * ((w0 - w1) * xw)) := by ring
      have e2 : (w1 - w0) * xw = -((w0 - w1) * xw) := by ring
      have hcn : 0 ≤ c * ((w0 - w1) * xw) := Int.mul_nonneg (by omega) hn
      have hle : c * ((w0 - w1) * xw) ≤ c * (w0 - w1) * width := by
        have : c * ((w0 - w1) * xw) = c * (w0 - w1) * xw := by ring
        rw [this]
        exact Int.mul_le_mul_of_nonneg_left hx1 (Int.mul_nonneg (by omega) (by omega))
      obtain ⟨m0, m1⟩ := mul_ediv_bounds c ((w0 - w1) * xw) width hcI1 hwd
      rw [e1, e2, Int.neg_tdiv, Int.neg_tdiv, Int.tdiv_eq_ediv hcn hwd.le,
        Int.tdiv_eq_ediv hn hwd.le]
      have : c * (-((w0 - w1) * xw / width) + w0) =
          -(c * ((w0 - w1) * xw / width)) + c * w0 := by ring
      refine ⟨by omega, by omega, by omega, by omega⟩
  obtain ⟨k0, k1, k2, k3⟩ := key
  rw [eD, eW]
  have hcW : (c : Int) * (((w1 - w0) * xw).tdiv width + w0) ≤ 63 * 2147483647 := by
    calc (c : Int) * (((w1 - w0) * xw).tdiv width + w0)
        ≤ 63 * (((w1 - w0) * xw).tdiv width + w0) :=
          Int.mul_le_mul_of_nonneg_right hcI2 (by omega)
      _ ≤ 63 * 2147483647 := Int.mul_le_mul_of_nonneg_left hWhi (by decide)
  have hcWlo : (c : Int) * 64 ≤ c * (((w1 - w0) * xw).tdiv width + w0) :=
    Int.mul_le_mul_of_nonneg_left hWlo (by omega)
  have hL : lerpNum c c w0 w1 xw width = ((c * w1 - c * w0) * xw).tdiv width + c * w0 := by
    unfold lerpNum
    have i1 : wrap64 ((c * w1 - c * w0) * xw) = (c * w1 - c * w0) * xw :=
      wrap64_eq_self k2 k3
    rw [i1]
    exact wrap64_eq_self (by omega) (by omega)
  have hL0 : 0 ≤ lerpNum c c w0 w1 xw width := by rw [hL]; omega
  unfold lerpColor
  rw [toU64_eq_self hL0 (by rw [hL]; omega), toU64_eq_self (by omega) (by omega)]
  have hdiv : ((((lerpNum c c w0 w1 xw width).toNat /
      (((w1 - w0) * xw).tdiv width + w0).toNat : Nat)) : Int) =
      lerpNum c c w0 w1 xw width / (((w1 - w0) * xw).tdiv width + w0) := by
    rw [Int.ofNat_ediv, Int.toNat_of_nonneg hL0, Int.toNat_of_nonneg (by omega)]
  have hcases := ediv_near_multiple (lerpNum c c w0 w1 xw width)
    (((w1 - w0) * xw).tdiv width + w0) c hcI1 (by omega) (by rw [hL]; exact k0)
    (by rw [hL]; exact k1)
  rw [← hdiv] at hcases
  rcases hcases with h | h
  · left
    have h' : (lerpNum c c w0 w1 xw width).toNat /
        (((w1 - w0) * xw).tdiv width + w0).toNat = c := by exact_mod_cast h
    rw [h']
    exact Nat.mod_eq_of_lt (by omega)
  · right
    have h' : (lerpNum c c w0 w1 xw width).toNat /
        (((w1 - w0) * xw).tdiv width + w0).toNat + 1 = c := by
      have : ((((lerpNum c c w0 w1 xw width).toNat /
        (((w1 - w0) * xw).tdiv width + w0).toNat : Nat)) : Int) + 1 = c := by omega
      exact_mod_cast this
    rw [Nat.mod_eq_of_lt (by omega)]
    exact h'

theorem scaled_bound (c : Nat) (d width : Int) (hc : c ≤ 63) (hwd : 0 < width)
    (h : 63 * d * width ≤ 9223372036854775807) :
    (c : Int) * d * width ≤ 9223372036854775807 := by
  have hcI : (c : Int) ≤ 63 := by exact_mod_cast hc
  rcases le_or_lt 0 d with hd | hd
  · have h1 : (c : Int) * (d * width) ≤ 63 * (d * width) :=
      Int.mul_le_mul_of_nonneg_right hcI (Int.mul_nonneg hd hwd.le)
    have e1 : (c : Int) * d * width = c * (d * width) := by ring
    have e2 : 63 * d * width = 63 * (d * width) := by ring
    omega
  · have h1 : (c : Int) * ((-d) * width) ≥ 0 :=
      Int.mul_nonneg (Int.ofNat_nonneg c) (Int.mul_nonneg (by omega) hwd.le)
    have e1 : (c : Int) * d * width = -(c * ((-d) * width)) := by ring
    omega

theorem finishColor_odd_lanes :
    ∀ c, c < 64 → c % 2 = 1 →
      (((c - 1) <<< 2) &&& 0xF8 = (c <<< 2) &&& 0xF8) ∧
      (((c - 1) <<< 10) &&& 0xF800 = (c <<< 10) &&& 0xF800) ∧
      (((c - 1) <<< 18) &&& 0xF80000 = (c <<< 18) &&& 0xF80000) := by
  decide

/-- C20 (as amended). For every span with `ep[0].x < ep[1].x` (32-bit values
whose difference fits in 32 bits) whose two endpoints carry the same odd
channel values in [1, 63] and depth terms `w0, w1 ≥ 64` with
`63 * |w1 - w0| * width` within 63 bits, and every column `x`, each channel
computed by `_lerpEndpoint` is `c` or `c - 1`, and `_finishColor` maps both to
the same output byte, so the pixel equals the one obtained with no rounding. -/
theorem lerpEndpoint_odd_channel (sp : DSGXSoftwareSpan) (ep : DSGXSoftwareEndpoint) (x : Nat)
    (c1 c2 c3 : Nat) (hx : x < 4294967296) (tx0 : isInt32 sp.ep0.x)
    (hlt : sp.ep0.x < sp.ep1.x) (dxw : isInt32 (sp.ep1.x - sp.ep0.x))
    (hw0 : 64 ≤ sp.ep0.w) (hw1 : 64 ≤ sp.ep1.w)
    (tw0 : sp.ep0.w ≤ 2147483647) (tw1 : sp.ep1.w ≤ 2147483647)
    (ho1 : 63 * (sp.ep1.w - sp.ep0.w) * (sp.ep1.x - sp.ep0.x) ≤ 9223372036854775807)
    (ho2 : 63 * (sp.ep0.w - sp.ep1.w) * (sp.ep1.x - sp.ep0.x) ≤ 9223372036854775807)
    (hr : sp.ep0.cr = c1 ∧ sp.ep1.cr = c1 ∧ c1 % 2 = 1 ∧ c1 ≤ 63)
    (hg : sp.ep0.cg = c2 ∧ sp.ep1.cg = c2 ∧ c2 % 2 = 1 ∧ c2 ≤ 63)
    (hb : sp.ep0.cb = c3 ∧ sp.ep1.cb = c3 ∧ c3 % 2 = 1 ∧ c3 ≤ 63) :
    ((_lerpEndpoint sp ep x).cr = c1 ∨ (_lerpEndpoint sp ep x).cr = c1 - 1) ∧
    ((_lerpEndpoint sp ep x).cg = c2 ∨ (_lerpEndpoint sp ep x).cg = c2 - 1) ∧
    ((_lerpEndpoint sp ep x).cb = c3 ∨ (_lerpEndpoint sp ep x).cb = c3 - 1) ∧
    ((_lerpEndpoint sp ep x).cr <<< 2) &&& 0xF8 = (c1 <<< 2) &&& 0xF8 ∧
    ((_lerpEndpoint sp ep x).cg <<< 10) &&& 0xF800 = (c2 <<< 10) &&& 0xF800 ∧
    ((_lerpEndpoint sp ep x).cb <<< 18) &&& 0xF80000 = (c3 <<< 18) &&& 0xF80000 ∧
    _finishColor (_lerpEndpoint sp ep x).cr (_lerpEndpoint sp ep x).cg
      (_lerpEndpoint sp ep x).cb = _finishColor c1 c2 c3 := by
  obtain ⟨ewd, exw, c0, cx1⟩ := lerp_width_xw sp x hx tx0 hlt dxw
  have hwd : 0 < sp.ep1.x - sp.ep0.x := by omega
  have hne : wrap32 (sp.ep1.x - sp.ep0.x) ≠ 0 := by rw [ewd]; omega
  obtain ⟨fw, fr, fg, fb, _, _⟩ := lerpEndpoint_fields sp ep x hne
  rw [fw, ewd, exw] at fr fg fb
  have chan : ∀ c : Nat, c % 2 = 1 → c ≤ 63 →
      lerpColor c c sp.ep0.w sp.ep1.w
          (clampTo ((x : Int) * 4096 - sp.ep0.x) (sp.ep1.x - sp.ep0.x)) (sp.ep1.x - sp.ep0.x)
          (wrap32 ((wrap32 (sp.ep1.w - sp.ep0.w) *
            clampTo ((x : Int) * 4096 - sp.ep0.x) (sp.ep1.x - sp.ep0.x)).tdiv
              (sp.ep1.x - sp.ep0.x) + sp.ep0.w)) = c ∨
        lerpColor c c sp.ep0.w sp.ep1.w
          (clampTo ((x : Int) * 4096 - sp.ep0.x) (sp.ep1.x - sp.ep0.x)) (sp.ep1.x - sp.ep0.x)
          (wrap32 ((wrap32 (sp.ep1.w - sp.ep0.w) *
            clampTo ((x : Int) * 4096 - sp.ep0.x) (sp.ep1.x - sp.ep0.x)).tdiv
              (sp.ep1.x - sp.ep0.x) + sp.ep0.w)) = c - 1 := by
    intro c hodd hc
    rcases lerpColor_uniform c sp.ep0.w sp.ep1.w _ _ (by omega) hc hw0 hw1 tw0 tw1 c0 cx1 hwd
      (scaled_bound c _ _ hc hwd ho1) (scaled_bound c _ _ hc hwd ho2) with h | h
    · exact Or.inl h
    · exact Or.inr (by omega)
  obtain ⟨r1, r2, r3, r4⟩ := hr
  obtain ⟨g1, g2, g3, g4⟩ := hg
  obtain ⟨b1, b2, b3, b4⟩ := hb
  rw [r1, r2] at fr
  rw [g1, g2] at fg
  rw [b1, b2] at fb
  have hR := chan c1 r3 r4
  have hG := chan c2 g3 g4
  have hB := chan c3 b3 b4
  rw [← fr] at hR
  rw [← fg] at hG
  rw [← fb] at hB
  obtain ⟨lr, _, _⟩ := finishColor_odd_lanes c1 (by omega) r3
  obtain ⟨_, lg, _⟩ := finishColor_odd_lanes c2 (by omega) g3
  obtain ⟨_, _, lb⟩ := finishColor_odd_lanes c3 (by omega) b3
  have eR : ((_lerpEndpoint sp ep x).cr <<< 2) &&& 0xF8 = (c1 <<< 2) &&& 0xF8 := by
    rcases hR with h | h <;> rw [h]
    exact lr
  have eG : ((_lerpEndpoint sp ep x).cg <<< 10) &&& 0xF800 = (c2 <<< 10) &&& 0xF800 := by
    rcases hG with h | h <;> rw [h]
    exact lg
  have eB : ((_lerpEndpoint sp ep x).cb <<< 18) &&& 0xF80000 = (c3 <<< 18) &&& 0xF80000 := by
    rcases hB with h | h <;> rw [h]
    exact lb
  refine ⟨hR, hG, hB, eR, eG, eB, ?_⟩
  unfold _finishColor
  rw [eR, eG, eB]

set_option maxRecDepth 100000 in
/-- C20, counterexample. On the span from column -262144 to column 262143
whose ends carry channel value 63 and the depth terms 64 and 2^31 - 1, the
red channel at column 255 is 128, neither 63 nor 62, and its output byte is 0
instead of 248: the product `(63 * w1 - 63 * w0) * xw` exceeds 64 bits. -/
theorem lerpEndpoint_channel_overflow :
    extremeSpan.ep0.x < extremeSpan.ep1.x ∧ 64 ≤ extremeSpan.ep0.w ∧ 64 ≤ extremeSpan.ep1.w ∧
    (_lerpEndpoint extremeSpan zeroEndpoint 255).cr = 128 ∧
    ¬ ((_lerpEndpoint extremeSpan zeroEndpoint 255).cr = 63 ∨
      (_lerpEndpoint extremeSpan zeroEndpoint 255).cr = 63 - 1) ∧
    ((_lerpEndpoint extremeSpan zeroEndpoint 255).cr <<< 2) &&& 0xF8 ≠ (63 <<< 2) &&& 0xF8 := by
  decide

/-- Witness of C20: the span over columns 0 to 255 with depth terms 8192 and
4096, sampled at column 100. -/
theorem lerpEndpoint_odd_channel_witness :
    ((_lerpEndpoint nearFarSpan zeroEndpoint 100).cr = 63 ∨
      (_lerpEndpoint nearFarSpan zeroEndpoint 100).cr = 63 - 1) ∧
    ((_lerpEndpoint nearFarSpan zeroEndpoint 100).cg = 63 ∨
      (_lerpEndpoint nearFarSpan zeroEndpoint 100).cg = 63 - 1) ∧
    ((_lerpEndpoint nearFarSpan zeroEndpoint 100).cb = 63 ∨
      (_lerpEndpoint nearFarSpan zeroEndpoint 100).cb = 63 - 1) ∧
    ((_lerpEndpoint nearFarSpan zeroEndpoint 100).cr <<< 2) &&& 0xF8 = (63 <<< 2) &&& 0xF8 ∧
    ((_lerpEndpoint nearFarSpan zeroEndpoint 100).cg <<< 10) &&& 0xF800 =
      (63 <<< 10) &&& 0xF800 ∧
    ((_lerpEndpoint nearFarSpan zeroEndpoint 100).cb <<< 18) &&& 0xF80000 =
      (63 <<< 18) &&& 0xF80000 ∧
    _finishColor (_lerpEndpoint nearFarSpan zeroEndpoint 100).cr
      (_lerpEndpoint nearFarSpan zeroEndpoint 100).cg
      (_lerpEndpoint nearFarSpan zeroEndpoint 100).cb = _finishColor 63 63 63 :=
  lerpEndpoint_odd_channel nearFarSpan zeroEndpoint 100 63 63 63 (by decide) (by decide)
    (by decide) (by decide) (by decide) (by decide) (by decide) (by decide) (by decide)
    (by decide) (by decide) (by decide) (by decide)

theorem lerpEndpoint_indep (sp : DSGXSoftwareSpan) (ep ep2 : DSGXSoftwareEndpoint) (x : Nat)
    (h : wrap32 (sp.ep1.x - sp.ep0.x) ≠ 0) :
    (_lerpEndpoint sp ep x).w = (_lerpEndpoint sp ep2 x).w ∧
    (_lerpEndpoint sp ep x).cr = (_lerpEndpoint sp ep2 x).cr ∧
    (_lerpEndpoint sp ep x).cg = (_lerpEndpoint sp ep2 x).cg ∧
    (_lerpEndpoint sp ep x).cb = (_lerpEndpoint sp ep2 x).cb := by
  unfold _lerpEndpoint
  simp only [h, if_false, and_self]

theorem wrap32_isInt32 (x : Int) : isInt32 (wrap32 x) := by
  unfold isInt32 wrap32 wrapS
  norm_num
  omega

theorem edgeToSpan_x_int32 (span : DSGXSoftwareSpan) (edge : DSGXSoftwareEdge) (index : Nat)
    (y : Int) (h : isInt32 span.ep0.x ∧ isInt32 span.ep1.x) :
    isInt32 (_edgeToSpan span edge index y).2.ep0.x ∧
    isInt32 (_edgeToSpan span edge index y).2.ep1.x := by
  have hw := wrap32_isInt32
  unfold _edgeToSpan
  simp only []
  by_cases h0 : wrap32 (edge.y1 - edge.y0) = 0
  · simp only [h0, if_true]
    exact h
  · simp only [h0, if_false]
    by_cases hi : index = 0
    · subst hi
      simp [DSGXSoftwareSpan.setEp, DSGXSoftwareSpan.ep, h.2, hw]
    · simp only [DSGXSoftwareSpan.setEp, DSGXSoftwareSpan.ep, hi, if_false, ne_eq, not_false_eq_true,
        true_and]
      split_ifs <;> simp_all [hw]

theorem addEdgeToSpans_x_int32 (y : Int) (edge : DSGXSoftwareEdge)
    (spans : List DSGXSoftwareSpan) (bucket : Nat → Option Nat)
    (h : ∀ s ∈ spans, isInt32 s.ep0.x ∧ isInt32 s.ep1.x) :
    ∀ s ∈ (addEdgeToSpans y edge spans bucket).1, isInt32 s.ep0.x ∧ isInt32 s.ep1.x := by
  have hz : isInt32 zeroSpan.ep0.x ∧ isInt32 zeroSpan.ep1.x := by decide
  unfold addEdgeToSpans
  simp only []
  cases hb : bucket edge.polyId with
  | none =>
    simp only []
    split_ifs with h1
    · exact h
    · intro s hs
      rcases List.mem_append.1 hs with hs | hs
      · exact h s hs
      · rw [List.mem_singleton] at hs
        subst hs
        exact edgeToSpan_x_int32 _ _ _ _ hz
  | some k =>
    simp only []
    split_ifs with h1
    · intro s hs
      rcases List.mem_or_eq_of_mem_set hs with hs | hs
      · exact h s hs
      · subst hs
        apply edgeToSpan_x_int32
        by_cases hk : k < spans.length
        · rw [List.getD_eq_getElem _ _ hk]
          exact h _ (List.getElem_mem _)
        · rw [List.getD_eq_default _ _ (by omega)]
          exact hz
    · exact h

theorem sweepEdges_x_int32 (y : Int) :
    ∀ (es : List DSGXSoftwareEdge), ∀ s ∈ (sweepEdges y es).spans,
      isInt32 s.ep0.x ∧ isInt32 s.ep1.x
  | [] => by simp [sweepEdges]
  | e :: rest => by
    have ih := sweepEdges_x_int32 y rest
    unfold sweepEdges sweepEdge
    split_ifs
    · exact ih
    · exact ih
    · exact addEdgeToSpans_x_int32 y e _ _ ih


/-! ## The span sweep at one column -/

theorem retireSpans_dropWhile (i : Int) :
    ∀ (l : List DSGXSoftwareSpan) (nx : Int),
      (retireSpans i nx l).1 =
        l.dropWhile (fun sp => decide (i > shr12 sp.ep1.x ∨ sp.ep1.x = 0))
  | [], nx => by simp [retireSpans]
  | span :: rest, nx => by
    by_cases hc : i > shr12 span.ep1.x ∨ span.ep1.x = 0
    · cases rest with
      | nil => simp [retireSpans, hc]
      | cons next rest2 =>
        have ih := retireSpans_dropWhile i (next :: rest2) (shr12 next.ep0.x)
        rw [List.dropWhile_cons_of_pos (by simpa using hc), ← ih, retireSpans, if_pos hc]
    · simp only [retireSpans, hc, if_false]
      rw [List.dropWhile_cons_of_neg (by simpa using hc)]

theorem testSpans_keep (i : Nat) :
    ∀ (l : List DSGXSoftwareSpan) (depth : Int) (ep : DSGXSoftwareEndpoint)
      (span : Option DSGXSoftwareSpan),
      (∀ s ∈ (l.takeWhile (fun sp => decide ((i : Int) > shr12 sp.ep0.x))).filter
          (fun sp => decide ((i : Int) ≤ shr12 sp.ep1.x)),
        wrap32 (s.ep1.x - s.ep0.x) ≠ 0 ∧ depthAt s i ≤ depth) →
      (testSpans i l depth ep span).1 = span
  | [], _, _, _, _ => rfl
  | t :: rest, depth, ep, span, h => by
    unfold testSpans
    by_cases h1 : (i : Int) > shr12 t.ep0.x
    · rw [List.takeWhile_cons_of_pos (by simpa using h1)] at h
      by_cases h2 : (i : Int) ≤ shr12 t.ep1.x
      · rw [List.filter_cons_of_pos (by simpa using h2)] at h
        have ht := h t (List.mem_cons_self _ _)
        have hw : (_lerpEndpoint t ep i).w = depthAt t i := (lerpEndpoint_indep t ep _ i ht.1).1
        have h3 : ¬ (_lerpEndpoint t ep i).w > depth := by rw [hw]; omega
        simp only [h1, h2, h3, if_true, if_false]
        exact testSpans_keep i rest _ _ _ (fun s hs => h s (List.mem_cons_of_mem _ hs))
      · rw [List.filter_cons_of_neg (by simpa using h2)] at h
        simp only [h1, h2, if_true, if_false]
        exact testSpans_keep i rest _ _ _ h
    · simp only [h1, if_false]

theorem testSpans_first_greatest (i : Nat) (sp : DSGXSoftwareSpan) (B : List DSGXSoftwareSpan)
    (hB : ∀ s ∈ B, depthAt s i ≤ depthAt sp i) :
    ∀ (l : List DSGXSoftwareSpan) (A : List DSGXSoftwareSpan) (depth : Int)
      (ep : DSGXSoftwareEndpoint) (span : Option DSGXSoftwareSpan),
      (l.takeWhile (fun sp => decide ((i : Int) > shr12 sp.ep0.x))).filter
          (fun sp => decide ((i : Int) ≤ shr12 sp.ep1.x)) = A ++ sp :: B →
      (∀ s ∈ A ++ sp :: B, wrap32 (s.ep1.x - s.ep0.x) ≠ 0) →
      (∀ s ∈ A, depthAt s i < depthAt sp i) → depth < depthAt sp i →
      (testSpans i l depth ep span).1 = some sp
  | [], A, _, _, _, h, _, _, _ => by simp at h
  | t :: rest, A, depth, ep, span, h, hW, hA, hd => by
    unfold testSpans
    by_cases h1 : (i : Int) > shr12 t.ep0.x
    · rw [List.takeWhile_cons_of_pos (by simpa using h1)] at h
      by_cases h2 : (i : Int) ≤ shr12 t.ep1.x
      · rw [List.filter_cons_of_pos (by simpa using h2)] at h
        simp only [h1, h2, if_true]
        cases A with
        | nil =>
          simp only [List.nil_append, List.cons.injEq] at h
          obtain ⟨ht, hrest⟩ := h
          subst ht
          have hw0 := hW t (by simp)
          have hw : (_lerpEndpoint t ep i).w = depthAt t i := (lerpEndpoint_indep t ep _ i hw0).1
          have h3 : (_lerpEndpoint t ep i).w > depth := by rw [hw]; omega
          simp only [h3, if_true]
          apply testSpans_keep
          intro s hs
          rw [hrest] at hs
          exact ⟨hW s (by simp [hs]), by rw [hw]; exact hB s hs⟩
        | cons a A2 =>
          simp only [List.cons_append, List.cons.injEq] at h
          obtain ⟨ht, hrest⟩ := h
          subst ht
          have hw0 := hW t (by simp)
          have hw : (_lerpEndpoint t ep i).w = depthAt t i := (lerpEndpoint_indep t ep _ i hw0).1
          have hlt := hA t (List.mem_cons_self _ _)
          have hW2 : ∀ s ∈ A2 ++ sp :: B, wrap32 (s.ep1.x - s.ep0.x) ≠ 0 :=
            fun s hs => hW s (List.mem_cons_of_mem _ hs)
          have hA2 : ∀ s ∈ A2, depthAt s i < depthAt sp i :=
            fun s hs => hA s (List.mem_cons_of_mem _ hs)
          split_ifs with h3
          · exact testSpans_first_greatest i sp B hB rest A2 _ _ _ hrest hW2 hA2
              (by rw [hw]; exact hlt)
          · exact testSpans_first_greatest i sp B hB rest A2 _ _ _ hrest hW2 hA2 hd
      · rw [List.filter_cons_of_neg (by simpa using h2)] at h
        simp only [h1, h2, if_true, if_false]
        exact testSpans_first_greatest i sp B hB rest A _ _ _ h hW hA hd
    · rw [List.takeWhile_cons_of_neg (by simpa using h1)] at h
      simp at h


theorem shr12_mono {a b : Int} (h : a ≤ b) : shr12 a ≤ shr12 b := by
  unfold shr12
  omega

theorem examinedSpans_mem (i : Nat) (T : List DSGXSoftwareSpan) (s : DSGXSoftwareSpan)
    (hs : s ∈ examinedSpans i T) :
    s ∈ T ∧ shr12 s.ep0.x < i ∧ (i : Int) ≤ shr12 s.ep1.x := by
  unfold examinedSpans at hs
  obtain ⟨h1, h2⟩ := List.mem_filter.1 hs
  have h3 := List.mem_takeWhile_imp h1
  have h4 := (List.takeWhile_sublist _).subset h1
  have h5 := (List.dropWhile_sublist _).subset h4
  exact ⟨h5, by simpa using h3, by simpa using h2⟩

theorem examinedSpans_wide (i : Nat) (T : List DSGXSoftwareSpan)
    (hT : ∀ s ∈ T, isInt32 s.ep0.x ∧ isInt32 s.ep1.x) (s : DSGXSoftwareSpan)
    (hs : s ∈ examinedSpans i T) : wrap32 (s.ep1.x - s.ep0.x) ≠ 0 := by
  obtain ⟨hm, h1, h2⟩ := examinedSpans_mem i T s hs
  obtain ⟨⟨a1, a2⟩, b1, b2⟩ := hT s hm
  have hlt : s.ep0.x < s.ep1.x := shr12_lt_imp (lt_of_lt_of_le h1 h2)
  exact wrap32_ne_zero (by omega) (by omega) (by omega)

theorem depthAt_ge (s : DSGXSoftwareSpan) (i : Nat) (h : wrap32 (s.ep1.x - s.ep0.x) ≠ 0) :
    INT32_MIN ≤ depthAt s i := by
  unfold depthAt
  rw [(lerpEndpoint_fields s zeroEndpoint i h).1]
  exact (wrap32_isInt32 _).1

theorem selectSpan_table (i : Nat) (junk : DSGXSoftwareEndpoint) (L : List DSGXSoftwareSpan)
    (nx : Int) :
    (selectSpan i junk L nx).2.2.1 =
      if (i : Int) ≥ nx then
        L.dropWhile (fun sp => decide ((i : Int) > shr12 sp.ep1.x ∨ sp.ep1.x = 0))
      else L := by
  unfold selectSpan
  by_cases h1 : (i : Int) ≥ nx
  · simp only [h1, if_true]
    split_ifs <;> exact retireSpans_dropWhile _ _ _
  · simp only [h1, if_false]

theorem selectSpan_first_greatest (i : Nat) (junk : DSGXSoftwareEndpoint)
    (T L D : List DSGXSoftwareSpan) (nx : Int) (hnx : nx = initialNextSpanX L)
    (hTD : T = D ++ L) (hD : ∀ d ∈ D, (i : Int) > shr12 d.ep1.x ∨ d.ep1.x = 0)
    (hsorted : L.Pairwise (fun a b => a.ep0.x ≤ b.ep0.x))
    (hT : ∀ s ∈ T, isInt32 s.ep0.x ∧ isInt32 s.ep1.x)
    (sp : DSGXSoftwareSpan) (A B : List DSGXSoftwareSpan)
    (hex : examinedSpans i T = A ++ sp :: B)
    (hA : ∀ s ∈ A, depthAt s i < depthAt sp i) (hB : ∀ s ∈ B, depthAt s i ≤ depthAt sp i) :
    (selectSpan i junk L nx).1 = some sp := by
  have hW : ∀ s ∈ A ++ sp :: B, wrap32 (s.ep1.x - s.ep0.x) ≠ 0 := by
    intro s hs
    rw [← hex] at hs
    exact examinedSpans_wide i T hT s hs
  have e1 : ((L.dropWhile (fun sp => decide ((i : Int) > shr12 sp.ep1.x ∨ sp.ep1.x = 0))).takeWhile
      (fun sp => decide ((i : Int) > shr12 sp.ep0.x))).filter
      (fun sp => decide ((i : Int) ≤ shr12 sp.ep1.x)) = A ++ sp :: B := by
    rw [← hex]
    unfold examinedSpans
    rw [hTD, List.dropWhile_append_of_pos (fun d hd => by simpa using hD d hd)]
  unfold selectSpan
  by_cases h1 : (i : Int) ≥ nx
  · obtain ⟨_, hinv, hhead⟩ := retireSpans_spec i L nx hnx
    have hdw := retireSpans_dropWhile i L nx
    simp only [h1, if_true]
    rw [← hdw] at e1
    cases hl : (retireSpans i nx L).1 with
    | nil => rw [hl] at e1; simp at e1
    | cons h rest =>
      rw [hl] at e1 hinv hhead
      simp only [initialNextSpanX] at hinv
      have hh := hhead h (by simp)
      by_cases hq : (i : Int) > shr12 h.ep0.x
      · have h2 : ¬ ((i : Int) < (retireSpans i nx L).2) := by rw [hinv]; omega
        simp only [h2, if_false]
        by_cases hd : INT32_MIN < depthAt sp i
        · exact testSpans_first_greatest i sp B hB _ A _ _ _ e1 hW hA hd
        · have hsp := depthAt_ge sp i (hW sp (by simp))
          have hAnil : A = [] := by
            cases A with
            | nil => rfl
            | cons a A2 =>
              have ha := hA a (List.mem_cons_self _ _)
              have ha2 := depthAt_ge a i (hW a (by simp))
              omega
          subst hAnil
          have e2 := e1
          rw [List.takeWhile_cons_of_pos (by simpa using hq),
            List.filter_cons_of_pos (by simpa using hh.1)] at e2
          simp only [List.nil_append, List.cons.injEq] at e2
          rw [testSpans_keep i (h :: rest) INT32_MIN junk _ (fun s hs => by
            rw [e1] at hs
            refine ⟨hW s hs, ?_⟩
            simp only [List.nil_append, List.mem_cons] at hs
            rcases hs with hs | hs
            · subst hs; omega
            · have := hB s hs
              omega)]
          simp only [List.head?_cons, e2.1]
      · rw [List.takeWhile_cons_of_neg (by simpa using hq)] at e1
        simp at e1
  · exfalso
    have hnil : (L.dropWhile (fun sp => decide ((i : Int) > shr12 sp.ep1.x ∨ sp.ep1.x = 0))).takeWhile
        (fun sp => decide ((i : Int) > shr12 sp.ep0.x)) = [] := by
      cases L with
      | nil => rfl
      | cons h rest =>
        simp only [initialNextSpanX] at hnx
        have hall : ∀ s ∈ h :: rest, ¬ ((i : Int) > shr12 s.ep0.x) := by
          intro s hs
          have hle : h.ep0.x ≤ s.ep0.x := by
            rcases List.mem_cons.1 hs with hs | hs
            · rw [hs]
            · exact (List.pairwise_cons.1 hsorted).1 s hs
          have := shr12_mono hle
          omega
        cases hdl : (h :: rest).dropWhile
            (fun sp => decide ((i : Int) > shr12 sp.ep1.x ∨ sp.ep1.x = 0)) with
        | nil => rfl
        | cons a as =>
          have ha : a ∈ h :: rest := (List.dropWhile_sublist _).subset (by rw [hdl]; simp)
          rw [List.takeWhile_cons_of_neg (by simpa using hall a ha)]
    rw [hnil] at e1
    simp at e1

theorem pixelLoop_first_greatest (base : Int) (junk : Nat → DSGXSoftwareEndpoint)
    (T : List DSGXSoftwareSpan) (hT : ∀ s ∈ T, isInt32 s.ep0.x ∧ isInt32 s.ep1.x)
    (hsorted : T.Pairwise (fun a b => a.ep0.x ≤ b.ep0.x)) (j : Nat)
    (sp : DSGXSoftwareSpan) (A B : List DSGXSoftwareSpan)
    (hex : examinedSpans j T = A ++ sp :: B)
    (hA : ∀ s ∈ A, depthAt s j < depthAt sp j) (hB : ∀ s ∈ B, depthAt s j ≤ depthAt sp j) :
    ∀ (n i : Nat) (st : PixelState), st.nextSpanX = initialNextSpanX st.spans →
      (∃ D, T = D ++ st.spans ∧ ∀ d ∈ D, (i : Int) > shr12 d.ep1.x ∨ d.ep1.x = 0) →
      i ≤ j → j < i + n →
      ∃ ep, (pixelLoop base junk n i st).cache (base + j) = pixelColor j (some sp) ep
  | 0, _, _, _, _, h1, h2 => by omega
  | n + 1, i, st, hn, ⟨D, hTD, hD⟩, h1, h2 => by
    rw [pixelLoop]
    by_cases hj : j = i
    · subst hj
      have hL : st.spans.Pairwise (fun a b => a.ep0.x ≤ b.ep0.x) := by
        rw [hTD] at hsorted
        exact hsorted.sublist (List.sublist_append_right _ _)
      have hsel := selectSpan_first_greatest j (junk j) T st.spans D st.nextSpanX hn hTD hD hL hT
        sp A B hex hA hB
      rw [pixelLoop_cache_other base junk n (j + 1) _ _ (fun j' h1 _ => by omega)]
      simp only [pixelStep, Function.update_same, hsel]
      exact ⟨_, rfl⟩
    · obtain ⟨_, hinv, _⟩ := selectSpan_spec i (junk i) st.spans st.nextSpanX hn
      have htab := selectSpan_table i (junk i) st.spans st.nextSpanX
      refine pixelLoop_first_greatest base junk T hT hsorted j sp A B hex hA hB n (i + 1) _
        (by simp only [pixelStep]; exact hinv) ?_ (by omega) (by omega)
      simp only [pixelStep]
      rw [htab]
      split_ifs with hc
      · refine ⟨D ++ st.spans.takeWhile
          (fun sp => decide ((i : Int) > shr12 sp.ep1.x ∨ sp.ep1.x = 0)), ?_, ?_⟩
        · rw [List.append_assoc, List.takeWhile_append_dropWhile, hTD]
        · intro d hd
          rcases List.mem_append.1 hd with hd | hd
          · rcases hD d hd with h | h
            · left; push_cast; omega
            · exact Or.inr h
          · have := List.mem_takeWhile_imp hd
            simp only [decide_eq_true_eq] at this
            rcases this with h | h
            · left; push_cast; omega
            · exact Or.inr h
      · refine ⟨D, hTD, fun d hd => ?_⟩
        rcases hD d hd with h | h
        · left; push_cast; omega
        · exact Or.inr h


/-! ## Spans of equal depth -/

/-- C18. For every renderer state, scanline `y` and column `i < 256`: when
`sp` is the first of the spans examined at column `i` (those the test loop
reaches with left pixel < i <= right pixel, listed from the tail of the span
table sorted by `_spanSort`) whose interpolated depth term is the greatest
among the spans examined, that is every span examined before it has a smaller
depth term and every span examined after it a smaller or equal one,
`drawScanline` writes the colour of `sp` at column `i`; the spans examined
stand in the order of the reversed sorted table. -/
theorem drawScanline_tie_break (r : DSGXSoftwareRenderer) (y : Int)
    (junk : Nat → DSGXSoftwareEndpoint) (i : Nat) (hi : i < 256)
    (sp : DSGXSoftwareSpan) (A B : List DSGXSoftwareSpan)
    (hex : examinedSpans i (qsortSpans (sweepEdges y r.activeEdges).spans).reverse =
      A ++ sp :: B)
    (hA : ∀ s ∈ A, depthAt s i < depthAt sp i) (hB : ∀ s ∈ B, depthAt s i ≤ depthAt sp i) :
    scanlineRow (DSGXSoftwareRendererDrawScanline r y junk) y i =
      _finishColor (_lerpEndpoint sp zeroEndpoint i).cr (_lerpEndpoint sp zeroEndpoint i).cg
        (_lerpEndpoint sp zeroEndpoint i).cb ∧
    List.Sublist (A ++ sp :: B) (qsortSpans (sweepEdges y r.activeEdges).spans).reverse := by
  have hT : ∀ s ∈ (qsortSpans (sweepEdges y r.activeEdges).spans).reverse,
      isInt32 s.ep0.x ∧ isInt32 s.ep1.x := by
    intro s hs
    rw [List.mem_reverse] at hs
    exact sweepEdges_x_int32 y r.activeEdges s
      ((List.perm_insertionSort spanLE _).mem_iff.1 hs)
  have hsorted : (qsortSpans (sweepEdges y r.activeEdges).spans).reverse.Pairwise
      (fun a b => a.ep0.x ≤ b.ep0.x) := by
    rw [List.pairwise_reverse]
    refine List.Pairwise.imp ?_ (List.sorted_insertionSort spanLE _)
    intro a b hab
    rw [spanLE_iff] at hab
    omega
  refine ⟨?_, ?_⟩
  · obtain ⟨ep, hep⟩ := pixelLoop_first_greatest (rowBase y) junk _ hT hsorted i sp A B hex hA hB
      256 0 ⟨(qsortSpans (sweepEdges y r.activeEdges).spans).reverse,
        initialNextSpanX (qsortSpans (sweepEdges y r.activeEdges).spans).reverse,
        r.scanlineCache⟩ rfl ⟨[], rfl, fun d hd => by simp at hd⟩ (Nat.zero_le _) (by omega)
    have hw := examinedSpans_wide i _ hT sp (by rw [hex]; simp)
    obtain ⟨_, c1, c2, c3⟩ := lerpEndpoint_indep sp ep zeroEndpoint i hw
    show (pixelLoop (rowBase y) junk 256 0
      ⟨(qsortSpans (sweepEdges y r.activeEdges).spans).reverse,
        initialNextSpanX (qsortSpans (sweepEdges y r.activeEdges).spans).reverse,
        r.scanlineCache⟩).cache (rowBase y + i) = _
    rw [hep]
    simp only [pixelColor, c1, c2, c3]
  · rw [← hex]
    unfold examinedSpans
    exact (List.filter_sublist _).trans
      ((List.takeWhile_sublist _).trans (List.dropWhile_sublist _))

set_option maxRecDepth 100000 in
/-- Witness of C18: the red quad (columns 5 to 15) and the blue quad (columns
8 to 12) of `levelVerts` have the same depth term 4096; at row 15, column 10
the red span is examined first and the blue span second, and the red colour is
drawn. -/
theorem drawScanline_tie_break_witness :
    examinedSpans 10 (qsortSpans (sweepEdges 15 (DSGXSoftwareRendererSetRAM emptyRenderer
      levelVerts [⟨4, [0, 1, 2, 3]⟩, ⟨4, [4, 5, 6, 7]⟩]).activeEdges).spans).reverse =
      [] ++ redSpan :: [levelSpan] ∧
    depthAt levelSpan 10 = depthAt redSpan 10 ∧
    (scanlineRow (DSGXSoftwareRendererDrawScanline (DSGXSoftwareRendererSetRAM emptyRenderer
        levelVerts [⟨4, [0, 1, 2, 3]⟩, ⟨4, [4, 5, 6, 7]⟩]) 15 zeroJunk) 15 10 =
      _finishColor (_lerpEndpoint redSpan zeroEndpoint 10).cr
        (_lerpEndpoint redSpan zeroEndpoint 10).cg (_lerpEndpoint redSpan zeroEndpoint 10).cb ∧
    List.Sublist ([] ++ redSpan :: [levelSpan])
      (qsortSpans (sweepEdges 15 (DSGXSoftwareRendererSetRAM emptyRenderer
        levelVerts [⟨4, [0, 1, 2, 3]⟩, ⟨4, [4, 5, 6, 7]⟩]).activeEdges).spans).reverse) :=
  ⟨by decide, by decide,
    drawScanline_tie_break (DSGXSoftwareRendererSetRAM emptyRenderer
      levelVerts [⟨4, [0, 1, 2, 3]⟩, ⟨4, [4, 5, 6, 7]⟩]) 15 zeroJunk 10 (by decide) redSpan []
      [levelSpan] (by decide) (fun s hs => by simp at hs) (by decide)⟩

end DSGX
